import Mathlib

/-!
# Balance reconciliation queries of the exchange keeper

A shallow embedding of `GetAllBalancesWithBalanceHolds` and `BalanceMismatches`
from `injective-chain/modules/exchange/keeper/grpc_query.go`, followed by the
queries `FeeDiscountTierStatistics`, `AggregateVolumes` and the two
cancel-up-to-amount requests of the same file.

* A Go panic (nil dereference, write to a nil map) is the result `none`.
* `sdk.Dec` is a pointer to a big integer counting units of `10^-18`; the
  pointer may be nil, and an operation on a nil decimal panics.  `Add`, `Sub`
  and `MulInt64` panic with `Int overflow` when the integer of the result
  has more than `maxDecBitLen = 315` bits.
* Declarations of package `types` that the file only calls (the order and
  market types and their methods) are fields of `Keeper`.
-/

namespace Exchange

/-! ## Decimals (`sdk.Dec`) -/

/-- An `sdk.Dec`: `i = none` is the nil decimal, `i = some n` the decimal `n * 10^-18`. -/
structure Dec where
  i : Option Int
deriving DecidableEq, Repr

namespace Dec

/-- Number of decimal places of an `sdk.Dec`. -/
def Precision : Nat := 18

/-- Go `d.IsNil()`. -/
def IsNil (d : Dec) : Bool := d.i.isNone

/-- Go `sdk.ZeroDec()`. -/
def ZeroDec : Dec := ⟨some 0⟩

/-- Go `sdk.SmallestDec()`: one unit in the last place, `10^-18`. -/
def SmallestDec : Dec := ⟨some 1⟩

/-- Go `sdk.NewDec(n)`: the whole number `n`. -/
def NewDec (n : Int) : Dec := ⟨some (n * 10 ^ Precision)⟩

/-- The bits of `maxDecBitLen` that are left for the whole part of a decimal. -/
def integerBits : Nat := 255

/-- Go `DecimalPrecisionBits`: the bits needed for 18 decimal places. -/
def decimalPrecisionBits : Nat := 60

/-- Go `maxDecBitLen`: the most bits the integer of an `sdk.Dec` result may
have, `315`. -/
def maxDecBitLen : Nat := integerBits + decimalPrecisionBits

/-- The least absolute value that has more than `maxDecBitLen` bits, `2^315`. -/
def decBound : Int := Int.ofNat (2 ^ integerBits * 2 ^ decimalPrecisionBits)

/-- Go `n.BitLen() <= maxDecBitLen` for a big integer `n`: its absolute value
is below `2^315`.  A result that fails the test makes the library panic with
`Int overflow`. -/
def fits (n : Int) : Bool := decide (|n| < decBound)

/-- Go `d.Add(d2)`; a nil operand panics, and so does a sum of more than
`maxDecBitLen` bits. -/
def Add (d d2 : Dec) : Option Dec :=
  match d.i, d2.i with
  | some a, some b => if fits (a + b) then some ⟨some (a + b)⟩ else none
  | _, _ => none

/-- Go `d.Sub(d2)`; a nil operand panics, and so does a difference of more
than `maxDecBitLen` bits. -/
def Sub (d d2 : Dec) : Option Dec :=
  match d.i, d2.i with
  | some a, some b => if fits (a - b) then some ⟨some (a - b)⟩ else none
  | _, _ => none

/-- Go `d.Abs()`; a nil receiver panics. -/
def Abs (d : Dec) : Option Dec :=
  match d.i with
  | some a => some ⟨some |a|⟩
  | none => none

/-- Go `d.MulInt64(n)`; a nil receiver panics, and so does a product of more
than `maxDecBitLen` bits. -/
def MulInt64 (d : Dec) (n : Int) : Option Dec :=
  match d.i with
  | some a => if fits (a * n) then some ⟨some (a * n)⟩ else none
  | none => none

/-- Go `d.LT(d2)`; a nil operand panics. -/
def LT (d d2 : Dec) : Option Bool :=
  match d.i, d2.i with
  | some a, some b => some (decide (a < b))
  | _, _ => none

/-- The integer count of `10^-18` units of a decimal (`0` for the nil decimal). -/
def raw (d : Dec) : Int := d.i.getD 0

end Dec

open Dec

/-! ## Records -/

/-- Go `types.Deposit`, the two fields read here. -/
structure Deposit where
  AvailableBalance : Dec
  TotalBalance : Dec
deriving DecidableEq, Repr

/-- Go `types.Balance`, an entry of `GetAllExchangeBalances`. -/
structure Balance where
  SubaccountId : String
  Denom : String
  Deposits : Deposit
deriving DecidableEq, Repr

/-- Go `types.BalanceWithMarginHold`. -/
structure BalanceWithMarginHold where
  SubaccountId : String
  Denom : String
  Available : Dec
  Total : Dec
  BalanceHold : Dec
deriving DecidableEq, Repr

/-- Go `types.BalanceMismatch`. -/
structure BalanceMismatch where
  SubaccountId : String
  Denom : String
  Available : Dec
  Total : Dec
  BalanceHold : Dec
  ExpectedTotal : Dec
  Difference : Dec
deriving DecidableEq, Repr

/-- Go `types.QueryBalanceMismatchesRequest`; `DustFactor` is an `int64`. -/
structure QueryBalanceMismatchesRequest where
  DustFactor : Int
deriving DecidableEq, Repr

/-- Go `types.QueryBalanceMismatchesResponse`. -/
structure QueryBalanceMismatchesResponse where
  BalanceMismatches : List BalanceMismatch
deriving DecidableEq, Repr

/-! ## The mismatch filter of `BalanceMismatches` -/

/-- The body of the `for` loop of `BalanceMismatches` for one record: the
mismatch list after the iteration, or `none` when a decimal operation panics. -/
def BalanceMismatches.step (dustFactor : Int) (balanceMismatches : List BalanceMismatch)
    (balanceWithBalanceHold : BalanceWithMarginHold) : Option (List BalanceMismatch) := do
  let balanceHold := balanceWithBalanceHold.BalanceHold
  let expectedTotalBalance ← balanceWithBalanceHold.Available.Add balanceHold
  let deviation ← (← expectedTotalBalance.Sub balanceWithBalanceHold.Total).Abs
  let isMatching ← deviation.LT (← SmallestDec.MulInt64 dustFactor)
  if !isMatching then
    let difference ← expectedTotalBalance.Sub balanceWithBalanceHold.Total
    pure (balanceMismatches ++ [{
      SubaccountId := balanceWithBalanceHold.SubaccountId
      Denom := balanceWithBalanceHold.Denom
      Available := balanceWithBalanceHold.Available
      Total := balanceWithBalanceHold.Total
      BalanceHold := balanceHold
      ExpectedTotal := expectedTotalBalance
      Difference := difference }])
  else
    pure balanceMismatches

/-- The `for` loop of `BalanceMismatches` over the balance-with-hold records,
started with the mismatches collected so far. -/
def BalanceMismatches.loop (dustFactor : Int) :
    List BalanceMismatch → List BalanceWithMarginHold → Option (List BalanceMismatch)
  | balanceMismatches, [] => some balanceMismatches
  | balanceMismatches, b :: rest =>
    match BalanceMismatches.step dustFactor balanceMismatches b with
    | none => none
    | some balanceMismatches' => BalanceMismatches.loop dustFactor balanceMismatches' rest

/-! ## The hold map of `GetAllBalancesWithBalanceHolds` -/

/-- Go `map[string]sdk.Dec` read by an index expression: a missing key gives
the zero value of `sdk.Dec`, the nil decimal. -/
abbrev DenomHolds := String → Dec

/-- Go `map[string]map[string]sdk.Dec`: `none` at a subaccount is a missing
key (a nil inner map). -/
abbrev HoldMap := String → Option DenomHolds

namespace HoldMap

/-- Go `make(map[string]map[string]sdk.Dec)`. -/
def empty : HoldMap := fun _ => none

/-- Go `make(map[string]sdk.Dec)`. -/
def emptyDenomHolds : DenomHolds := fun _ => ⟨none⟩

/-- Go `balanceHolds[subaccountId][denom]`: indexing a nil inner map gives
the nil decimal. -/
def get (balanceHolds : HoldMap) (subaccountId denom : String) : Dec :=
  match balanceHolds subaccountId with
  | some holds => holds denom
  | none => ⟨none⟩

/-- Go `balanceHolds[subaccountId] = holds`. -/
def setDenomHolds (balanceHolds : HoldMap) (subaccountId : String) (holds : DenomHolds) :
    HoldMap :=
  fun s => if s = subaccountId then some holds else balanceHolds s

/-- Go `balanceHolds[subaccountId][denom] = amount`; writing into a nil inner
map panics. -/
def set (balanceHolds : HoldMap) (subaccountId denom : String) (amount : Dec) :
    Option HoldMap :=
  match balanceHolds subaccountId with
  | some holds =>
    some (setDenomHolds balanceHolds subaccountId
      (fun d => if d = denom then amount else holds d))
  | none => none

end HoldMap

/-- The closure `safeUpdateBalanceHolds` of `GetAllBalancesWithBalanceHolds`,
with the captured map passed in and the updated map returned. -/
def safeUpdateBalanceHolds (balanceHolds : HoldMap) (subaccountId denom : String)
    (amount : Dec) : Option HoldMap := do
  let balanceHolds :=
    if (balanceHolds subaccountId).isNone then
      balanceHolds.setDenomHolds subaccountId HoldMap.emptyDenomHolds
    else balanceHolds
  let balanceHolds ←
    if (balanceHolds.get subaccountId denom).IsNil then
      balanceHolds.set subaccountId denom ZeroDec
    else pure balanceHolds
  balanceHolds.set subaccountId denom (← (balanceHolds.get subaccountId denom).Add amount)

/-! ## Keeper state and the declarations of package `types` used by the queries -/

/-- Go `types.SpotOrderBook`, the fields read here. -/
structure SpotOrderBook (SpotLimitOrder : Type) where
  MarketId : String
  Orders : List SpotLimitOrder

/-- Go `types.DerivativeOrderBook`, the fields read here. -/
structure DerivativeOrderBook (DerivativeLimitOrder : Type) where
  MarketId : String
  Orders : List DerivativeLimitOrder

/-- Go `types.DepositDelta`. -/
structure DepositDelta where
  AvailableBalanceDelta : Dec
  TotalBalanceDelta : Dec
deriving DecidableEq, Repr

/-- The state read by the two queries through the keeper accessors, together
with the methods of package `types` and of `common` they call.  The order and
market types are parameters; a market accessor gives `none` for a nil market,
and a method gives `none` when it panics. -/
structure Keeper (Hash SpotLimitOrder SpotMarket DerivativeLimitOrder DerivativeMarket : Type) where
  /-- Go `common.HexToHash`. -/
  HexToHash : String → Hash
  /-- Go `k.GetAllExchangeBalances(ctx)`. -/
  GetAllExchangeBalances : List Balance
  /-- Go `k.GetAllSpotLimitOrderbook(ctx)`. -/
  GetAllSpotLimitOrderbook : List (SpotOrderBook SpotLimitOrder)
  /-- Go `k.GetAllDerivativeAndBinaryOptionsLimitOrderbook(ctx)`. -/
  GetAllDerivativeAndBinaryOptionsLimitOrderbook : List (DerivativeOrderBook DerivativeLimitOrder)
  /-- Go `k.GetSpotMarketByID(ctx, marketID)`. -/
  GetSpotMarketByID : Hash → Option SpotMarket
  /-- Go `k.GetDerivativeOrBinaryOptionsMarket(ctx, marketID, nil)`. -/
  GetDerivativeOrBinaryOptionsMarket : Hash → Option DerivativeMarket
  /-- Go `order.SubaccountID().Hex()` of a spot limit order. -/
  SpotSubaccountIDHex : SpotLimitOrder → String
  /-- Go `order.GetUnfilledMarginHoldAndMarginDenom(market, isTransient)`. -/
  GetUnfilledMarginHoldAndMarginDenom :
    SpotLimitOrder → Option SpotMarket → Bool → Option (Dec × String)
  /-- Go `order.SubaccountID().Hex()` of a derivative limit order. -/
  DerivativeSubaccountIDHex : DerivativeLimitOrder → String
  /-- Go `order.GetCancelDepositDelta(feeRate)`. -/
  GetCancelDepositDelta : DerivativeLimitOrder → Dec → Option DepositDelta
  /-- Go `market.GetMakerFeeRate()` on a non-nil market. -/
  GetMakerFeeRate : DerivativeMarket → Dec
  /-- Go `market.GetQuoteDenom()` on a non-nil market. -/
  GetQuoteDenom : DerivativeMarket → String

section Queries

variable {Hash SpotLimitOrder SpotMarket DerivativeLimitOrder DerivativeMarket : Type}

/-- The inner `for` loop over the orders of one spot order book. -/
def GetAllBalancesWithBalanceHolds.spotOrders
    (k : Keeper Hash SpotLimitOrder SpotMarket DerivativeLimitOrder DerivativeMarket)
    (market : Option SpotMarket) : HoldMap → List SpotLimitOrder → Option HoldMap
  | balanceHolds, [] => some balanceHolds
  | balanceHolds, order :: rest =>
    match k.GetUnfilledMarginHoldAndMarginDenom order market false with
    | none => none
    | some (balanceHold, denom) =>
      match safeUpdateBalanceHolds balanceHolds (k.SpotSubaccountIDHex order) denom balanceHold with
      | none => none
      | some balanceHolds' => GetAllBalancesWithBalanceHolds.spotOrders k market balanceHolds' rest

/-- The `for` loop over `restingSpotOrders`. -/
def GetAllBalancesWithBalanceHolds.spotOrderbooks
    (k : Keeper Hash SpotLimitOrder SpotMarket DerivativeLimitOrder DerivativeMarket) :
    HoldMap → List (SpotOrderBook SpotLimitOrder) → Option HoldMap
  | balanceHolds, [] => some balanceHolds
  | balanceHolds, orderbook :: rest =>
    let market := k.GetSpotMarketByID (k.HexToHash orderbook.MarketId)
    match GetAllBalancesWithBalanceHolds.spotOrders k market balanceHolds orderbook.Orders with
    | none => none
    | some balanceHolds' => GetAllBalancesWithBalanceHolds.spotOrderbooks k balanceHolds' rest

/-- The body of the inner `for` loop over the orders of one derivative order
book: calling a method of a nil market panics. -/
def GetAllBalancesWithBalanceHolds.derivativeOrder
    (k : Keeper Hash SpotLimitOrder SpotMarket DerivativeLimitOrder DerivativeMarket)
    (market : Option DerivativeMarket) (balanceHolds : HoldMap)
    (order : DerivativeLimitOrder) : Option HoldMap :=
  match market with
  | none => none
  | some market =>
    match k.GetCancelDepositDelta order (k.GetMakerFeeRate market) with
    | none => none
    | some delta =>
      let balanceHold := delta.AvailableBalanceDelta
      safeUpdateBalanceHolds balanceHolds (k.DerivativeSubaccountIDHex order)
        (k.GetQuoteDenom market) balanceHold

/-- The inner `for` loop over the orders of one derivative order book. -/
def GetAllBalancesWithBalanceHolds.derivativeOrders
    (k : Keeper Hash SpotLimitOrder SpotMarket DerivativeLimitOrder DerivativeMarket)
    (market : Option DerivativeMarket) : HoldMap → List DerivativeLimitOrder → Option HoldMap
  | balanceHolds, [] => some balanceHolds
  | balanceHolds, order :: rest =>
    match GetAllBalancesWithBalanceHolds.derivativeOrder k market balanceHolds order with
    | none => none
    | some balanceHolds' =>
      GetAllBalancesWithBalanceHolds.derivativeOrders k market balanceHolds' rest

/-- The `for` loop over `restingDerivativeOrders`. -/
def GetAllBalancesWithBalanceHolds.derivativeOrderbooks
    (k : Keeper Hash SpotLimitOrder SpotMarket DerivativeLimitOrder DerivativeMarket) :
    HoldMap → List (DerivativeOrderBook DerivativeLimitOrder) → Option HoldMap
  | balanceHolds, [] => some balanceHolds
  | balanceHolds, orderbook :: rest =>
    let market := k.GetDerivativeOrBinaryOptionsMarket (k.HexToHash orderbook.MarketId)
    match GetAllBalancesWithBalanceHolds.derivativeOrders k market balanceHolds
        orderbook.Orders with
    | none => none
    | some balanceHolds' =>
      GetAllBalancesWithBalanceHolds.derivativeOrderbooks k balanceHolds' rest

/-- The first part of `GetAllBalancesWithBalanceHolds`: the hold map after the
spot and the derivative order books have been scanned. -/
def GetAllBalancesWithBalanceHolds.balanceHolds
    (k : Keeper Hash SpotLimitOrder SpotMarket DerivativeLimitOrder DerivativeMarket) :
    Option HoldMap :=
  match GetAllBalancesWithBalanceHolds.spotOrderbooks k HoldMap.empty
      k.GetAllSpotLimitOrderbook with
  | none => none
  | some balanceHolds =>
    GetAllBalancesWithBalanceHolds.derivativeOrderbooks k balanceHolds
      k.GetAllDerivativeAndBinaryOptionsLimitOrderbook

/-- The last `for` loop of `GetAllBalancesWithBalanceHolds`: one record is
appended for each balance. -/
def GetAllBalancesWithBalanceHolds.join (balanceHolds : HoldMap) :
    List BalanceWithMarginHold → List Balance → List BalanceWithMarginHold
  | balanceWithBalanceHolds, [] => balanceWithBalanceHolds
  | balanceWithBalanceHolds, balance :: rest =>
    let balanceHold := balanceHolds.get balance.SubaccountId balance.Denom
    let balanceHold := if balanceHold.IsNil then ZeroDec else balanceHold
    GetAllBalancesWithBalanceHolds.join balanceHolds
      (balanceWithBalanceHolds ++ [{
        SubaccountId := balance.SubaccountId
        Denom := balance.Denom
        Available := balance.Deposits.AvailableBalance
        Total := balance.Deposits.TotalBalance
        BalanceHold := balanceHold }]) rest

/-- Go `(k *Keeper) GetAllBalancesWithBalanceHolds(ctx)`; `none` is a panic. -/
def GetAllBalancesWithBalanceHolds
    (k : Keeper Hash SpotLimitOrder SpotMarket DerivativeLimitOrder DerivativeMarket) :
    Option (List BalanceWithMarginHold) :=
  match GetAllBalancesWithBalanceHolds.balanceHolds k with
  | none => none
  | some balanceHolds =>
    some (GetAllBalancesWithBalanceHolds.join balanceHolds [] k.GetAllExchangeBalances)

/-- Go `(k *Keeper) BalanceMismatches(c, req)`: `none` is a panic; the error
result of the Go function is `nil` on every return path. -/
def BalanceMismatches
    (k : Keeper Hash SpotLimitOrder SpotMarket DerivativeLimitOrder DerivativeMarket)
    (req : QueryBalanceMismatchesRequest) : Option QueryBalanceMismatchesResponse :=
  match GetAllBalancesWithBalanceHolds k with
  | none => none
  | some balancesWithBalanceHolds =>
    match BalanceMismatches.loop req.DustFactor [] balancesWithBalanceHolds with
    | none => none
    | some balanceMismatches => some { BalanceMismatches := balanceMismatches }

end Queries

/-! ## Vocabulary of the statements -/

/-- A record all of whose decimals are non-nil. -/
def BalanceWithMarginHold.WellFormed (r : BalanceWithMarginHold) : Prop :=
  r.Available.IsNil = false ∧ r.Total.IsNil = false ∧ r.BalanceHold.IsNil = false

instance (r : BalanceWithMarginHold) : Decidable r.WellFormed := by
  unfold BalanceWithMarginHold.WellFormed; infer_instance

/-- The deviation `|(available + hold) - total|` of a record, in units of `10^-18`. -/
def BalanceWithMarginHold.deviation (r : BalanceWithMarginHold) : Int :=
  |r.Available.raw + r.BalanceHold.raw - r.Total.raw|

/-- The sums the loop of `BalanceMismatches` computes for a record stay within
the range of a decimal: `available + hold` and `(available + hold) - total`
have at most `maxDecBitLen` bits. -/
def BalanceWithMarginHold.InRange (r : BalanceWithMarginHold) : Prop :=
  |r.Available.raw + r.BalanceHold.raw| < decBound ∧
    |r.Available.raw + r.BalanceHold.raw - r.Total.raw| < decBound

instance (r : BalanceWithMarginHold) : Decidable r.InRange := by
  unfold BalanceWithMarginHold.InRange; infer_instance

/-- The values of a Go `int64`, the type of `req.DustFactor`. -/
def IsInt64 (n : Int) : Prop := -2 ^ 63 ≤ n ∧ n < 2 ^ 63

instance (n : Int) : Decidable (IsInt64 n) := by
  unfold IsInt64; infer_instance

/-- The balance-with-hold record whose five fields a mismatch record carries. -/
def BalanceMismatch.source (m : BalanceMismatch) : BalanceWithMarginHold :=
  { SubaccountId := m.SubaccountId, Denom := m.Denom, Available := m.Available,
    Total := m.Total, BalanceHold := m.BalanceHold }

/-- The mismatch record of a well-formed balance-with-hold record, in closed form. -/
def BalanceWithMarginHold.mismatch (r : BalanceWithMarginHold) : BalanceMismatch :=
  { SubaccountId := r.SubaccountId, Denom := r.Denom, Available := r.Available,
    Total := r.Total, BalanceHold := r.BalanceHold,
    ExpectedTotal := ⟨some (r.Available.raw + r.BalanceHold.raw)⟩,
    Difference := ⟨some (r.Available.raw + r.BalanceHold.raw - r.Total.raw)⟩ }

/-- The record of the tolerance-boundary test: available `100`, hold `0` and
total `100 + smallestUnit * dustFactor + extra * smallestUnit`. -/
def boundaryRecord (subaccountId denom : String) (dustFactor extra : Int) :
    BalanceWithMarginHold :=
  { SubaccountId := subaccountId, Denom := denom, Available := NewDec 100,
    Total := ⟨some ((NewDec 100).raw + SmallestDec.raw * dustFactor + extra)⟩,
    BalanceHold := ZeroDec }

/-- The contribution of one resting order to the hold map: the key
`(subaccount, denom)` and the amount passed to `safeUpdateBalanceHolds`. -/
structure HoldContribution where
  SubaccountId : String
  Denom : String
  Amount : Dec
deriving DecidableEq, Repr

/-- A contribution whose computation did not panic and whose amount is not nil. -/
def contributionOk : Option HoldContribution → Bool
  | some c => !c.Amount.IsNil
  | none => false

/-- The contributions of a list that are keyed by `(subaccountId, denom)`. -/
def matchingContributions (cs : List (Option HoldContribution)) (subaccountId denom : String) :
    List HoldContribution :=
  (cs.filterMap id).filter (fun c => decide (c.SubaccountId = subaccountId ∧ c.Denom = denom))

/-- The exact sum, in units of `10^-18`, of the contributions keyed by
`(subaccountId, denom)`. -/
def holdSum (cs : List (Option HoldContribution)) (subaccountId denom : String) : Int :=
  ((matchingContributions cs subaccountId denom).map (fun c => c.Amount.raw)).sum

/-- The hold map after the contributions of a list have been passed, in
order, to `safeUpdateBalanceHolds`. -/
def applyContributions : HoldMap → List (Option HoldContribution) → Option HoldMap
  | balanceHolds, [] => some balanceHolds
  | _, none :: _ => none
  | balanceHolds, some c :: rest =>
    match safeUpdateBalanceHolds balanceHolds c.SubaccountId c.Denom c.Amount with
    | none => none
    | some balanceHolds' => applyContributions balanceHolds' rest

/-- A contribution whose amount is not negative (a panicking or nil
contribution counts as not negative). -/
def amountNonneg : Option HoldContribution → Bool
  | some c => decide (0 ≤ c.Amount.raw)
  | none => true

section Contributions

variable {Hash SpotLimitOrder SpotMarket DerivativeLimitOrder DerivativeMarket : Type}

/-- What the scan of a spot order book passes to `safeUpdateBalanceHolds` for
one order: `none` when the margin-hold method panics. -/
def Keeper.spotContribution
    (k : Keeper Hash SpotLimitOrder SpotMarket DerivativeLimitOrder DerivativeMarket)
    (market : Option SpotMarket) (order : SpotLimitOrder) : Option HoldContribution :=
  match k.GetUnfilledMarginHoldAndMarginDenom order market false with
  | none => none
  | some (balanceHold, denom) => some ⟨k.SpotSubaccountIDHex order, denom, balanceHold⟩

/-- What the scan of a derivative order book passes to `safeUpdateBalanceHolds`
for one order: `none` when the market is nil or the delta method panics. -/
def Keeper.derivativeContribution
    (k : Keeper Hash SpotLimitOrder SpotMarket DerivativeLimitOrder DerivativeMarket)
    (market : Option DerivativeMarket) (order : DerivativeLimitOrder) :
    Option HoldContribution :=
  match market with
  | none => none
  | some market =>
    match k.GetCancelDepositDelta order (k.GetMakerFeeRate market) with
    | none => none
    | some delta =>
      some ⟨k.DerivativeSubaccountIDHex order, k.GetQuoteDenom market,
        delta.AvailableBalanceDelta⟩

/-- The contributions of the orders of one spot order book. -/
def Keeper.spotBookContributions
    (k : Keeper Hash SpotLimitOrder SpotMarket DerivativeLimitOrder DerivativeMarket)
    (orderbook : SpotOrderBook SpotLimitOrder) : List (Option HoldContribution) :=
  orderbook.Orders.map (k.spotContribution (k.GetSpotMarketByID (k.HexToHash orderbook.MarketId)))

/-- The contributions of the orders of one derivative order book. -/
def Keeper.derivativeBookContributions
    (k : Keeper Hash SpotLimitOrder SpotMarket DerivativeLimitOrder DerivativeMarket)
    (orderbook : DerivativeOrderBook DerivativeLimitOrder) : List (Option HoldContribution) :=
  orderbook.Orders.map
    (k.derivativeContribution (k.GetDerivativeOrBinaryOptionsMarket (k.HexToHash orderbook.MarketId)))

/-- The contributions of all resting orders, spot and derivative together. -/
def Keeper.holdContributions
    (k : Keeper Hash SpotLimitOrder SpotMarket DerivativeLimitOrder DerivativeMarket) :
    List (Option HoldContribution) :=
  k.GetAllSpotLimitOrderbook.flatMap k.spotBookContributions ++
    k.GetAllDerivativeAndBinaryOptionsLimitOrderbook.flatMap k.derivativeBookContributions

/-- The sum of the amounts of all contributions, in units of `10^-18`. -/
def totalHold (cs : List (Option HoldContribution)) : Int :=
  ((cs.filterMap id).map (fun c => c.Amount.raw)).sum

/-- A sufficient condition for the scan of the order books to return: every
contribution is defined, non-nil and non-negative and the contributions sum to
less than `2^315` units. -/
def Keeper.HoldsInRange
    (k : Keeper Hash SpotLimitOrder SpotMarket DerivativeLimitOrder DerivativeMarket) : Prop :=
  (∀ c ∈ k.holdContributions, contributionOk c = true ∧ amountNonneg c = true) ∧
    totalHold k.holdContributions < decBound

instance (k : Keeper Hash SpotLimitOrder SpotMarket DerivativeLimitOrder DerivativeMarket) :
    Decidable k.HoldsInRange := by
  unfold Keeper.HoldsInRange; infer_instance

/-- The hold view in closed form: each recorded balance with the sum of the
contributions under its key as hold. -/
def Keeper.sumView
    (k : Keeper Hash SpotLimitOrder SpotMarket DerivativeLimitOrder DerivativeMarket) :
    List BalanceWithMarginHold :=
  k.GetAllExchangeBalances.map (fun b =>
    { SubaccountId := b.SubaccountId, Denom := b.Denom,
      Available := b.Deposits.AvailableBalance, Total := b.Deposits.TotalBalance,
      BalanceHold := ⟨some (holdSum k.holdContributions b.SubaccountId b.Denom)⟩ })

/-- The records of the hold view have non-nil decimals and sums within the
decimal range. -/
def Keeper.ViewInRange
    (k : Keeper Hash SpotLimitOrder SpotMarket DerivativeLimitOrder DerivativeMarket) : Prop :=
  ∀ r ∈ k.sumView, r.WellFormed ∧ r.InRange

instance (k : Keeper Hash SpotLimitOrder SpotMarket DerivativeLimitOrder DerivativeMarket) :
    Decidable k.ViewInRange := by
  unfold Keeper.ViewInRange; infer_instance

/-- The keeper `k` with its two lists of order books replaced. -/
def Keeper.withOrderbooks
    (k : Keeper Hash SpotLimitOrder SpotMarket DerivativeLimitOrder DerivativeMarket)
    (spot : List (SpotOrderBook SpotLimitOrder))
    (derivative : List (DerivativeOrderBook DerivativeLimitOrder)) :
    Keeper Hash SpotLimitOrder SpotMarket DerivativeLimitOrder DerivativeMarket :=
  { k with
    GetAllSpotLimitOrderbook := spot
    GetAllDerivativeAndBinaryOptionsLimitOrderbook := derivative }

end Contributions

/-- The record the last loop of `GetAllBalancesWithBalanceHolds` appends for
one balance, in closed form. -/
def HoldMap.withHold (balanceHolds : HoldMap) (balance : Balance) : BalanceWithMarginHold :=
  { SubaccountId := balance.SubaccountId, Denom := balance.Denom,
    Available := balance.Deposits.AvailableBalance, Total := balance.Deposits.TotalBalance,
    BalanceHold :=
      if (balanceHolds.get balance.SubaccountId balance.Denom).IsNil then ZeroDec
      else balanceHolds.get balance.SubaccountId balance.Denom }

/-- The ledger part of a balance-with-hold record: subaccount id, denom,
available and total balance. -/
def BalanceWithMarginHold.ledger (r : BalanceWithMarginHold) : String × String × Dec × Dec :=
  (r.SubaccountId, r.Denom, r.Available, r.Total)

/-- The ledger part of a recorded balance. -/
def Balance.ledger (b : Balance) : String × String × Dec × Dec :=
  (b.SubaccountId, b.Denom, b.Deposits.AvailableBalance, b.Deposits.TotalBalance)

/-- The map written by `safeUpdateBalanceHolds` for a non-nil amount. -/
def HoldMap.added (bh : HoldMap) (s d : String) (a : Int) : HoldMap :=
  fun s' => if s' = s then
      some (fun d' => if d' = d then ⟨some ((bh.get s d).raw + a)⟩ else bh.get s d')
    else bh s'

/-- The hold map after the amounts of a list of contributions have been added
under their keys, without any test of the range. -/
def HoldMap.addAll : HoldMap → List (Option HoldContribution) → HoldMap
  | bh, [] => bh
  | bh, none :: rest => HoldMap.addAll bh rest
  | bh, some c :: rest =>
    HoldMap.addAll (bh.added c.SubaccountId c.Denom c.Amount.raw) rest

/-- Every entry of a hold map is a non-negative amount within the decimal range. -/
def HoldMap.NonnegInRange (bh : HoldMap) : Prop :=
  ∀ s d, 0 ≤ (bh.get s d).raw ∧ (bh.get s d).raw < decBound

/-- Two lists of spot order books that differ by a permutation of the books
followed by a permutation of the orders inside each book. -/
def SpotBooksPermuted {SpotLimitOrder : Type}
    (books books' : List (SpotOrderBook SpotLimitOrder)) : Prop :=
  ∃ mid, List.Perm books mid ∧
    List.Forall₂ (fun b b' => b.MarketId = b'.MarketId ∧ List.Perm b.Orders b'.Orders) mid books'

/-- Two lists of derivative order books that differ by a permutation of the
books followed by a permutation of the orders inside each book. -/
def DerivativeBooksPermuted {DerivativeLimitOrder : Type}
    (books books' : List (DerivativeOrderBook DerivativeLimitOrder)) : Prop :=
  ∃ mid, List.Perm books mid ∧
    List.Forall₂ (fun b b' => b.MarketId = b'.MarketId ∧ List.Perm b.Orders b'.Orders) mid books'

section OrderHolds

variable {Hash SpotLimitOrder SpotMarket DerivativeLimitOrder DerivativeMarket : Type}

/-- The amount the scan of a derivative order book computes for an order: the
`AvailableBalanceDelta` of `order.GetCancelDepositDelta(market.GetMakerFeeRate())`;
the nil decimal stands for a method that panics. -/
def Keeper.cancelHold
    (k : Keeper Hash SpotLimitOrder SpotMarket DerivativeLimitOrder DerivativeMarket)
    (market : DerivativeMarket) (order : DerivativeLimitOrder) : Dec :=
  match k.GetCancelDepositDelta order (k.GetMakerFeeRate market) with
  | some delta => delta.AvailableBalanceDelta
  | none => ⟨none⟩

/-- The pair the scan of a spot order book computes for an order:
`order.GetUnfilledMarginHoldAndMarginDenom(market, false)`; the nil decimal
stands for a method that panics. -/
def Keeper.spotHold
    (k : Keeper Hash SpotLimitOrder SpotMarket DerivativeLimitOrder DerivativeMarket)
    (market : Option SpotMarket) (order : SpotLimitOrder) : Dec × String :=
  match k.GetUnfilledMarginHoldAndMarginDenom order market false with
  | some p => p
  | none => (⟨none⟩, "")

end OrderHolds

/-! ## Example keepers -/

/-- An order of the example keepers: it carries its subaccount and the amount
its margin-hold method returns. -/
structure ExampleOrder where
  SubaccountID : String
  Hold : Dec
deriving DecidableEq, Repr

/-- An example keeper: hashes are the market id strings, a market is its quote
denom, the markets `"M1"` (spot) and `"D1"` (derivative) exist with quote denom
`"USDT"`, the margin-hold methods return the amount an order carries (the spot
method panics on a nil market), and the maker fee rate is zero. -/
def exampleKeeper (balances : List Balance) (spot : List (SpotOrderBook ExampleOrder))
    (derivative : List (DerivativeOrderBook ExampleOrder)) :
    Keeper String ExampleOrder String ExampleOrder String :=
  { HexToHash := id
    GetAllExchangeBalances := balances
    GetAllSpotLimitOrderbook := spot
    GetAllDerivativeAndBinaryOptionsLimitOrderbook := derivative
    GetSpotMarketByID := fun h => if h = "M1" then some "USDT" else none
    GetDerivativeOrBinaryOptionsMarket := fun h => if h = "D1" then some "USDT" else none
    SpotSubaccountIDHex := fun o => o.SubaccountID
    GetUnfilledMarginHoldAndMarginDenom := fun o market _ =>
      match market with
      | some quoteDenom => some (o.Hold, quoteDenom)
      | none => none
    DerivativeSubaccountIDHex := fun o => o.SubaccountID
    GetCancelDepositDelta := fun o _ => some ⟨o.Hold, o.Hold⟩
    GetMakerFeeRate := fun _ => ZeroDec
    GetQuoteDenom := fun market => market }

/-- Scenario A: one spot order book with one order holding `5` USDT for `S1`,
and the balance `S1/USDT` with available `95` and total `100`. -/
def scenarioA : Keeper String ExampleOrder String ExampleOrder String :=
  exampleKeeper [⟨"S1", "USDT", ⟨NewDec 95, NewDec 100⟩⟩]
    [⟨"M1", [⟨"S1", NewDec 5⟩]⟩] []

/-- A keeper with a spot hold of `3` and a derivative hold of `4` for `S1/USDT`,
a derivative hold of `2` for `S2/USDT`, and balances for `S1/USDT`, `S2/USDT`
and `S3/USDT`. -/
def exampleMixed : Keeper String ExampleOrder String ExampleOrder String :=
  exampleKeeper
    [⟨"S1", "USDT", ⟨NewDec 93, NewDec 100⟩⟩, ⟨"S2", "USDT", ⟨NewDec 8, NewDec 10⟩⟩,
     ⟨"S3", "USDT", ⟨NewDec 1, NewDec 2⟩⟩]
    [⟨"M1", [⟨"S1", NewDec 3⟩]⟩]
    [⟨"D1", [⟨"S2", NewDec 2⟩, ⟨"S1", NewDec 4⟩]⟩]

/-- Scenario B: scenario A with the recorded total `101`. -/
def scenarioB : Keeper String ExampleOrder String ExampleOrder String :=
  exampleKeeper [⟨"S1", "USDT", ⟨NewDec 95, NewDec 101⟩⟩]
    [⟨"M1", [⟨"S1", NewDec 5⟩]⟩] []

/-- An example keeper whose only order books, one spot and one derivative,
name markets that do not exist and hold no order. -/
def unresolvedEmptyBooks : Keeper String ExampleOrder String ExampleOrder String :=
  exampleKeeper [⟨"S1", "USDT", ⟨NewDec 95, NewDec 100⟩⟩] [⟨"MX", []⟩] [⟨"DX", []⟩]

/-- An example keeper whose only order book is a derivative book that names a
market that does not exist and holds one order. -/
def unresolvedDerivativeBook : Keeper String ExampleOrder String ExampleOrder String :=
  exampleKeeper [⟨"S1", "USDT", ⟨NewDec 95, NewDec 100⟩⟩] [] [⟨"DX", [⟨"S1", NewDec 5⟩]⟩]

/-- An example keeper whose only order book is a spot book that names a market
that does not exist and holds one order. -/
def unresolvedSpotBook : Keeper String ExampleOrder String ExampleOrder String :=
  exampleKeeper [⟨"S1", "USDT", ⟨NewDec 95, NewDec 100⟩⟩] [⟨"MX", [⟨"S1", NewDec 5⟩]⟩] []

/-- Scenario C: two derivative orders of `S1` in two books of the market `"D1"`
(quote denom `USDT`), contributing holds of `3` and `4`. -/
def scenarioC : Keeper String ExampleOrder String ExampleOrder String :=
  exampleKeeper [⟨"S1", "USDT", ⟨NewDec 93, NewDec 100⟩⟩] []
    [⟨"D1", [⟨"S1", NewDec 3⟩]⟩, ⟨"D1", [⟨"S1", NewDec 4⟩]⟩]

/-- An example keeper with a spot hold of `5` USDT for `S9`, a subaccount
without recorded balance, and the one balance `S1/USDT`. -/
def exampleOrphanHold : Keeper String ExampleOrder String ExampleOrder String :=
  exampleKeeper [⟨"S1", "USDT", ⟨NewDec 95, NewDec 100⟩⟩] [⟨"M1", [⟨"S9", NewDec 5⟩]⟩] []

/-- An example keeper whose one balance has the largest available amount a
decimal can hold, `2^315 - 1` units, total `0`, and a spot hold of one unit. -/
def overflowKeeper : Keeper String ExampleOrder String ExampleOrder String :=
  exampleKeeper [⟨"S1", "USDT", ⟨⟨some (decBound - 1)⟩, ZeroDec⟩⟩]
    [⟨"M1", [⟨"S1", SmallestDec⟩]⟩] []

/-! ## `FeeDiscountTierStatistics` -/

/-- Go `types.FeeDiscountTierTTL`, the field read by the query; `Tier` is a `uint64`. -/
structure FeeDiscountTierTTL where
  Tier : Nat
deriving DecidableEq, Repr

/-- An element of `k.GetAllFeeDiscountAccountTierInfo(ctx)`, the field read by the query. -/
structure FeeDiscountAccountTierTTL where
  TierTtl : FeeDiscountTierTTL
deriving DecidableEq, Repr

/-- Go `types.FeeDiscountSchedule`, the field read by the query; the tier
infos are only counted, so their type is a parameter. -/
structure FeeDiscountSchedule (TierInfo : Type) where
  TierInfos : List TierInfo

/-- Go `types.TierStatistic`; both fields are `uint64`. -/
structure TierStatistic where
  Tier : Nat
  Count : Nat
deriving DecidableEq, Repr

/-- Go `types.QueryFeeDiscountTierStatisticsResponse`. -/
structure QueryFeeDiscountTierStatisticsResponse where
  Statistics : List TierStatistic
deriving DecidableEq, Repr

/-- The state read by `FeeDiscountTierStatistics`: the schedule pointer of
`k.GetFeeDiscountSchedule(ctx)` (`none` is nil) and the account tier infos. -/
structure FeeDiscountKeeper (TierInfo : Type) where
  GetFeeDiscountSchedule : Option (FeeDiscountSchedule TierInfo)
  GetAllFeeDiscountAccountTierInfo : List FeeDiscountAccountTierTTL

/-- The number of values of a `uint64`. -/
def uint64Size : Nat := 2 ^ 64

/-- The second loop of `FeeDiscountTierStatistics`:
`tierStatistics[accountTierInfo.TierTtl.Tier]++` for each account, on a
`map[uint64]uint64` read by index (a missing key reads as `0`). -/
def FeeDiscountTierStatistics.countAccounts :
    (Nat → Nat) → List FeeDiscountAccountTierTTL → (Nat → Nat)
  | tierStatistics, [] => tierStatistics
  | tierStatistics, accountTierInfo :: rest =>
    FeeDiscountTierStatistics.countAccounts
      (Function.update tierStatistics accountTierInfo.TierTtl.Tier
        ((tierStatistics accountTierInfo.TierTtl.Tier + 1) % uint64Size)) rest

/-- Go `(k *Keeper) FeeDiscountTierStatistics(c, req)`: `none` is the panic of
reading `TierInfos` through a nil schedule; the error result is `nil` on the
only return path. -/
def FeeDiscountTierStatistics {TierInfo : Type} (k : FeeDiscountKeeper TierInfo) :
    Option QueryFeeDiscountTierStatisticsResponse :=
  match k.GetFeeDiscountSchedule with
  | none => none
  | some schedule =>
    let tierCount := schedule.TierInfos.length
    let tierStatistics : Nat → Nat :=
      (List.range tierCount).foldl (fun m i => Function.update m i 0) (fun _ => 0)
    let tierStatistics :=
      FeeDiscountTierStatistics.countAccounts tierStatistics k.GetAllFeeDiscountAccountTierInfo
    let statistics := (List.range tierCount).map (fun i => ⟨i, tierStatistics i⟩)
    some { Statistics := statistics }

/-- An example fee discount state: a schedule of three tiers and four
accounts, with tiers `0`, `2`, `2` and `5`. -/
def exampleFeeDiscount : FeeDiscountKeeper Unit :=
  { GetFeeDiscountSchedule := some ⟨[(), (), ()]⟩
    GetAllFeeDiscountAccountTierInfo := [⟨⟨0⟩⟩, ⟨⟨2⟩⟩, ⟨⟨2⟩⟩, ⟨⟨5⟩⟩] }

/-! ## `AggregateVolumes` -/

/-- Go `types.MarketVolume`; the volume record type is a parameter. -/
structure MarketVolume (V : Type) where
  MarketId : String
  Volume : V
deriving DecidableEq, Repr

/-- Go `types.AggregateAccountVolumeRecord`. -/
structure AggregateAccountVolumeRecord (V : Type) where
  Account : String
  MarketVolumes : List (MarketVolume V)
deriving DecidableEq, Repr

/-- Go `types.QueryAggregateVolumesRequest`. -/
structure QueryAggregateVolumesRequest where
  Accounts : List String
  MarketIds : List String
deriving DecidableEq, Repr

/-- Go `types.QueryAggregateVolumesResponse`. -/
structure QueryAggregateVolumesResponse (V : Type) where
  AggregateAccountVolumes : List (AggregateAccountVolumeRecord V)
  AggregateMarketVolumes : List (MarketVolume V)
deriving DecidableEq, Repr

/-- The state read by `AggregateVolumes` through the keeper accessors, together
with the functions of `common`, `sdk` and package `types` it calls.  The hash,
volume, address and error types are parameters. -/
structure VolumeKeeper (Hash V AccAddress Error : Type) where
  /-- Go `common.HexToHash`. -/
  HexToHash : String → Hash
  /-- Go `hash.Hex()`. -/
  Hex : Hash → String
  /-- Go `types.IsHexHash`. -/
  IsHexHash : String → Bool
  /-- Go `sdk.AccAddressFromBech32`. -/
  AccAddressFromBech32 : String → Except Error AccAddress
  /-- Go `accAddress.String()`. -/
  AccAddressString : AccAddress → String
  /-- Go `volume.IsZero()`. -/
  IsZero : V → Bool
  /-- Go `k.GetMarketAggregateVolume(ctx, marketID)`. -/
  GetMarketAggregateVolume : Hash → V
  /-- Go `k.GetSubaccountMarketAggregateVolume(ctx, subaccountID, marketID)`. -/
  GetSubaccountMarketAggregateVolume : Hash → Hash → V
  /-- Go `k.GetAllSubaccountMarketAggregateVolumesByAccAddress(ctx, accAddress)`. -/
  GetAllSubaccountMarketAggregateVolumesByAccAddress : AccAddress → List (MarketVolume V)

section AggregateVolumesModel

variable {Hash V AccAddress Error : Type} [DecidableEq Hash]

/-- The first `for` loop of `AggregateVolumes`, over `req.MarketIds`, on the
state `(marketVolumes, marketIDs, marketIDMap)`; the set `marketIDMap` is read
as its membership test. -/
def AggregateVolumes.markets (k : VolumeKeeper Hash V AccAddress Error) :
    List (MarketVolume V) × List Hash × (Hash → Bool) → List String →
      List (MarketVolume V) × List Hash × (Hash → Bool)
  | state, [] => state
  | (marketVolumes, marketIDs, marketIDMap), marketId :: rest =>
    let marketID := k.HexToHash marketId
    if marketIDMap marketID then
      AggregateVolumes.markets k (marketVolumes, marketIDs, marketIDMap) rest
    else
      let volume := k.GetMarketAggregateVolume marketID
      let marketVolumes := marketVolumes ++ [{ MarketId := k.Hex marketID, Volume := volume }]
      let marketIDs := if !k.IsZero volume then marketIDs ++ [marketID] else marketIDs
      AggregateVolumes.markets k
        (marketVolumes, marketIDs, fun h => if h = marketID then true else marketIDMap h) rest

/-- The body of the second `for` loop of `AggregateVolumes` for one account:
the record appended, or the error returned. -/
def AggregateVolumes.account (k : VolumeKeeper Hash V AccAddress Error)
    (marketIDs : List Hash) (marketIDMap : Hash → Bool) (account : String) :
    Except Error (AggregateAccountVolumeRecord V) :=
  let subaccountRecord : AggregateAccountVolumeRecord V :=
    { Account := k.Hex (k.HexToHash account)
      MarketVolumes := marketIDs.map (fun marketID =>
        { MarketId := k.Hex marketID
          Volume := k.GetSubaccountMarketAggregateVolume (k.HexToHash account) marketID }) }
  match k.AccAddressFromBech32 account with
  | .error err =>
    if !k.IsHexHash account then .error err
    else .ok subaccountRecord
  | .ok accAddress =>
    if k.IsHexHash account then .ok subaccountRecord
    else
      .ok { Account := k.AccAddressString accAddress
            MarketVolumes :=
              (k.GetAllSubaccountMarketAggregateVolumesByAccAddress accAddress).filter
                (fun volume => marketIDMap (k.HexToHash volume.MarketId)) }

/-- The second `for` loop of `AggregateVolumes`, over `req.Accounts`. -/
def AggregateVolumes.accounts (k : VolumeKeeper Hash V AccAddress Error)
    (marketIDs : List Hash) (marketIDMap : Hash → Bool) :
    List (AggregateAccountVolumeRecord V) → List String →
      Except Error (List (AggregateAccountVolumeRecord V))
  | accountVolumes, [] => .ok accountVolumes
  | accountVolumes, account :: rest =>
    match AggregateVolumes.account k marketIDs marketIDMap account with
    | .error err => .error err
    | .ok record =>
      AggregateVolumes.accounts k marketIDs marketIDMap (accountVolumes ++ [record]) rest

/-- Go `(k *Keeper) AggregateVolumes(c, req)`. -/
def AggregateVolumes (k : VolumeKeeper Hash V AccAddress Error)
    (req : QueryAggregateVolumesRequest) : Except Error (QueryAggregateVolumesResponse V) :=
  match AggregateVolumes.markets k ([], [], fun _ => false) req.MarketIds with
  | (marketVolumes, marketIDs, marketIDMap) =>
    match AggregateVolumes.accounts k marketIDs marketIDMap [] req.Accounts with
    | .error err => .error err
    | .ok accountVolumes =>
      .ok { AggregateAccountVolumes := accountVolumes, AggregateMarketVolumes := marketVolumes }

end AggregateVolumesModel

/-- The distinct elements of a list in the order of their first occurrence. -/
def firstOccurrences {α : Type} [DecidableEq α] : List α → List α
  | [] => []
  | a :: l => a :: (firstOccurrences l).filter (fun b => decide (b ≠ a))

/-- An example volume state: hashes are strings, `"0xA"` and `"0xa"` have the
same hash, the market `"0xa"` has volume `7` and every other market volume `0`;
the one bech32 account is `"inj1"`. -/
def exampleVolumes : VolumeKeeper String Nat String String :=
  { HexToHash := fun s => if s = "0xA" then "0xa" else s
    Hex := fun h => h
    IsHexHash := fun s => s = "0xs1"
    AccAddressFromBech32 := fun s => if s = "inj1" then .ok s else .error "invalid bech32"
    AccAddressString := fun a => a
    IsZero := fun v => v = 0
    GetMarketAggregateVolume := fun h => if h = "0xa" then 7 else 0
    GetSubaccountMarketAggregateVolume := fun _ _ => 1
    GetAllSubaccountMarketAggregateVolumesByAccAddress := fun _ => [⟨"0xa", 2⟩, ⟨"0xc", 3⟩] }

/-! ## Orders to cancel up to an amount -/

/-- The sentinel errors of package `types` that the two queries return. -/
inductive ExchangeError where
  | ErrSpotMarketNotFound
  | ErrDerivativeMarketNotFound
  | ErrInvalidPrice
  | ErrTransientOrdersUpToCancelNotSupported
deriving DecidableEq, Repr

/-- Go `types.QueryTraderSpotOrdersToCancelUpToAmountRequest`; `ReferencePrice`
is a `*sdk.Dec` (`none` is the nil pointer) and the strategy type is a parameter. -/
structure QueryTraderSpotOrdersToCancelUpToAmountRequest (S : Type) where
  MarketId : String
  SubaccountId : String
  BaseAmount : Dec
  QuoteAmount : Dec
  Strategy : S
  ReferencePrice : Option Dec

/-- Go `types.QueryTraderDerivativeOrdersToCancelUpToAmountRequest`. -/
structure QueryTraderDerivativeOrdersToCancelUpToAmountRequest (S : Type) where
  MarketId : String
  SubaccountId : String
  QuoteAmount : Dec
  Strategy : S
  ReferencePrice : Option Dec

/-- Go `types.QueryTraderSpotOrdersResponse`. -/
structure QueryTraderSpotOrdersResponse (Order : Type) where
  Orders : List Order

/-- Go `types.QueryTraderDerivativeOrdersResponse`. -/
structure QueryTraderDerivativeOrdersResponse (Order : Type) where
  Orders : List Order

/-- The state read by the two cancel-up-to-amount queries and the functions
they call.  The hash, strategy, market and order types are parameters; a market
accessor gives `none` for a nil market and a selection function gives `none`
when it panics. -/
structure CancelKeeper (Hash S SpotMarket SpotOrder DerivativeMarket DerivativeOrder : Type) where
  /-- Go `common.HexToHash`. -/
  HexToHash : String → Hash
  /-- Go `types.CancellationStrategy_UnspecifiedOrder`. -/
  UnspecifiedOrder : S
  /-- Go `k.GetSpotMarket(ctx, marketID, isEnabled)`. -/
  GetSpotMarket : Hash → Bool → Option SpotMarket
  /-- Go `k.GetAllTraderSpotLimitOrders(ctx, marketID, subaccountID)`. -/
  GetAllTraderSpotLimitOrders : Hash → Hash → List SpotOrder
  /-- Go `GetSpotOrdersToCancelUpToAmount(market, orders, strategy, referencePrice,
  baseAmount, quoteAmount)`. -/
  GetSpotOrdersToCancelUpToAmount :
    SpotMarket → List SpotOrder → S → Option Dec → Dec → Dec → Option (List SpotOrder × Bool)
  /-- Go `k.GetDerivativeMarket(ctx, marketID, isEnabled)`. -/
  GetDerivativeMarket : Hash → Bool → Option DerivativeMarket
  /-- Go `k.GetAllTraderDerivativeLimitOrders(ctx, marketID, subaccountID)`. -/
  GetAllTraderDerivativeLimitOrders : Hash → Hash → List DerivativeOrder
  /-- Go `GetDerivativeOrdersToCancelUpToAmount(market, orders, strategy,
  referencePrice, quoteAmount)`. -/
  GetDerivativeOrdersToCancelUpToAmount :
    DerivativeMarket → List DerivativeOrder → S → Option Dec → Dec →
      Option (List DerivativeOrder × Bool)

/-- Go `req.ReferencePrice == nil || req.ReferencePrice.IsNil()`. -/
def referencePriceMissing : Option Dec → Bool
  | none => true
  | some price => price.IsNil

section CancelUpToAmount

variable {Hash S SpotMarket SpotOrder DerivativeMarket DerivativeOrder : Type} [DecidableEq S]

/-- Go `(k *Keeper) TraderSpotOrdersToCancelUpToAmountRequest(c, req)`: the
outer `none` is a panic of the selection function. -/
def TraderSpotOrdersToCancelUpToAmountRequest
    (k : CancelKeeper Hash S SpotMarket SpotOrder DerivativeMarket DerivativeOrder)
    (req : QueryTraderSpotOrdersToCancelUpToAmountRequest S) :
    Option (Except ExchangeError (QueryTraderSpotOrdersResponse SpotOrder)) :=
  let marketID := k.HexToHash req.MarketId
  match k.GetSpotMarket marketID true with
  | none => some (.error .ErrSpotMarketNotFound)
  | some market =>
    let subaccountID := k.HexToHash req.SubaccountId
    if req.Strategy ≠ k.UnspecifiedOrder ∧ referencePriceMissing req.ReferencePrice = true then
      some (.error .ErrInvalidPrice)
    else
      let traderOrders := k.GetAllTraderSpotLimitOrders marketID subaccountID
      match k.GetSpotOrdersToCancelUpToAmount market traderOrders req.Strategy
          req.ReferencePrice req.BaseAmount req.QuoteAmount with
      | none => none
      | some (ordersToCancel, hasProcessedFullAmount) =>
        if !hasProcessedFullAmount then
          some (.error .ErrTransientOrdersUpToCancelNotSupported)
        else some (.ok { Orders := ordersToCancel })

/-- Go `(k *Keeper) TraderDerivativeOrdersToCancelUpToAmountRequest(c, req)`:
the outer `none` is a panic of the selection function. -/
def TraderDerivativeOrdersToCancelUpToAmountRequest
    (k : CancelKeeper Hash S SpotMarket SpotOrder DerivativeMarket DerivativeOrder)
    (req : QueryTraderDerivativeOrdersToCancelUpToAmountRequest S) :
    Option (Except ExchangeError (QueryTraderDerivativeOrdersResponse DerivativeOrder)) :=
  let marketID := k.HexToHash req.MarketId
  match k.GetDerivativeMarket marketID true with
  | none => some (.error .ErrDerivativeMarketNotFound)
  | some market =>
    let subaccountID := k.HexToHash req.SubaccountId
    if req.Strategy ≠ k.UnspecifiedOrder ∧ referencePriceMissing req.ReferencePrice = true then
      some (.error .ErrInvalidPrice)
    else
      let traderOrders := k.GetAllTraderDerivativeLimitOrders marketID subaccountID
      match k.GetDerivativeOrdersToCancelUpToAmount market traderOrders req.Strategy
          req.ReferencePrice req.QuoteAmount with
      | none => none
      | some (ordersToCancel, hasProcessedFullAmount) =>
        if !hasProcessedFullAmount then
          some (.error .ErrTransientOrdersUpToCancelNotSupported)
        else some (.ok { Orders := ordersToCancel })

end CancelUpToAmount

/-- An example state for the cancel-up-to-amount queries: strategies are
numbers with `0` unspecified, the markets `"M1"` (spot) and `"D1"` (derivative)
exist, and the selection functions return all orders of the trader. -/
def exampleCancel : CancelKeeper String Nat Unit Nat Unit Nat :=
  { HexToHash := fun s => s
    UnspecifiedOrder := 0
    GetSpotMarket := fun h _ => if h = "M1" then some () else none
    GetAllTraderSpotLimitOrders := fun _ _ => [1, 2]
    GetSpotOrdersToCancelUpToAmount := fun _ orders _ _ _ _ => some (orders, true)
    GetDerivativeMarket := fun h _ => if h = "D1" then some () else none
    GetAllTraderDerivativeLimitOrders := fun _ _ => [3]
    GetDerivativeOrdersToCancelUpToAmount := fun _ orders _ _ _ => some (orders, true) }

/-! ## Lemmas on the decimal range -/

theorem Dec.decBound_eq : decBound = (2 : Int) ^ Dec.maxDecBitLen := by
  unfold Dec.decBound Dec.maxDecBitLen
  rw [pow_add, Int.ofNat_eq_coe]
  push_cast
  rfl

theorem Dec.decBound_pos : 0 < decBound := by
  unfold Dec.decBound Dec.integerBits Dec.decimalPrecisionBits
  norm_num

theorem Dec.fits_iff (n : Int) : Dec.fits n = true ↔ |n| < decBound := by
  simp [Dec.fits]

theorem Dec.fits_eq_false_iff (n : Int) : Dec.fits n = false ↔ ¬ |n| < decBound := by
  simp [Dec.fits]

theorem Dec.fits_of_isInt64 {n : Int} (h : IsInt64 n) : Dec.fits (SmallestDec.raw * n) = true := by
  rw [Dec.fits_iff]
  have hb : (2 : Int) ^ 63 < decBound := by
    unfold Dec.decBound Dec.integerBits Dec.decimalPrecisionBits
    norm_num
  obtain ⟨h₁, h₂⟩ := h
  simp only [Dec.SmallestDec, Dec.raw, Option.getD_some, one_mul]
  rw [abs_lt]
  constructor <;> omega

/-! ## Lemmas on the mismatch filter -/

theorem Dec.eq_of_IsNil_false {d : Dec} (h : d.IsNil = false) : d = ⟨some d.raw⟩ := by
  cases d with
  | mk i =>
    cases i with
    | none => simp [Dec.IsNil] at h
    | some a => simp [Dec.raw]

theorem BalanceWithMarginHold.mismatch_source (r : BalanceWithMarginHold) :
    r.mismatch.source = r := rfl

/-- One iteration of the loop returns exactly when the record has non-nil
decimals, its two sums and the threshold stay within the decimal range; it
then appends the record's mismatch unless the deviation is below the threshold. -/
theorem BalanceMismatches.step_some_iff (dustFactor : Int) (acc out : List BalanceMismatch)
    (r : BalanceWithMarginHold) :
    BalanceMismatches.step dustFactor acc r = some out ↔
      r.WellFormed ∧ r.InRange ∧ Dec.fits (SmallestDec.raw * dustFactor) = true ∧
        out = if r.deviation < SmallestDec.raw * dustFactor then acc else acc ++ [r.mismatch] := by
  obtain ⟨s, dn, ⟨a⟩, ⟨t⟩, ⟨h⟩⟩ := r
  cases a with
  | none => simp [BalanceMismatches.step, Dec.Add, BalanceWithMarginHold.WellFormed, Dec.IsNil]
  | some a =>
    cases h with
    | none => simp [BalanceMismatches.step, Dec.Add, BalanceWithMarginHold.WellFormed, Dec.IsNil]
    | some h =>
      cases t with
      | none =>
        simp only [BalanceMismatches.step, Dec.Add, Dec.Sub, BalanceWithMarginHold.WellFormed,
          Dec.IsNil, Option.isNone_none, Option.isNone_some]
        cases Dec.fits (a + h) <;> simp
      | some t =>
        simp only [BalanceWithMarginHold.WellFormed, BalanceWithMarginHold.InRange, Dec.IsNil,
          Option.isNone_some, and_self, true_and, Dec.raw, Option.getD_some,
          BalanceWithMarginHold.deviation, BalanceWithMarginHold.mismatch, Dec.SmallestDec,
          ← Dec.fits_iff]
        rw [one_mul]
        cases h₁ : Dec.fits (a + h) with
        | false => simp [BalanceMismatches.step, Dec.Add, h₁]
        | true =>
          cases h₂ : Dec.fits (a + h - t) with
          | false => simp [BalanceMismatches.step, Dec.Add, Dec.Sub, h₁, h₂]
          | true =>
            cases h₃ : Dec.fits dustFactor with
            | false =>
              simp [BalanceMismatches.step, Dec.Add, Dec.Sub, Dec.Abs, Dec.MulInt64,
                Dec.SmallestDec, h₁, h₂, h₃]
            | true =>
              simp only [true_and]
              by_cases hlt : |a + h - t| < dustFactor
              · have hstep : BalanceMismatches.step dustFactor acc
                    ⟨s, dn, ⟨some a⟩, ⟨some t⟩, ⟨some h⟩⟩ = some acc := by
                  simp [BalanceMismatches.step, Dec.Add, Dec.Sub, Dec.Abs, Dec.MulInt64, Dec.LT,
                    Dec.SmallestDec, h₁, h₂, h₃, hlt]
                rw [hstep, if_pos hlt, Option.some.injEq]
                exact eq_comm
              · have hstep : BalanceMismatches.step dustFactor acc
                    ⟨s, dn, ⟨some a⟩, ⟨some t⟩, ⟨some h⟩⟩ = some (acc ++
                      [⟨s, dn, ⟨some a⟩, ⟨some t⟩, ⟨some h⟩, ⟨some (a + h)⟩,
                        ⟨some (a + h - t)⟩⟩]) := by
                  simp [BalanceMismatches.step, Dec.Add, Dec.Sub, Dec.Abs, Dec.MulInt64, Dec.LT,
                    Dec.SmallestDec, h₁, h₂, h₃, hlt]
                rw [hstep, if_neg hlt, Option.some.injEq]
                exact eq_comm

/-- If the loop returns, every record has non-nil decimals and sums within the
decimal range, and the result is the mismatches of the records whose deviation
reaches the threshold, in input order. -/
theorem BalanceMismatches.loop_some (dustFactor : Int) (l : List BalanceWithMarginHold) :
    ∀ (acc out : List BalanceMismatch), BalanceMismatches.loop dustFactor acc l = some out →
      (∀ r ∈ l, r.WellFormed ∧ r.InRange) ∧
        out = acc ++ (l.filter
          (fun r => decide (SmallestDec.raw * dustFactor ≤ r.deviation))).map
            BalanceWithMarginHold.mismatch := by
  induction l with
  | nil =>
    intro acc out h
    simp only [BalanceMismatches.loop, Option.some.injEq] at h
    simp [h]
  | cons b rest ih =>
    intro acc out h
    rw [BalanceMismatches.loop] at h
    cases hstep : BalanceMismatches.step dustFactor acc b with
    | none => rw [hstep] at h; cases h
    | some acc' =>
      rw [hstep] at h
      simp only at h
      obtain ⟨hwf, hrange, _, hacc'⟩ := (BalanceMismatches.step_some_iff _ _ _ _).mp hstep
      obtain ⟨hrest, hout⟩ := ih acc' out h
      refine ⟨?_, ?_⟩
      · intro r hr
        rcases List.mem_cons.mp hr with rfl | hr'
        · exact ⟨hwf, hrange⟩
        · exact hrest r hr'
      · rw [hout, hacc']
        by_cases hlt : b.deviation < SmallestDec.raw * dustFactor
        · simp [hlt, List.filter_cons, not_le.mpr hlt]
        · simp [hlt, List.filter_cons, not_lt.mp hlt]

/-- The loop returns when the threshold and the sums of every record stay
within the decimal range and no decimal is nil. -/
theorem BalanceMismatches.loop_of_inRange (dustFactor : Int)
    (hd : Dec.fits (SmallestDec.raw * dustFactor) = true) (l : List BalanceWithMarginHold) :
    ∀ (acc : List BalanceMismatch), (∀ r ∈ l, r.WellFormed ∧ r.InRange) →
      BalanceMismatches.loop dustFactor acc l =
        some (acc ++ (l.filter
          (fun r => decide (SmallestDec.raw * dustFactor ≤ r.deviation))).map
            BalanceWithMarginHold.mismatch) := by
  induction l with
  | nil => intro acc _; simp [BalanceMismatches.loop]
  | cons b rest ih =>
    intro acc h
    have hb := h b (List.mem_cons_self _ _)
    have hrest : ∀ r ∈ rest, r.WellFormed ∧ r.InRange :=
      fun r hr => h r (List.mem_cons_of_mem _ hr)
    have hstep := (BalanceMismatches.step_some_iff dustFactor acc _ b).mpr
      ⟨hb.1, hb.2, hd, rfl⟩
    rw [BalanceMismatches.loop, hstep]
    simp only
    rw [ih _ hrest]
    by_cases hlt : b.deviation < SmallestDec.raw * dustFactor
    · simp [hlt, List.filter_cons, not_le.mpr hlt]
    · simp [hlt, List.filter_cons, not_lt.mp hlt]

/-- For an `int64` dust factor the loop returns exactly when every record has
non-nil decimals and sums within the decimal range. -/
theorem BalanceMismatches.loop_returns_iff (dustFactor : Int) (hd : IsInt64 dustFactor)
    (l : List BalanceWithMarginHold) :
    (∃ out, BalanceMismatches.loop dustFactor [] l = some out) ↔
      ∀ r ∈ l, r.WellFormed ∧ r.InRange := by
  constructor
  · rintro ⟨out, h⟩
    exact (BalanceMismatches.loop_some dustFactor l [] out h).1
  · intro h
    exact ⟨_, BalanceMismatches.loop_of_inRange dustFactor (Dec.fits_of_isInt64 hd) l [] h⟩

/-! ## The mismatch filter: classification -/

/-- C1: whenever the loop of `BalanceMismatches` returns, a record is in the
mismatch output if and only if its deviation `|(available + hold) - total|` is
at least `smallestUnit * dustFactor`, and it is left out exactly when the
deviation is strictly less than that threshold; and for an `int64` dust factor
the loop returns exactly when every record has non-nil decimals and sums within
the decimal range (otherwise a decimal operation panics). -/
theorem balanceMismatches_reports_iff_threshold_le_deviation
    (bwh : List BalanceWithMarginHold) (dustFactor : Int) :
    (∀ out, BalanceMismatches.loop dustFactor [] bwh = some out →
      ∀ r ∈ bwh,
        ((∃ m ∈ out, m.source = r) ↔ SmallestDec.raw * dustFactor ≤ r.deviation) ∧
        ((¬ ∃ m ∈ out, m.source = r) ↔ r.deviation < SmallestDec.raw * dustFactor)) ∧
    (IsInt64 dustFactor →
      ((∃ out, BalanceMismatches.loop dustFactor [] bwh = some out) ↔
        ∀ r ∈ bwh, r.WellFormed ∧ r.InRange)) := by
  refine ⟨?_, fun hd => BalanceMismatches.loop_returns_iff dustFactor hd bwh⟩
  intro out hout r hr
  obtain ⟨_, rfl⟩ := BalanceMismatches.loop_some dustFactor bwh [] out hout
  have key : (∃ m ∈ [] ++ (bwh.filter
      (fun r => decide (SmallestDec.raw * dustFactor ≤ r.deviation))).map
        BalanceWithMarginHold.mismatch, m.source = r) ↔
      SmallestDec.raw * dustFactor ≤ r.deviation := by
    constructor
    · rintro ⟨m, hm, hsrc⟩
      simp only [List.nil_append, List.mem_map, List.mem_filter, decide_eq_true_eq] at hm
      obtain ⟨r', ⟨_, hle⟩, rfl⟩ := hm
      rw [BalanceWithMarginHold.mismatch_source] at hsrc
      rw [← hsrc]; exact hle
    · intro hle
      refine ⟨r.mismatch, ?_, r.mismatch_source⟩
      simp only [List.nil_append, List.mem_map, List.mem_filter, decide_eq_true_eq]
      exact ⟨r, ⟨hr, hle⟩, rfl⟩
  exact ⟨key, by rw [key, not_le]⟩

/-- Witness of C1 on two records with dust factor `2`. -/
theorem balanceMismatches_reports_iff_threshold_le_deviation_witness :
    ∃ out, BalanceMismatches.loop 2 []
        [⟨"S1", "USDT", ⟨some 95⟩, ⟨some 100⟩, ⟨some 5⟩⟩,
         ⟨"S2", "USDT", ⟨some 95⟩, ⟨some 103⟩, ⟨some 5⟩⟩] = some out ∧
      ∀ r ∈ ([⟨"S1", "USDT", ⟨some 95⟩, ⟨some 100⟩, ⟨some 5⟩⟩,
              ⟨"S2", "USDT", ⟨some 95⟩, ⟨some 103⟩, ⟨some 5⟩⟩] :
              List BalanceWithMarginHold),
        ((∃ m ∈ out, m.source = r) ↔ SmallestDec.raw * 2 ≤ r.deviation) ∧
        ((¬ ∃ m ∈ out, m.source = r) ↔ r.deviation < SmallestDec.raw * 2) :=
  match ((balanceMismatches_reports_iff_threshold_le_deviation _ 2).2 (by decide)).mpr
      (by decide) with
  | ⟨out, h⟩ => ⟨out, h, (balanceMismatches_reports_iff_threshold_le_deviation _ 2).1 out h⟩

/-- C2, as stated, fails: with dust factor `1` the record with available `100`,
hold `0` and total `100 + smallestUnit` (deviation equal to the threshold) is
reported as a mismatch. -/
theorem boundary_record_is_reported :
    BalanceMismatches.loop 1 [] [boundaryRecord "S1" "USDT" 1 0] =
      some [(boundaryRecord "S1" "USDT" 1 0).mismatch] ∧
    BalanceMismatches.loop 1 [] [boundaryRecord "S1" "USDT" 1 0] ≠ some [] := by
  decide

theorem boundaryRecord_wellFormed (s dn : String) (d e : Int) :
    (boundaryRecord s dn d e).WellFormed := by
  simp [BalanceWithMarginHold.WellFormed, boundaryRecord, Dec.IsNil, Dec.NewDec, Dec.ZeroDec]

theorem boundaryRecord_deviation (s dn : String) (d e : Int) :
    (boundaryRecord s dn d e).deviation = |d + e| := by
  simp only [BalanceWithMarginHold.deviation, boundaryRecord, Dec.raw, Dec.NewDec,
    Dec.ZeroDec, Dec.SmallestDec, Option.getD_some]
  rw [← abs_neg]
  congr 1
  ring

theorem boundaryRecord_inRange (s dn : String) (d e : Int) (hd : IsInt64 d)
    (he : -1 ≤ e ∧ e ≤ 1) : (boundaryRecord s dn d e).InRange := by
  have hb : (2 : Int) ^ 100 ≤ decBound := by
    unfold Dec.decBound Dec.integerBits Dec.decimalPrecisionBits
    norm_num
  obtain ⟨h₁, h₂⟩ := hd
  have hdev := boundaryRecord_deviation s dn d e
  unfold BalanceWithMarginHold.deviation at hdev
  refine ⟨?_, ?_⟩
  · simp only [boundaryRecord, Dec.raw, Dec.NewDec, Dec.ZeroDec, Dec.Precision,
      Option.getD_some, add_zero]
    rw [abs_lt]
    constructor <;> omega
  · rw [hdev, abs_lt]
    constructor <;> omega

/-- C2, amended: for every `int64` dust factor the boundary record (available
`100`, hold `0`, total `100 + smallestUnit * dustFactor`, deviation equal to
the threshold) is reported as a mismatch, and so is the record with total one
smallest unit larger; for a dust factor of at least `1` the record with total
one smallest unit smaller is not reported; and every mismatch the loop
produces has a deviation of at least the tolerance `smallestUnit * dustFactor`. -/
theorem boundary_record_reported_at_threshold (s dn : String) (dustFactor : Int)
    (hd : IsInt64 dustFactor) :
    BalanceMismatches.loop dustFactor [] [boundaryRecord s dn dustFactor 0] =
      some [(boundaryRecord s dn dustFactor 0).mismatch] ∧
    BalanceMismatches.loop dustFactor [] [boundaryRecord s dn dustFactor 1] =
      some [(boundaryRecord s dn dustFactor 1).mismatch] ∧
    (1 ≤ dustFactor →
      BalanceMismatches.loop dustFactor [] [boundaryRecord s dn dustFactor (-1)] = some []) ∧
    (∀ (bwh : List BalanceWithMarginHold) (out : List BalanceMismatch),
      BalanceMismatches.loop dustFactor [] bwh = some out →
        ∀ m ∈ out, SmallestDec.raw * dustFactor ≤ m.source.deviation) := by
  have one : ∀ e : Int, -1 ≤ e ∧ e ≤ 1 →
      BalanceMismatches.loop dustFactor [] [boundaryRecord s dn dustFactor e] =
      some (if |dustFactor + e| < dustFactor then []
        else [(boundaryRecord s dn dustFactor e).mismatch]) := by
    intro e he
    rw [BalanceMismatches.loop_of_inRange dustFactor (Dec.fits_of_isInt64 hd) _ [] (by
      intro r hr
      rw [List.mem_singleton] at hr
      rw [hr]
      exact ⟨boundaryRecord_wellFormed s dn dustFactor e,
        boundaryRecord_inRange s dn dustFactor e hd he⟩)]
    simp only [List.nil_append, List.filter_cons, List.filter_nil, boundaryRecord_deviation,
      Dec.SmallestDec, Dec.raw, Option.getD_some, one_mul]
    by_cases h : |dustFactor + e| < dustFactor
    · simp [h, not_le.mpr h]
    · simp [h, not_lt.mp h]
  refine ⟨?_, ?_, ?_, ?_⟩
  · rw [one 0 (by omega), if_neg]
    rw [add_zero, not_lt]
    exact le_abs_self dustFactor
  · rw [one 1 (by omega), if_neg]
    rw [not_lt]
    exact le_trans (by omega) (le_abs_self (dustFactor + 1))
  · intro h
    rw [one (-1) (by omega), if_pos]
    rw [abs_of_nonneg (by omega)]
    omega
  · intro bwh out hout m hm
    obtain ⟨_, rfl⟩ := BalanceMismatches.loop_some dustFactor bwh [] out hout
    simp only [List.nil_append, List.mem_map, List.mem_filter, decide_eq_true_eq] at hm
    obtain ⟨r, ⟨_, hle⟩, rfl⟩ := hm
    rw [BalanceWithMarginHold.mismatch_source]
    exact hle

/-- Witness of the amended C2 at dust factor `5`. -/
theorem boundary_record_reported_at_threshold_witness :
    BalanceMismatches.loop 5 [] [boundaryRecord "S1" "USDT" 5 (-1)] = some [] ∧
    ∀ m ∈ [(boundaryRecord "S1" "USDT" 5 0).mismatch],
      SmallestDec.raw * 5 ≤ m.source.deviation :=
  ⟨(boundary_record_reported_at_threshold "S1" "USDT" 5 (by decide)).2.2.1 (by decide),
   (boundary_record_reported_at_threshold "S1" "USDT" 5 (by decide)).2.2.2
     [boundaryRecord "S1" "USDT" 5 0] _
     (boundary_record_reported_at_threshold "S1" "USDT" 5 (by decide)).1⟩

/-- C4: with dust factor `0`, whenever the loop of `BalanceMismatches` returns,
every record with `available + hold ≠ total` is in the mismatch output; and
the loop returns exactly when every record has non-nil decimals and sums within
the decimal range. -/
theorem dust_factor_zero_reports_every_nonzero_deviation
    (bwh : List BalanceWithMarginHold) :
    (∀ out, BalanceMismatches.loop 0 [] bwh = some out →
      ∀ r ∈ bwh, r.Available.raw + r.BalanceHold.raw ≠ r.Total.raw →
        ∃ m ∈ out, m.source = r) ∧
    ((∃ out, BalanceMismatches.loop 0 [] bwh = some out) ↔
      ∀ r ∈ bwh, r.WellFormed ∧ r.InRange) := by
  refine ⟨?_, BalanceMismatches.loop_returns_iff 0 (by decide) bwh⟩
  intro out hout r hr _
  obtain ⟨_, rfl⟩ := BalanceMismatches.loop_some 0 bwh [] out hout
  refine ⟨r.mismatch, ?_, r.mismatch_source⟩
  simp only [List.nil_append, List.mem_map, List.mem_filter, decide_eq_true_eq]
  refine ⟨r, ⟨hr, ?_⟩, rfl⟩
  rw [mul_zero]
  exact abs_nonneg _

/-- Witness of C4: a record with `95 + 5 ≠ 101` is reported at dust factor `0`. -/
theorem dust_factor_zero_reports_every_nonzero_deviation_witness :
    ∃ out, BalanceMismatches.loop 0 []
        [⟨"S1", "USDT", NewDec 95, NewDec 101, NewDec 5⟩] = some out ∧
      ∀ r ∈ ([⟨"S1", "USDT", NewDec 95, NewDec 101, NewDec 5⟩] : List BalanceWithMarginHold),
        r.Available.raw + r.BalanceHold.raw ≠ r.Total.raw → ∃ m ∈ out, m.source = r :=
  match (dust_factor_zero_reports_every_nonzero_deviation _).2.mpr (by decide) with
  | ⟨out, h⟩ => ⟨out, h, (dust_factor_zero_reports_every_nonzero_deviation _).1 out h⟩

/-- C10: whenever the loop of `BalanceMismatches` returns, every mismatch
record it emitted copies the subaccount id, denom, available, total and hold of
a record of the input, has `ExpectedTotal = available + hold` and
`Difference = ExpectedTotal - total`, which is positive exactly when the ledger
total is lower than expected and negative exactly when it is higher; and for an
`int64` dust factor the loop returns exactly when every record has non-nil
decimals and sums within the decimal range. -/
theorem mismatch_record_fields (bwh : List BalanceWithMarginHold) (dustFactor : Int) :
    (∀ out, BalanceMismatches.loop dustFactor [] bwh = some out →
      ∀ m ∈ out, ∃ r ∈ bwh,
        m.SubaccountId = r.SubaccountId ∧ m.Denom = r.Denom ∧ m.Available = r.Available ∧
        m.Total = r.Total ∧ m.BalanceHold = r.BalanceHold ∧
        r.Available.Add r.BalanceHold = some m.ExpectedTotal ∧
        m.ExpectedTotal.Sub r.Total = some m.Difference ∧
        (0 < m.Difference.raw ↔ r.Total.raw < m.ExpectedTotal.raw) ∧
        (m.Difference.raw < 0 ↔ m.ExpectedTotal.raw < r.Total.raw)) ∧
    (IsInt64 dustFactor →
      ((∃ out, BalanceMismatches.loop dustFactor [] bwh = some out) ↔
        ∀ r ∈ bwh, r.WellFormed ∧ r.InRange)) := by
  refine ⟨?_, fun hd => BalanceMismatches.loop_returns_iff dustFactor hd bwh⟩
  intro out hout m hm
  obtain ⟨hall, rfl⟩ := BalanceMismatches.loop_some dustFactor bwh [] out hout
  simp only [List.nil_append, List.mem_map, List.mem_filter, decide_eq_true_eq] at hm
  obtain ⟨r, ⟨hr, _⟩, rfl⟩ := hm
  obtain ⟨⟨ha, ht, hh⟩, hr₁, hr₂⟩ := hall r hr
  refine ⟨r, hr, rfl, rfl, rfl, rfl, rfl, ?_, ?_, ?_, ?_⟩
  · conv_lhs => rw [Dec.eq_of_IsNil_false ha, Dec.eq_of_IsNil_false hh]
    simp only [Dec.Add, (Dec.fits_iff _).mpr hr₁, if_true]
    rfl
  · conv_lhs => rw [Dec.eq_of_IsNil_false ht]
    simp only [Dec.Sub, BalanceWithMarginHold.mismatch, (Dec.fits_iff _).mpr hr₂, if_true]
  · simp only [BalanceWithMarginHold.mismatch, Dec.raw, Option.getD_some]
    omega
  · simp only [BalanceWithMarginHold.mismatch, Dec.raw, Option.getD_some]
    omega

/-- Witness of C10 on a record with total `101` against an expected `100`. -/
theorem mismatch_record_fields_witness :
    ∃ out, BalanceMismatches.loop 0 []
        [⟨"S1", "USDT", NewDec 95, NewDec 101, NewDec 5⟩] = some out ∧
      ∀ m ∈ out, ∃ r ∈ ([⟨"S1", "USDT", NewDec 95, NewDec 101, NewDec 5⟩] :
          List BalanceWithMarginHold),
        m.SubaccountId = r.SubaccountId ∧ m.Denom = r.Denom ∧ m.Available = r.Available ∧
        m.Total = r.Total ∧ m.BalanceHold = r.BalanceHold ∧
        r.Available.Add r.BalanceHold = some m.ExpectedTotal ∧
        m.ExpectedTotal.Sub r.Total = some m.Difference ∧
        (0 < m.Difference.raw ↔ r.Total.raw < m.ExpectedTotal.raw) ∧
        (m.Difference.raw < 0 ↔ m.ExpectedTotal.raw < r.Total.raw) :=
  match ((mismatch_record_fields _ 0).2 (by decide)).mpr (by decide) with
  | ⟨out, h⟩ => ⟨out, h, (mismatch_record_fields _ 0).1 out h⟩

/-! ## The hold map: lemmas -/

theorem HoldMap.get_empty (s d : String) : HoldMap.empty.get s d = ⟨none⟩ := rfl

theorem safeUpdateBalanceHolds_nil (bh : HoldMap) (s d : String) :
    safeUpdateBalanceHolds bh s d ⟨none⟩ = none := by
  unfold safeUpdateBalanceHolds
  cases hbs : bh s with
  | none =>
    simp [HoldMap.setDenomHolds, HoldMap.get, HoldMap.set, HoldMap.emptyDenomHolds,
      Dec.IsNil, Dec.Add, Dec.ZeroDec]
  | some holds =>
    cases hd : (holds d).i with
    | none =>
      simp [hbs, HoldMap.setDenomHolds, HoldMap.get, HoldMap.set, Dec.IsNil, Dec.Add,
        Dec.ZeroDec, hd]
    | some v =>
      simp [hbs, HoldMap.setDenomHolds, HoldMap.get, HoldMap.set, Dec.IsNil, Dec.Add,
        Dec.ZeroDec, hd]

theorem HoldMap.setDenomHolds_apply (bh : HoldMap) (s s' : String) (holds : DenomHolds) :
    bh.setDenomHolds s holds s' = if s' = s then some holds else bh s' := rfl

theorem safeUpdateBalanceHolds_some (bh : HoldMap) (s d : String) (a : Int) :
    safeUpdateBalanceHolds bh s d ⟨some a⟩ =
      if Dec.fits ((bh.get s d).raw + a) = true then some (bh.added s d a) else none := by
  unfold safeUpdateBalanceHolds HoldMap.added
  cases hbs : bh s with
  | none =>
    have hg : bh.get s d = ⟨none⟩ := by simp [HoldMap.get, hbs]
    simp only [HoldMap.get, HoldMap.set, HoldMap.emptyDenomHolds, HoldMap.setDenomHolds_apply,
      Dec.IsNil, Dec.Add, Dec.ZeroDec, Dec.raw, hbs, Option.isNone_none, if_true,
      Option.pure_def, Option.bind_eq_bind, Option.some_bind, Option.getD_none, zero_add,
      Option.getD_some]
    cases hf : Dec.fits a with
    | false => simp
    | true =>
      simp only [if_true, Option.some_bind, Option.some.injEq]
      funext s'
      by_cases hs : s' = s
      · simp only [HoldMap.setDenomHolds_apply, hs, if_true]
        congr 1
        funext d'
        by_cases hdd : d' = d <;> simp [hdd]
      · simp [HoldMap.setDenomHolds_apply, hs]
  | some holds =>
    cases hd : (holds d).i with
    | none =>
      simp only [HoldMap.get, HoldMap.set, HoldMap.setDenomHolds_apply,
        Dec.IsNil, Dec.Add, Dec.ZeroDec, Dec.raw, hbs, hd, Option.isNone_none,
        Option.isNone_some, if_true, Bool.false_eq_true, if_false,
        Option.pure_def, Option.bind_eq_bind, Option.some_bind, Option.getD_none, zero_add,
        Option.getD_some]
      cases hf : Dec.fits a with
      | false => simp
      | true =>
        simp only [if_true, Option.some_bind, Option.some.injEq]
        funext s'
        by_cases hs : s' = s
        · simp only [HoldMap.setDenomHolds_apply, hs, if_true]
          congr 1
          funext d'
          by_cases hdd : d' = d <;> simp [hdd]
        · simp [HoldMap.setDenomHolds_apply, hs]
    | some v =>
      simp only [HoldMap.get, HoldMap.set, HoldMap.setDenomHolds_apply,
        Dec.IsNil, Dec.Add, Dec.ZeroDec, Dec.raw, hbs, hd, Option.isNone_none,
        Option.isNone_some, if_true, Bool.false_eq_true, if_false,
        Option.pure_def, Option.bind_eq_bind, Option.some_bind, Option.getD_none, zero_add,
        Option.getD_some]
      cases hf : Dec.fits (v + a) with
      | false => simp
      | true =>
        simp only [if_true, Option.some_bind, Option.some.injEq]
        rfl

theorem HoldMap.added_get (bh : HoldMap) (s d : String) (a : Int) (s' d' : String) :
    (bh.added s d a).get s' d' =
      if s' = s ∧ d' = d then ⟨some ((bh.get s d).raw + a)⟩ else bh.get s' d' := by
  by_cases hs : s' = s
  · by_cases hd : d' = d
    · simp [HoldMap.added, HoldMap.get, hs, hd]
    · simp [HoldMap.added, HoldMap.get, hs, hd]
  · simp [HoldMap.added, HoldMap.get, hs]

theorem applyContributions_some_cons (bh : HoldMap) (c : HoldContribution)
    (rest : List (Option HoldContribution)) (h : c.Amount.IsNil = false)
    (hf : Dec.fits ((bh.get c.SubaccountId c.Denom).raw + c.Amount.raw) = true) :
    applyContributions bh (some c :: rest) =
      applyContributions (bh.added c.SubaccountId c.Denom c.Amount.raw) rest := by
  rw [applyContributions, Dec.eq_of_IsNil_false h, safeUpdateBalanceHolds_some]
  simp only [Dec.raw, Option.getD_some] at hf ⊢
  rw [if_pos hf]

/-- A scan step that returns had a non-nil amount whose sum with the entry is
within the decimal range. -/
theorem applyContributions_some_cons_inv (bh bh' : HoldMap) (c : HoldContribution)
    (rest : List (Option HoldContribution))
    (h : applyContributions bh (some c :: rest) = some bh') :
    c.Amount.IsNil = false ∧
      Dec.fits ((bh.get c.SubaccountId c.Denom).raw + c.Amount.raw) = true ∧
      applyContributions (bh.added c.SubaccountId c.Denom c.Amount.raw) rest = some bh' := by
  cases hnil : c.Amount.IsNil with
  | true =>
    have hc : c.Amount = ⟨none⟩ := by
      cases hA : c.Amount with
      | mk i =>
        cases i with
        | none => rfl
        | some v => simp [Dec.IsNil, hA] at hnil
    rw [applyContributions, hc, safeUpdateBalanceHolds_nil] at h
    cases h
  | false =>
    cases hf : Dec.fits ((bh.get c.SubaccountId c.Denom).raw + c.Amount.raw) with
    | false =>
      rw [applyContributions, Dec.eq_of_IsNil_false hnil, safeUpdateBalanceHolds_some] at h
      simp only [Dec.raw, Option.getD_some] at hf h
      rw [if_neg (by simp [hf])] at h
      cases h
    | true =>
      rw [applyContributions_some_cons bh c rest hnil hf] at h
      exact ⟨rfl, rfl, h⟩

theorem applyContributions_append (l₁ : List (Option HoldContribution)) :
    ∀ (bh : HoldMap) (l₂ : List (Option HoldContribution)),
      applyContributions bh (l₁ ++ l₂) =
        (applyContributions bh l₁).bind (fun bh' => applyContributions bh' l₂) := by
  induction l₁ with
  | nil => intro bh l₂; rfl
  | cons c rest ih =>
    intro bh l₂
    cases c with
    | none => rfl
    | some c =>
      rw [List.cons_append, applyContributions, applyContributions]
      cases safeUpdateBalanceHolds bh c.SubaccountId c.Denom c.Amount with
      | none => rfl
      | some bh' => exact ih bh' l₂

theorem matchingContributions_cons_some (c : HoldContribution)
    (rest : List (Option HoldContribution)) (s d : String) :
    matchingContributions (some c :: rest) s d =
      if c.SubaccountId = s ∧ c.Denom = d then c :: matchingContributions rest s d
      else matchingContributions rest s d := by
  by_cases h : c.SubaccountId = s ∧ c.Denom = d
  · simp [matchingContributions, List.filter_cons, h]
  · simp only [matchingContributions, List.filterMap_cons, id, List.filter_cons, h,
      decide_False, if_false]
    simp

theorem matchingContributions_cons_none (rest : List (Option HoldContribution))
    (s d : String) :
    matchingContributions (none :: rest) s d = matchingContributions rest s d := by
  simp [matchingContributions]

/-- Closed form of the unchecked accumulation: an untouched key keeps its
value and a touched key holds its previous amount plus the sum of its
contributions. -/
theorem HoldMap.addAll_get (cs : List (Option HoldContribution)) :
    ∀ (bh : HoldMap) (s d : String), (bh.addAll cs).get s d =
      if matchingContributions cs s d = [] then bh.get s d
      else ⟨some ((bh.get s d).raw + holdSum cs s d)⟩ := by
  induction cs with
  | nil => intro bh s d; simp [HoldMap.addAll, matchingContributions]
  | cons c rest ih =>
    intro bh s d
    cases c with
    | none =>
      rw [HoldMap.addAll, ih, holdSum, holdSum, matchingContributions_cons_none]
    | some c =>
      rw [HoldMap.addAll, ih, HoldMap.added_get, matchingContributions_cons_some]
      unfold holdSum
      rw [matchingContributions_cons_some]
      by_cases hk : c.SubaccountId = s ∧ c.Denom = d
      · have hk' : s = c.SubaccountId ∧ d = c.Denom := ⟨hk.1.symm, hk.2.symm⟩
        rw [if_pos hk', if_pos hk, if_neg (List.cons_ne_nil _ _)]
        by_cases hm : matchingContributions rest s d = []
        · rw [if_pos hm, hm, hk.1, hk.2]
          simp
        · rw [if_neg hm, hk.1, hk.2]
          simp [Dec.raw, add_assoc]
      · have hk' : ¬ (s = c.SubaccountId ∧ d = c.Denom) :=
          fun h => hk ⟨h.1.symm, h.2.symm⟩
        rw [if_neg hk', if_neg hk]

/-- A scan that returns met only defined, non-nil contributions, and its hold
map is the unchecked accumulation of their amounts. -/
theorem applyContributions_some (cs : List (Option HoldContribution)) :
    ∀ (bh bh' : HoldMap), applyContributions bh cs = some bh' →
      (∀ c ∈ cs, contributionOk c = true) ∧ bh' = bh.addAll cs := by
  induction cs with
  | nil =>
    intro bh bh' h
    simp only [applyContributions, Option.some.injEq] at h
    exact ⟨fun c hc => absurd hc (List.not_mem_nil c), h.symm⟩
  | cons c rest ih =>
    intro bh bh' h
    cases c with
    | none => simp [applyContributions] at h
    | some c =>
      obtain ⟨hnil, _, hrest⟩ := applyContributions_some_cons_inv bh bh' c rest h
      obtain ⟨hok, hbh'⟩ := ih _ bh' hrest
      refine ⟨?_, hbh'⟩
      intro x hx
      rcases List.mem_cons.mp hx with rfl | hx'
      · simp [contributionOk, hnil]
      · exact hok x hx'

/-! ## Non-negative contributions -/

theorem holdSum_cons_some (c : HoldContribution) (rest : List (Option HoldContribution))
    (s d : String) :
    holdSum (some c :: rest) s d =
      (if c.SubaccountId = s ∧ c.Denom = d then c.Amount.raw else 0) + holdSum rest s d := by
  unfold holdSum
  rw [matchingContributions_cons_some]
  by_cases hk : c.SubaccountId = s ∧ c.Denom = d
  · rw [if_pos hk, if_pos hk, List.map_cons, List.sum_cons]
  · rw [if_neg hk, if_neg hk, zero_add]

theorem holdSum_cons_none (rest : List (Option HoldContribution)) (s d : String) :
    holdSum (none :: rest) s d = holdSum rest s d := by
  unfold holdSum
  rw [matchingContributions_cons_none]

theorem holdSum_nonneg (cs : List (Option HoldContribution)) (s d : String)
    (h : ∀ c ∈ cs, amountNonneg c = true) : 0 ≤ holdSum cs s d := by
  induction cs with
  | nil => simp [holdSum, matchingContributions]
  | cons c rest ih =>
    have hrest := ih (fun x hx => h x (List.mem_cons_of_mem _ hx))
    cases c with
    | none => rw [holdSum_cons_none]; exact hrest
    | some c =>
      have hc : 0 ≤ c.Amount.raw := by
        simpa [amountNonneg] using h (some c) (List.mem_cons_self _ _)
      rw [holdSum_cons_some]
      split_ifs <;> omega

theorem HoldMap.empty_nonnegInRange : HoldMap.empty.NonnegInRange := by
  intro s d
  rw [HoldMap.get_empty]
  exact ⟨le_refl _, Dec.decBound_pos⟩

theorem HoldMap.added_nonnegInRange (bh : HoldMap) (s d : String) (a : Int)
    (hbh : bh.NonnegInRange) (ha : 0 ≤ a) (hf : (bh.get s d).raw + a < decBound) :
    (bh.added s d a).NonnegInRange := by
  intro s' d'
  rw [HoldMap.added_get]
  by_cases hk : s' = s ∧ d' = d
  · rw [if_pos hk]
    simp only [Dec.raw, Option.getD_some]
    have := (hbh s d).1
    simp only [Dec.raw] at this hf
    exact ⟨by omega, hf⟩
  · rw [if_neg hk]
    exact hbh s' d'

theorem Dec.fits_of_nonneg {n : Int} (h₀ : 0 ≤ n) (h₁ : n < decBound) : Dec.fits n = true := by
  rw [Dec.fits_iff, abs_lt]
  constructor <;> omega

theorem Dec.lt_of_fits {n : Int} (h : Dec.fits n = true) : n < decBound := by
  rw [Dec.fits_iff, abs_lt] at h
  exact h.2

/-- With defined, non-nil, non-negative contributions whose sums per key stay
below `2^315`, the scan returns the unchecked accumulation. -/
theorem applyContributions_of_nonneg (cs : List (Option HoldContribution)) :
    ∀ bh : HoldMap, (∀ c ∈ cs, contributionOk c = true ∧ amountNonneg c = true) →
      bh.NonnegInRange → (∀ s d, (bh.get s d).raw + holdSum cs s d < decBound) →
      applyContributions bh cs = some (bh.addAll cs) := by
  induction cs with
  | nil => intro bh _ _ _; rfl
  | cons c rest ih =>
    intro bh hcs hbh hfit
    have hc := hcs c (List.mem_cons_self _ _)
    have hrest : ∀ x ∈ rest, contributionOk x = true ∧ amountNonneg x = true :=
      fun x hx => hcs x (List.mem_cons_of_mem _ hx)
    cases c with
    | none => simp [contributionOk] at hc
    | some c =>
      have hnil : c.Amount.IsNil = false := by simpa [contributionOk] using hc.1
      have ha : 0 ≤ c.Amount.raw := by simpa [amountNonneg] using hc.2
      have hsum := holdSum_nonneg rest c.SubaccountId c.Denom (fun x hx => (hrest x hx).2)
      have hkey := hfit c.SubaccountId c.Denom
      rw [holdSum_cons_some, if_pos ⟨rfl, rfl⟩] at hkey
      have hg := (hbh c.SubaccountId c.Denom).1
      have hlt : (bh.get c.SubaccountId c.Denom).raw + c.Amount.raw < decBound := by omega
      rw [applyContributions_some_cons bh c rest hnil (Dec.fits_of_nonneg (by omega) hlt),
        HoldMap.addAll]
      refine ih _ hrest (HoldMap.added_nonnegInRange bh _ _ _ hbh ha hlt) ?_
      intro s d
      have hsd := hfit s d
      rw [holdSum_cons_some] at hsd
      rw [HoldMap.added_get]
      by_cases hk : s = c.SubaccountId ∧ d = c.Denom
      · obtain ⟨rfl, rfl⟩ := hk
        rw [if_pos ⟨rfl, rfl⟩] at hsd ⊢
        simp only [Dec.raw, Option.getD_some] at hsd ⊢
        omega
      · have hk' : ¬ (c.SubaccountId = s ∧ c.Denom = d) := fun h => hk ⟨h.1.symm, h.2.symm⟩
        rw [if_neg hk'] at hsd
        rw [if_neg hk]
        omega

/-- A scan of non-negative contributions that returns keeps every entry of the
hold map non-negative and within the decimal range. -/
theorem applyContributions_nonnegInRange (cs : List (Option HoldContribution)) :
    ∀ bh bh' : HoldMap, applyContributions bh cs = some bh' →
      (∀ c ∈ cs, amountNonneg c = true) → bh.NonnegInRange → bh'.NonnegInRange := by
  induction cs with
  | nil =>
    intro bh bh' h _ hbh
    simp only [applyContributions, Option.some.injEq] at h
    rw [← h]
    exact hbh
  | cons c rest ih =>
    intro bh bh' h hcs hbh
    cases c with
    | none => simp [applyContributions] at h
    | some c =>
      obtain ⟨_, hf, hrest⟩ := applyContributions_some_cons_inv bh bh' c rest h
      have ha : 0 ≤ c.Amount.raw := by
        simpa [amountNonneg] using hcs (some c) (List.mem_cons_self _ _)
      exact ih _ bh' hrest (fun x hx => hcs x (List.mem_cons_of_mem _ hx))
        (HoldMap.added_nonnegInRange bh _ _ _ hbh ha (Dec.lt_of_fits hf))

/-! ## Order independence of the accumulation -/

theorem HoldMap.added_comm (bh : HoldMap) (s₁ d₁ : String) (a₁ : Int) (s₂ d₂ : String)
    (a₂ : Int) :
    (bh.added s₁ d₁ a₁).added s₂ d₂ a₂ = (bh.added s₂ d₂ a₂).added s₁ d₁ a₁ := by
  funext s'
  simp only [HoldMap.added, HoldMap.added_get]
  by_cases h₁ : s' = s₁
  · by_cases h₂ : s' = s₂
    · subst h₁
      subst h₂
      simp only [if_true, true_and]
      congr 1
      funext d'
      by_cases e₁ : d' = d₁
      · by_cases e₂ : d' = d₂
        · subst e₁
          subst e₂
          simp [Dec.raw, add_right_comm]
        · subst e₁
          have e₂' : ¬ d₂ = d' := fun h => e₂ h.symm
          simp [e₂, e₂']
      · by_cases e₂ : d' = d₂
        · subst e₂
          have e₁' : ¬ d₁ = d' := fun h => e₁ h.symm
          simp [e₁, e₁']
        · simp [e₁, e₂]
    · subst h₁
      have h₂' : ¬ s₂ = s' := fun h => h₂ h.symm
      simp [h₂, h₂']
  · by_cases h₂ : s' = s₂
    · subst h₂
      have h₁' : ¬ s₁ = s' := fun h => h₁ h.symm
      simp [h₁, h₁']
    · simp [h₁, h₂]

theorem HoldMap.addAll_perm {l₁ l₂ : List (Option HoldContribution)}
    (h : List.Perm l₁ l₂) : ∀ bh : HoldMap, bh.addAll l₁ = bh.addAll l₂ := by
  induction h with
  | nil => intro bh; rfl
  | cons x _ ih =>
    intro bh
    cases x with
    | none => exact ih bh
    | some c => exact ih _
  | swap x y l =>
    intro bh
    cases x with
    | none =>
      cases y with
      | none => rfl
      | some c => rfl
    | some c₁ =>
      cases y with
      | none => rfl
      | some c₂ =>
        simp only [HoldMap.addAll]
        rw [HoldMap.added_comm]
  | trans _ _ ih₁ ih₂ => intro bh; rw [ih₁ bh, ih₂ bh]

theorem holdSum_perm {l₁ l₂ : List (Option HoldContribution)} (h : List.Perm l₁ l₂)
    (s d : String) : holdSum l₁ s d = holdSum l₂ s d := by
  unfold holdSum matchingContributions
  exact List.Perm.sum_eq (List.Perm.map _ (List.Perm.filter _ (List.Perm.filterMap _ h)))

theorem holdSum_eq_zero_of_matching_nil (cs : List (Option HoldContribution)) (s d : String)
    (h : matchingContributions cs s d = []) : holdSum cs s d = 0 := by
  simp [holdSum, h]

/-- A scan of non-negative contributions that returns also returns, with the
same hold map, on every permutation of the contributions. -/
theorem applyContributions_perm_some {l₁ l₂ : List (Option HoldContribution)}
    (h : List.Perm l₁ l₂) (hnn : ∀ c ∈ l₁, amountNonneg c = true) (bh bh' : HoldMap)
    (hbh : bh.NonnegInRange) (hrun : applyContributions bh l₁ = some bh') :
    applyContributions bh l₂ = some bh' := by
  obtain ⟨hok, rfl⟩ := applyContributions_some l₁ bh bh' hrun
  have hfinal := applyContributions_nonnegInRange l₁ bh _ hrun hnn hbh
  have hcs : ∀ c ∈ l₂, contributionOk c = true ∧ amountNonneg c = true :=
    fun c hc => ⟨hok c (h.mem_iff.mpr hc), hnn c (h.mem_iff.mpr hc)⟩
  rw [applyContributions_of_nonneg l₂ bh hcs hbh, HoldMap.addAll_perm h]
  intro s d
  rw [← holdSum_perm h s d]
  have hsd := (hfinal s d).2
  rw [HoldMap.addAll_get] at hsd
  by_cases hm : matchingContributions l₁ s d = []
  · rw [holdSum_eq_zero_of_matching_nil l₁ s d hm, add_zero]
    exact (hbh s d).2
  · rw [if_neg hm] at hsd
    simpa [Dec.raw] using hsd

/-- On non-negative contributions the scan gives the same result, a hold map
or a panic, for every permutation of the contributions. -/
theorem applyContributions_perm {l₁ l₂ : List (Option HoldContribution)}
    (h : List.Perm l₁ l₂) (hnn : ∀ c ∈ l₁, amountNonneg c = true) (bh : HoldMap)
    (hbh : bh.NonnegInRange) :
    applyContributions bh l₁ = applyContributions bh l₂ := by
  cases h₁ : applyContributions bh l₁ with
  | some bh' => exact (applyContributions_perm_some h hnn bh bh' hbh h₁).symm
  | none =>
    cases h₂ : applyContributions bh l₂ with
    | none => rfl
    | some bh' =>
      have := applyContributions_perm_some h.symm
        (fun c hc => hnn c (h.mem_iff.mpr hc)) bh bh' hbh h₂
      rw [h₁] at this
      cases this

/-- Two holds of `2^314` units under one key: the second `Add` leaves the
decimal range and the scan panics. -/
theorem applyContributions_two_large_holds :
    (applyContributions HoldMap.empty
      [some ⟨"S1", "USDT", ⟨some (decBound / 2)⟩⟩,
       some ⟨"S1", "USDT", ⟨some (decBound / 2)⟩⟩]).isNone = true := by
  decide

/-- With amounts of both signs the order of the additions decides whether the
scan panics: `2^314`, `2^314`, `-2^314` under one key panics at the second
addition, `2^314`, `-2^314`, `2^314` returns. -/
theorem applyContributions_mixed_signs :
    (applyContributions HoldMap.empty
      [some ⟨"S1", "USDT", ⟨some (decBound / 2)⟩⟩,
       some ⟨"S1", "USDT", ⟨some (decBound / 2)⟩⟩,
       some ⟨"S1", "USDT", ⟨some (-(decBound / 2))⟩⟩]).isNone = true ∧
    (applyContributions HoldMap.empty
      [some ⟨"S1", "USDT", ⟨some (decBound / 2)⟩⟩,
       some ⟨"S1", "USDT", ⟨some (-(decBound / 2))⟩⟩,
       some ⟨"S1", "USDT", ⟨some (decBound / 2)⟩⟩]).isSome = true := by
  decide

/-! ## The scan of the order books as a list of contributions -/

section ScanLemmas

variable {Hash SpotLimitOrder SpotMarket DerivativeLimitOrder DerivativeMarket : Type}

theorem spotOrders_eq
    (k : Keeper Hash SpotLimitOrder SpotMarket DerivativeLimitOrder DerivativeMarket)
    (market : Option SpotMarket) (orders : List SpotLimitOrder) :
    ∀ bh : HoldMap, GetAllBalancesWithBalanceHolds.spotOrders k market bh orders =
      applyContributions bh (orders.map (k.spotContribution market)) := by
  induction orders with
  | nil => intro bh; rfl
  | cons order rest ih =>
    intro bh
    rw [GetAllBalancesWithBalanceHolds.spotOrders, List.map_cons, Keeper.spotContribution]
    cases k.GetUnfilledMarginHoldAndMarginDenom order market false with
    | none => rfl
    | some p =>
      obtain ⟨balanceHold, denom⟩ := p
      simp only [applyContributions]
      cases safeUpdateBalanceHolds bh (k.SpotSubaccountIDHex order) denom balanceHold with
      | none => rfl
      | some bh' => exact ih bh'

theorem spotOrderbooks_eq
    (k : Keeper Hash SpotLimitOrder SpotMarket DerivativeLimitOrder DerivativeMarket)
    (books : List (SpotOrderBook SpotLimitOrder)) :
    ∀ bh : HoldMap, GetAllBalancesWithBalanceHolds.spotOrderbooks k bh books =
      applyContributions bh (books.flatMap k.spotBookContributions) := by
  induction books with
  | nil => intro bh; rfl
  | cons orderbook rest ih =>
    intro bh
    rw [GetAllBalancesWithBalanceHolds.spotOrderbooks, List.flatMap_cons,
      applyContributions_append, spotOrders_eq]
    simp only [Keeper.spotBookContributions]
    cases applyContributions bh (orderbook.Orders.map
        (k.spotContribution (k.GetSpotMarketByID (k.HexToHash orderbook.MarketId)))) with
    | none => rfl
    | some bh' => exact ih bh'

theorem derivativeOrders_eq
    (k : Keeper Hash SpotLimitOrder SpotMarket DerivativeLimitOrder DerivativeMarket)
    (market : Option DerivativeMarket) (orders : List DerivativeLimitOrder) :
    ∀ bh : HoldMap, GetAllBalancesWithBalanceHolds.derivativeOrders k market bh orders =
      applyContributions bh (orders.map (k.derivativeContribution market)) := by
  induction orders with
  | nil => intro bh; rfl
  | cons order rest ih =>
    intro bh
    rw [GetAllBalancesWithBalanceHolds.derivativeOrders, List.map_cons]
    unfold GetAllBalancesWithBalanceHolds.derivativeOrder Keeper.derivativeContribution
    cases market with
    | none => rfl
    | some market =>
      simp only
      cases k.GetCancelDepositDelta order (k.GetMakerFeeRate market) with
      | none => rfl
      | some delta =>
        simp only [applyContributions]
        cases safeUpdateBalanceHolds bh (k.DerivativeSubaccountIDHex order)
            (k.GetQuoteDenom market) delta.AvailableBalanceDelta with
        | none => rfl
        | some bh' => exact ih bh'

theorem derivativeOrderbooks_eq
    (k : Keeper Hash SpotLimitOrder SpotMarket DerivativeLimitOrder DerivativeMarket)
    (books : List (DerivativeOrderBook DerivativeLimitOrder)) :
    ∀ bh : HoldMap, GetAllBalancesWithBalanceHolds.derivativeOrderbooks k bh books =
      applyContributions bh (books.flatMap k.derivativeBookContributions) := by
  induction books with
  | nil => intro bh; rfl
  | cons orderbook rest ih =>
    intro bh
    rw [GetAllBalancesWithBalanceHolds.derivativeOrderbooks, List.flatMap_cons,
      applyContributions_append, derivativeOrders_eq]
    simp only [Keeper.derivativeBookContributions]
    cases applyContributions bh (orderbook.Orders.map
        (k.derivativeContribution
          (k.GetDerivativeOrBinaryOptionsMarket (k.HexToHash orderbook.MarketId)))) with
    | none => rfl
    | some bh' => exact ih bh'

/-- The hold map of `GetAllBalancesWithBalanceHolds` is the empty map updated
with the contributions of all resting orders in scan order. -/
theorem balanceHolds_eq
    (k : Keeper Hash SpotLimitOrder SpotMarket DerivativeLimitOrder DerivativeMarket) :
    GetAllBalancesWithBalanceHolds.balanceHolds k =
      applyContributions HoldMap.empty k.holdContributions := by
  rw [GetAllBalancesWithBalanceHolds.balanceHolds, Keeper.holdContributions,
    applyContributions_append, spotOrderbooks_eq]
  cases applyContributions HoldMap.empty
      (k.GetAllSpotLimitOrderbook.flatMap k.spotBookContributions) with
  | none => rfl
  | some bh => exact derivativeOrderbooks_eq k _ bh

theorem join_eq (bh : HoldMap) (balances : List Balance) :
    ∀ acc : List BalanceWithMarginHold,
      GetAllBalancesWithBalanceHolds.join bh acc balances = acc ++ balances.map bh.withHold := by
  induction balances with
  | nil => intro acc; simp [GetAllBalancesWithBalanceHolds.join]
  | cons b rest ih =>
    intro acc
    rw [GetAllBalancesWithBalanceHolds.join, ih, List.map_cons, List.append_assoc]
    rfl

theorem totalHold_cons_some (c : HoldContribution) (rest : List (Option HoldContribution)) :
    totalHold (some c :: rest) = c.Amount.raw + totalHold rest := by
  simp [totalHold]

theorem totalHold_cons_none (rest : List (Option HoldContribution)) :
    totalHold (none :: rest) = totalHold rest := by
  simp [totalHold]

theorem holdSum_le_totalHold (cs : List (Option HoldContribution)) (s d : String)
    (h : ∀ c ∈ cs, amountNonneg c = true) : holdSum cs s d ≤ totalHold cs := by
  induction cs with
  | nil => simp [holdSum, totalHold, matchingContributions]
  | cons c rest ih =>
    have hrest := ih (fun x hx => h x (List.mem_cons_of_mem _ hx))
    cases c with
    | none => rw [holdSum_cons_none, totalHold_cons_none]; exact hrest
    | some c =>
      have hc : 0 ≤ c.Amount.raw := by
        simpa [amountNonneg] using h (some c) (List.mem_cons_self _ _)
      rw [holdSum_cons_some, totalHold_cons_some]
      split_ifs <;> omega

/-- From the empty hold map, defined, non-nil and non-negative contributions
that sum to less than `2^315` are scanned without panic. -/
theorem applyContributions_empty_of_total (cs : List (Option HoldContribution))
    (hcs : ∀ c ∈ cs, contributionOk c = true ∧ amountNonneg c = true)
    (htotal : totalHold cs < decBound) :
    applyContributions HoldMap.empty cs = some (HoldMap.empty.addAll cs) := by
  refine applyContributions_of_nonneg cs _ hcs HoldMap.empty_nonnegInRange ?_
  intro s d
  have := holdSum_le_totalHold cs s d (fun c hc => (hcs c hc).2)
  rw [HoldMap.get_empty]
  simp only [Dec.raw, Option.getD_none, zero_add]
  omega

/-- Whenever the scan of the order books returns a hold map, the record the
join attaches to a balance carries the sum of the contributions under the
balance's key. -/
theorem withHold_of_balanceHolds
    (k : Keeper Hash SpotLimitOrder SpotMarket DerivativeLimitOrder DerivativeMarket)
    (bh : HoldMap) (hrun : GetAllBalancesWithBalanceHolds.balanceHolds k = some bh) :
    ∀ b : Balance, bh.withHold b =
      { SubaccountId := b.SubaccountId, Denom := b.Denom,
        Available := b.Deposits.AvailableBalance, Total := b.Deposits.TotalBalance,
        BalanceHold := ⟨some (holdSum k.holdContributions b.SubaccountId b.Denom)⟩ } := by
  rw [balanceHolds_eq] at hrun
  obtain ⟨_, rfl⟩ := applyContributions_some _ _ _ hrun
  intro b
  unfold HoldMap.withHold
  rw [HoldMap.addAll_get]
  by_cases hm : matchingContributions k.holdContributions b.SubaccountId b.Denom = []
  · simp [hm, HoldMap.get_empty, Dec.IsNil, Dec.ZeroDec, holdSum]
  · simp [hm, HoldMap.get_empty, Dec.IsNil, Dec.raw]

/-- Whenever `GetAllBalancesWithBalanceHolds` returns, its output is the hold
view in closed form. -/
theorem view_eq_sumView
    (k : Keeper Hash SpotLimitOrder SpotMarket DerivativeLimitOrder DerivativeMarket)
    (out : List BalanceWithMarginHold) (h : GetAllBalancesWithBalanceHolds k = some out) :
    out = k.sumView := by
  unfold GetAllBalancesWithBalanceHolds at h
  cases hrun : GetAllBalancesWithBalanceHolds.balanceHolds k with
  | none => rw [hrun] at h; cases h
  | some bh =>
    rw [hrun] at h
    simp only [Option.some.injEq] at h
    rw [← h, join_eq, List.nil_append]
    exact List.map_congr_left (fun b _ => withHold_of_balanceHolds k bh hrun b)

/-- Under the sufficient condition on the contributions
`GetAllBalancesWithBalanceHolds` returns. -/
theorem view_of_holdsInRange
    (k : Keeper Hash SpotLimitOrder SpotMarket DerivativeLimitOrder DerivativeMarket)
    (h : k.HoldsInRange) : GetAllBalancesWithBalanceHolds k = some k.sumView := by
  have hrun : GetAllBalancesWithBalanceHolds.balanceHolds k =
      some (HoldMap.empty.addAll k.holdContributions) := by
    rw [balanceHolds_eq]
    exact applyContributions_empty_of_total _ h.1 h.2
  have hview : GetAllBalancesWithBalanceHolds k =
      some (GetAllBalancesWithBalanceHolds.join (HoldMap.empty.addAll k.holdContributions) []
        k.GetAllExchangeBalances) := by
    rw [GetAllBalancesWithBalanceHolds, hrun]
  rw [hview, ← view_eq_sumView k _ hview]

end ScanLemmas

/-! ## The hold view -/

section HoldView

variable {Hash SpotLimitOrder SpotMarket DerivativeLimitOrder DerivativeMarket : Type}

/-- C5: whenever `GetAllBalancesWithBalanceHolds` returns, the hold attached to
each balance is the exact sum of the contributions of all resting orders, spot
and derivative, keyed by the balance's subaccount and denom; it returns when
every contribution is defined, non-nil and non-negative and the contributions
sum to less than `2^315` units (beyond the decimal range `Add` panics); and on
a key with no earlier contribution `safeUpdateBalanceHolds` starts from zero, so
that a single contribution `a` within the decimal range leaves exactly `a`. -/
theorem hold_is_sum_of_contributions
    (k : Keeper Hash SpotLimitOrder SpotMarket DerivativeLimitOrder DerivativeMarket) :
    (∀ out, GetAllBalancesWithBalanceHolds k = some out →
      out = k.GetAllExchangeBalances.map (fun b =>
        { SubaccountId := b.SubaccountId, Denom := b.Denom,
          Available := b.Deposits.AvailableBalance, Total := b.Deposits.TotalBalance,
          BalanceHold := ⟨some (holdSum k.holdContributions b.SubaccountId b.Denom)⟩ })) ∧
    (k.HoldsInRange → ∃ out, GetAllBalancesWithBalanceHolds k = some out) ∧
    (∀ (bh : HoldMap) (s d : String) (a : Int), (bh.get s d).IsNil = true →
      Dec.fits a = true →
      ∃ bh', safeUpdateBalanceHolds bh s d ⟨some a⟩ = some bh' ∧ bh'.get s d = ⟨some a⟩) := by
  refine ⟨fun out h => view_eq_sumView k out h, fun h => ⟨_, view_of_holdsInRange k h⟩, ?_⟩
  intro bh s d a hnil hfit
  have h0 : (bh.get s d).raw = 0 := by
    cases hg : (bh.get s d).i with
    | none => simp [Dec.raw, hg]
    | some v => simp [Dec.IsNil, hg] at hnil
  refine ⟨bh.added s d a, ?_, ?_⟩
  · rw [safeUpdateBalanceHolds_some, h0, zero_add, if_pos hfit]
  · rw [HoldMap.added_get, if_pos ⟨rfl, rfl⟩, h0, zero_add]

/-- Witness of C5: the holds `3` (spot) and `4` (derivative) of `S1/USDT` add up
to `7`, and a first contribution of `5` leaves `5`. -/
theorem hold_is_sum_of_contributions_witness :
    (∃ out, GetAllBalancesWithBalanceHolds exampleMixed = some out ∧
      out = exampleMixed.GetAllExchangeBalances.map (fun b =>
        { SubaccountId := b.SubaccountId, Denom := b.Denom,
          Available := b.Deposits.AvailableBalance, Total := b.Deposits.TotalBalance,
          BalanceHold :=
            ⟨some (holdSum exampleMixed.holdContributions b.SubaccountId b.Denom)⟩ })) ∧
    (∃ bh', safeUpdateBalanceHolds HoldMap.empty "S1" "USDT" ⟨some 5⟩ = some bh' ∧
      bh'.get "S1" "USDT" = ⟨some 5⟩) :=
  ⟨match (hold_is_sum_of_contributions exampleMixed).2.1 (by decide) with
    | ⟨out, h⟩ => ⟨out, h, (hold_is_sum_of_contributions exampleMixed).1 out h⟩,
   (hold_is_sum_of_contributions exampleMixed).2.2 HoldMap.empty "S1" "USDT" 5 rfl
     (by decide)⟩

/-- C7: for every hold map and every list of recorded balances the join loop
gives a list of the same length whose records carry, position by position, the
subaccount id, denom, available and total balance of the balances; and
`GetAllBalancesWithBalanceHolds` returns such a list whenever the scan of the
order books returns a hold map. -/
theorem hold_view_total (bh : HoldMap) (balances : List Balance)
    (k : Keeper Hash SpotLimitOrder SpotMarket DerivativeLimitOrder DerivativeMarket) :
    (GetAllBalancesWithBalanceHolds.join bh [] balances).length = balances.length ∧
    (GetAllBalancesWithBalanceHolds.join bh [] balances).map BalanceWithMarginHold.ledger =
      balances.map Balance.ledger ∧
    (GetAllBalancesWithBalanceHolds k).map (List.map BalanceWithMarginHold.ledger) =
      (GetAllBalancesWithBalanceHolds.balanceHolds k).map
        (fun _ => k.GetAllExchangeBalances.map Balance.ledger) := by
  have hmap : ∀ (m : HoldMap) (l : List Balance),
      (GetAllBalancesWithBalanceHolds.join m [] l).map BalanceWithMarginHold.ledger =
        l.map Balance.ledger := by
    intro m l
    rw [join_eq, List.nil_append, List.map_map]
    exact List.map_congr_left (fun b _ => rfl)
  refine ⟨?_, hmap bh balances, ?_⟩
  · rw [join_eq, List.nil_append, List.length_map]
  · unfold GetAllBalancesWithBalanceHolds
    cases GetAllBalancesWithBalanceHolds.balanceHolds k with
    | none => rfl
    | some m => simp only [Option.map_some']; rw [hmap m]

/-- C8: whenever `GetAllBalancesWithBalanceHolds` returns, a balance whose key
receives no contribution gets, at its position, a record with its own ledger
fields and a hold equal to decimal zero, which is not the nil decimal; and the
query returns when every contribution is defined, non-nil and non-negative and
the contributions sum to less than `2^315` units. -/
theorem zero_hold_default
    (k : Keeper Hash SpotLimitOrder SpotMarket DerivativeLimitOrder DerivativeMarket)
    (i : Nat) (b : Balance) (hb : k.GetAllExchangeBalances[i]? = some b)
    (hno : matchingContributions k.holdContributions b.SubaccountId b.Denom = []) :
    (∀ out, GetAllBalancesWithBalanceHolds k = some out →
      ∃ r, out[i]? = some r ∧
        r.ledger = b.ledger ∧ r.BalanceHold = ZeroDec ∧ r.BalanceHold.IsNil = false) ∧
    (k.HoldsInRange → ∃ out, GetAllBalancesWithBalanceHolds k = some out) := by
  refine ⟨?_, fun h => ⟨_, view_of_holdsInRange k h⟩⟩
  intro out hout
  rw [view_eq_sumView k out hout, Keeper.sumView, List.getElem?_map, hb]
  refine ⟨_, rfl, rfl, ?_, rfl⟩
  simp [holdSum, hno, Dec.ZeroDec]

/-- Witness of C8: `S3/USDT` has no resting order and gets the hold zero. -/
theorem zero_hold_default_witness :
    ∃ out r, GetAllBalancesWithBalanceHolds exampleMixed = some out ∧ out[2]? = some r ∧
      r.ledger = Balance.ledger ⟨"S3", "USDT", ⟨NewDec 1, NewDec 2⟩⟩ ∧
      r.BalanceHold = ZeroDec ∧ r.BalanceHold.IsNil = false :=
  match (zero_hold_default exampleMixed 2 ⟨"S3", "USDT", ⟨NewDec 1, NewDec 2⟩⟩
      (by decide) (by decide)).2 (by decide) with
  | ⟨out, h⟩ =>
    match (zero_hold_default exampleMixed 2 ⟨"S3", "USDT", ⟨NewDec 1, NewDec 2⟩⟩
        (by decide) (by decide)).1 out h with
    | ⟨r, hr⟩ => ⟨out, r, h, hr⟩

end HoldView

/-! ## The full pass -/

section FullPass

variable {Hash SpotLimitOrder SpotMarket DerivativeLimitOrder DerivativeMarket : Type}

/-- Whenever `BalanceMismatches` returns, the hold view was returned in closed
form and the loop over it returned the mismatch list. -/
theorem balanceMismatches_some
    (k : Keeper Hash SpotLimitOrder SpotMarket DerivativeLimitOrder DerivativeMarket)
    (req : QueryBalanceMismatchesRequest) (res : QueryBalanceMismatchesResponse)
    (h : BalanceMismatches k req = some res) :
    GetAllBalancesWithBalanceHolds k = some k.sumView ∧
      BalanceMismatches.loop req.DustFactor [] k.sumView = some res.BalanceMismatches := by
  unfold BalanceMismatches at h
  cases hview : GetAllBalancesWithBalanceHolds k with
  | none => rw [hview] at h; cases h
  | some out =>
    rw [hview] at h
    simp only at h
    have hout := view_eq_sumView k out hview
    subst hout
    cases hloop : BalanceMismatches.loop req.DustFactor [] k.sumView with
    | none => rw [hloop] at h; cases h
    | some ms =>
      rw [hloop] at h
      simp only [Option.some.injEq] at h
      rw [← h]
      exact ⟨rfl, rfl⟩

/-- The full pass returns when the contributions meet the sufficient condition
of the scan, the records of the hold view have non-nil decimals and sums
within the decimal range, and the dust factor is an `int64`. -/
theorem balanceMismatches_of_inRange
    (k : Keeper Hash SpotLimitOrder SpotMarket DerivativeLimitOrder DerivativeMarket)
    (req : QueryBalanceMismatchesRequest)
    (hscan : k.HoldsInRange) (hview : k.ViewInRange) (hd : IsInt64 req.DustFactor) :
    ∃ res, BalanceMismatches k req = some res := by
  have hloop := BalanceMismatches.loop_of_inRange req.DustFactor (Dec.fits_of_isInt64 hd)
    k.sumView [] hview
  have hres : BalanceMismatches k req = some ⟨[] ++ (k.sumView.filter
      (fun r => decide (SmallestDec.raw * req.DustFactor ≤ r.deviation))).map
        BalanceWithMarginHold.mismatch⟩ := by
    rw [BalanceMismatches, view_of_holdsInRange k hscan]
    simp only
    rw [hloop]
  exact ⟨_, hres⟩

/-- C3, as stated, fails: in scenario A with dust factor `0` the full pass
returns one mismatch record (with difference zero), not the empty list. -/
theorem scenarioA_dust_zero_reports :
    BalanceMismatches scenarioA ⟨0⟩ =
      some ⟨[⟨"S1", "USDT", NewDec 95, NewDec 100, NewDec 5, NewDec 100, ZeroDec⟩]⟩ ∧
    BalanceMismatches scenarioA ⟨0⟩ ≠ some ⟨[]⟩ := by
  decide

/-- C3, amended: with one spot order book holding a single order that
contributes a hold of `5` USDT for `S1`, no derivative order book, and the one
balance `S1/USDT` with available `95` and total `100`, the hold view is the one
record with hold `5`; the full pass with dust factor `0` returns exactly one
mismatch, with expected total `100` and difference `0`, and with dust factor `1`
it returns the empty mismatch list. -/
theorem scenarioA_full_pass
    (k : Keeper Hash SpotLimitOrder SpotMarket DerivativeLimitOrder DerivativeMarket)
    (orderbook : SpotOrderBook SpotLimitOrder) (order : SpotLimitOrder)
    (hspot : k.GetAllSpotLimitOrderbook = [orderbook])
    (horders : orderbook.Orders = [order])
    (hsub : k.SpotSubaccountIDHex order = "S1")
    (hhold : k.GetUnfilledMarginHoldAndMarginDenom order
      (k.GetSpotMarketByID (k.HexToHash orderbook.MarketId)) false = some (NewDec 5, "USDT"))
    (hder : k.GetAllDerivativeAndBinaryOptionsLimitOrderbook = [])
    (hbal : k.GetAllExchangeBalances = [⟨"S1", "USDT", ⟨NewDec 95, NewDec 100⟩⟩]) :
    GetAllBalancesWithBalanceHolds k =
      some [⟨"S1", "USDT", NewDec 95, NewDec 100, NewDec 5⟩] ∧
    BalanceMismatches k ⟨0⟩ =
      some ⟨[⟨"S1", "USDT", NewDec 95, NewDec 100, NewDec 5, NewDec 100, ZeroDec⟩]⟩ ∧
    BalanceMismatches k ⟨1⟩ = some ⟨[]⟩ := by
  have hcs : k.holdContributions = [some ⟨"S1", "USDT", NewDec 5⟩] := by
    simp [Keeper.holdContributions, hspot, hder, Keeper.spotBookContributions, horders,
      Keeper.spotContribution, hhold, hsub]
  have hview : GetAllBalancesWithBalanceHolds k =
      some [⟨"S1", "USDT", NewDec 95, NewDec 100, NewDec 5⟩] := by
    rw [GetAllBalancesWithBalanceHolds, balanceHolds_eq, hcs,
      applyContributions_some_cons HoldMap.empty ⟨"S1", "USDT", NewDec 5⟩ []
        (by decide) (by decide)]
    simp only [applyContributions]
    rw [join_eq, hbal]
    simp only [List.nil_append, List.map_cons, List.map_nil, HoldMap.withHold,
      HoldMap.added_get, HoldMap.get_empty]
    decide
  refine ⟨hview, ?_, ?_⟩
  · rw [BalanceMismatches, hview]
    decide
  · rw [BalanceMismatches, hview]
    decide

/-- Witness of the amended C3 on the example keeper of scenario A. -/
theorem scenarioA_full_pass_witness :
    GetAllBalancesWithBalanceHolds scenarioA =
      some [⟨"S1", "USDT", NewDec 95, NewDec 100, NewDec 5⟩] ∧
    BalanceMismatches scenarioA ⟨0⟩ =
      some ⟨[⟨"S1", "USDT", NewDec 95, NewDec 100, NewDec 5, NewDec 100, ZeroDec⟩]⟩ ∧
    BalanceMismatches scenarioA ⟨1⟩ = some ⟨[]⟩ :=
  scenarioA_full_pass scenarioA ⟨"M1", [⟨"S1", NewDec 5⟩]⟩ ⟨"S1", NewDec 5⟩
    rfl rfl rfl rfl rfl rfl

/-- C9: whenever the full pass returns, a recorded balance whose key has no
resting order is reported if and only if (so in particular only if)
`|available - total| ≥ smallestUnit * dustFactor`; and the full pass returns
when the contributions meet the sufficient condition of the scan, the records
of the hold view have non-nil decimals and sums within the decimal range, and
the dust factor is an `int64`. -/
theorem zero_hold_reported_only_above_threshold
    (k : Keeper Hash SpotLimitOrder SpotMarket DerivativeLimitOrder DerivativeMarket)
    (req : QueryBalanceMismatchesRequest)
    (b : Balance) (hb : b ∈ k.GetAllExchangeBalances)
    (hno : matchingContributions k.holdContributions b.SubaccountId b.Denom = []) :
    (∀ res, BalanceMismatches k req = some res →
      ((∃ m ∈ res.BalanceMismatches, m.source.ledger = b.ledger) ↔
        SmallestDec.raw * req.DustFactor ≤
          |b.Deposits.AvailableBalance.raw - b.Deposits.TotalBalance.raw|)) ∧
    (k.HoldsInRange → k.ViewInRange → IsInt64 req.DustFactor →
      ∃ res, BalanceMismatches k req = some res) := by
  refine ⟨?_, balanceMismatches_of_inRange k req⟩
  intro res hres
  obtain ⟨_, hloop⟩ := balanceMismatches_some k req res hres
  obtain ⟨_, hms⟩ := BalanceMismatches.loop_some _ _ _ _ hloop
  have hdev : ∀ b' : Balance, b'.ledger = b.ledger →
      BalanceWithMarginHold.deviation
        { SubaccountId := b'.SubaccountId, Denom := b'.Denom,
          Available := b'.Deposits.AvailableBalance, Total := b'.Deposits.TotalBalance,
          BalanceHold := ⟨some (holdSum k.holdContributions b'.SubaccountId b'.Denom)⟩ } =
        |b.Deposits.AvailableBalance.raw - b.Deposits.TotalBalance.raw| := by
    intro b' hl
    simp only [Balance.ledger, Prod.mk.injEq] at hl
    obtain ⟨hs, hd, ha, ht⟩ := hl
    rw [BalanceWithMarginHold.deviation]
    simp only [hs, hd, ha, ht, holdSum, hno, List.map_nil, List.sum_nil, Dec.raw,
      Option.getD_some, add_zero]
  rw [hms]
  simp only [List.nil_append, Keeper.sumView]
  constructor
  · rintro ⟨m, hm, hsrc⟩
    simp only [List.mem_map, List.mem_filter, decide_eq_true_eq] at hm
    obtain ⟨r, ⟨⟨b', _, rfl⟩, hle⟩, rfl⟩ := hm
    rw [BalanceWithMarginHold.mismatch_source] at hsrc
    rw [← hdev b' hsrc]
    exact hle
  · intro hle
    refine ⟨BalanceWithMarginHold.mismatch
      { SubaccountId := b.SubaccountId, Denom := b.Denom,
        Available := b.Deposits.AvailableBalance, Total := b.Deposits.TotalBalance,
        BalanceHold := ⟨some (holdSum k.holdContributions b.SubaccountId b.Denom)⟩ }, ?_, ?_⟩
    · simp only [List.mem_map, List.mem_filter, decide_eq_true_eq]
      exact ⟨_, ⟨⟨b, hb, rfl⟩, by rw [hdev b rfl]; exact hle⟩, rfl⟩
    · rw [BalanceWithMarginHold.mismatch_source]
      rfl

/-- Witness of C9: `S3/USDT` (available `1`, total `2`) has no resting order. -/
theorem zero_hold_reported_only_above_threshold_witness :
    ∃ res, BalanceMismatches exampleMixed ⟨5⟩ = some res ∧
      ((∃ m ∈ res.BalanceMismatches,
          m.source.ledger = Balance.ledger ⟨"S3", "USDT", ⟨NewDec 1, NewDec 2⟩⟩) ↔
        SmallestDec.raw * 5 ≤ |(NewDec 1).raw - (NewDec 2).raw|) :=
  match (zero_hold_reported_only_above_threshold exampleMixed ⟨5⟩
      ⟨"S3", "USDT", ⟨NewDec 1, NewDec 2⟩⟩ (by decide) (by decide)).2
      (by decide) (by decide) (by decide) with
  | ⟨res, h⟩ =>
    ⟨res, h, (zero_hold_reported_only_above_threshold exampleMixed ⟨5⟩
      ⟨"S3", "USDT", ⟨NewDec 1, NewDec 2⟩⟩ (by decide) (by decide)).1 res h⟩

end FullPass

/-! ## Order independence of the scan -/

section OrderIndependence

variable {Hash SpotLimitOrder SpotMarket DerivativeLimitOrder DerivativeMarket : Type}

theorem spotContributions_perm
    (k : Keeper Hash SpotLimitOrder SpotMarket DerivativeLimitOrder DerivativeMarket)
    {books books' : List (SpotOrderBook SpotLimitOrder)} (h : SpotBooksPermuted books books') :
    List.Perm (books.flatMap k.spotBookContributions) (books'.flatMap k.spotBookContributions) := by
  obtain ⟨mid, hperm, hall⟩ := h
  have hmid : List.Perm (mid.flatMap k.spotBookContributions) (books'.flatMap k.spotBookContributions) := by
    clear hperm
    induction hall with
    | nil => exact List.Perm.refl _
    | cons hb _ ih =>
      rw [List.flatMap_cons, List.flatMap_cons]
      refine List.Perm.append ?_ ih
      unfold Keeper.spotBookContributions
      rw [hb.1]
      exact List.Perm.map _ hb.2
  exact (List.Perm.flatMap_right _ hperm).trans hmid

theorem derivativeContributions_perm
    (k : Keeper Hash SpotLimitOrder SpotMarket DerivativeLimitOrder DerivativeMarket)
    {books books' : List (DerivativeOrderBook DerivativeLimitOrder)}
    (h : DerivativeBooksPermuted books books') :
    List.Perm (books.flatMap k.derivativeBookContributions)
      (books'.flatMap k.derivativeBookContributions) := by
  obtain ⟨mid, hperm, hall⟩ := h
  have hmid : List.Perm (mid.flatMap k.derivativeBookContributions) (books'.flatMap k.derivativeBookContributions) := by
    clear hperm
    induction hall with
    | nil => exact List.Perm.refl _
    | cons hb _ ih =>
      rw [List.flatMap_cons, List.flatMap_cons]
      refine List.Perm.append ?_ ih
      unfold Keeper.derivativeBookContributions
      rw [hb.1]
      exact List.Perm.map _ hb.2
  exact (List.Perm.flatMap_right _ hperm).trans hmid

/-- C6: permuting the spot order books, the derivative order books, or the
orders inside any book leaves the hold map unchanged whenever both scans
return; and when no contribution is negative the permuted scan has the same
result as the original one, a hold map or a panic, and
`GetAllBalancesWithBalanceHolds` has the same output. -/
theorem hold_map_order_independent
    (k : Keeper Hash SpotLimitOrder SpotMarket DerivativeLimitOrder DerivativeMarket)
    (spot : List (SpotOrderBook SpotLimitOrder))
    (derivative : List (DerivativeOrderBook DerivativeLimitOrder))
    (hs : SpotBooksPermuted k.GetAllSpotLimitOrderbook spot)
    (hd : DerivativeBooksPermuted k.GetAllDerivativeAndBinaryOptionsLimitOrderbook derivative) :
    (∀ bh bh', GetAllBalancesWithBalanceHolds.balanceHolds k = some bh →
      GetAllBalancesWithBalanceHolds.balanceHolds (k.withOrderbooks spot derivative) =
        some bh' → bh' = bh) ∧
    ((∀ c ∈ k.holdContributions, amountNonneg c = true) →
      GetAllBalancesWithBalanceHolds.balanceHolds (k.withOrderbooks spot derivative) =
        GetAllBalancesWithBalanceHolds.balanceHolds k ∧
      GetAllBalancesWithBalanceHolds (k.withOrderbooks spot derivative) =
        GetAllBalancesWithBalanceHolds k) := by
  have hperm : List.Perm k.holdContributions (k.withOrderbooks spot derivative).holdContributions :=
    List.Perm.append (spotContributions_perm k hs) (derivativeContributions_perm k hd)
  refine ⟨?_, ?_⟩
  · intro bh bh' h h'
    rw [balanceHolds_eq] at h h'
    obtain ⟨_, rfl⟩ := applyContributions_some _ _ _ h
    obtain ⟨_, rfl⟩ := applyContributions_some _ _ _ h'
    exact (HoldMap.addAll_perm hperm HoldMap.empty).symm
  · intro hnn
    have hmap : GetAllBalancesWithBalanceHolds.balanceHolds (k.withOrderbooks spot derivative) =
        GetAllBalancesWithBalanceHolds.balanceHolds k := by
      rw [balanceHolds_eq, balanceHolds_eq]
      exact (applyContributions_perm hperm hnn HoldMap.empty HoldMap.empty_nonnegInRange).symm
    refine ⟨hmap, ?_⟩
    unfold GetAllBalancesWithBalanceHolds
    rw [hmap]
    rfl

/-- Witness of C6: the two orders of the derivative book of the mixed example
are swapped. -/
theorem hold_map_order_independent_witness :
    GetAllBalancesWithBalanceHolds.balanceHolds
        (exampleMixed.withOrderbooks [⟨"M1", [⟨"S1", NewDec 3⟩]⟩]
          [⟨"D1", [⟨"S1", NewDec 4⟩, ⟨"S2", NewDec 2⟩]⟩]) =
      GetAllBalancesWithBalanceHolds.balanceHolds exampleMixed ∧
    GetAllBalancesWithBalanceHolds
        (exampleMixed.withOrderbooks [⟨"M1", [⟨"S1", NewDec 3⟩]⟩]
          [⟨"D1", [⟨"S1", NewDec 4⟩, ⟨"S2", NewDec 2⟩]⟩]) =
      GetAllBalancesWithBalanceHolds exampleMixed :=
  (hold_map_order_independent exampleMixed [⟨"M1", [⟨"S1", NewDec 3⟩]⟩]
    [⟨"D1", [⟨"S1", NewDec 4⟩, ⟨"S2", NewDec 2⟩]⟩]
    ⟨_, List.Perm.refl _, List.Forall₂.cons ⟨rfl, List.Perm.refl _⟩ List.Forall₂.nil⟩
    ⟨_, List.Perm.refl _,
      List.Forall₂.cons ⟨rfl, List.Perm.swap _ _ _⟩ List.Forall₂.nil⟩).2 (by decide)

end OrderIndependence

/-! ## The mismatch filter: order, success and tolerance -/

section FilterProperties

variable {Hash SpotLimitOrder SpotMarket DerivativeLimitOrder DerivativeMarket : Type}

/-- C11: in scenario B (a single spot order contributing a hold of `5` USDT for
`S1`, no derivative order book, the one balance `S1/USDT` with available `95`
and total `101`) the full pass with dust factor `0` returns exactly one
mismatch, with expected total `100` and difference `-1`. -/
theorem scenarioB_full_pass
    (k : Keeper Hash SpotLimitOrder SpotMarket DerivativeLimitOrder DerivativeMarket)
    (orderbook : SpotOrderBook SpotLimitOrder) (order : SpotLimitOrder)
    (hspot : k.GetAllSpotLimitOrderbook = [orderbook])
    (horders : orderbook.Orders = [order])
    (hsub : k.SpotSubaccountIDHex order = "S1")
    (hhold : k.GetUnfilledMarginHoldAndMarginDenom order
      (k.GetSpotMarketByID (k.HexToHash orderbook.MarketId)) false = some (NewDec 5, "USDT"))
    (hder : k.GetAllDerivativeAndBinaryOptionsLimitOrderbook = [])
    (hbal : k.GetAllExchangeBalances = [⟨"S1", "USDT", ⟨NewDec 95, NewDec 101⟩⟩]) :
    BalanceMismatches k ⟨0⟩ =
      some ⟨[⟨"S1", "USDT", NewDec 95, NewDec 101, NewDec 5, NewDec 100, NewDec (-1)⟩]⟩ := by
  have hcs : k.holdContributions = [some ⟨"S1", "USDT", NewDec 5⟩] := by
    simp [Keeper.holdContributions, hspot, hder, Keeper.spotBookContributions, horders,
      Keeper.spotContribution, hhold, hsub]
  have hview : GetAllBalancesWithBalanceHolds k =
      some [⟨"S1", "USDT", NewDec 95, NewDec 101, NewDec 5⟩] := by
    rw [GetAllBalancesWithBalanceHolds, balanceHolds_eq, hcs,
      applyContributions_some_cons HoldMap.empty ⟨"S1", "USDT", NewDec 5⟩ []
        (by decide) (by decide)]
    simp only [applyContributions]
    rw [join_eq, hbal]
    simp only [List.nil_append, List.map_cons, List.map_nil, HoldMap.withHold,
      HoldMap.added_get, HoldMap.get_empty]
    decide
  rw [BalanceMismatches, hview]
  decide

/-- Witness of C11 on the example keeper of scenario B. -/
theorem scenarioB_full_pass_witness :
    BalanceMismatches scenarioB ⟨0⟩ =
      some ⟨[⟨"S1", "USDT", NewDec 95, NewDec 101, NewDec 5, NewDec 100, NewDec (-1)⟩]⟩ :=
  scenarioB_full_pass scenarioB ⟨"M1", [⟨"S1", NewDec 5⟩]⟩ ⟨"S1", NewDec 5⟩
    rfl rfl rfl rfl rfl rfl

/-- C12: whenever the loop of `BalanceMismatches` returns, the records the
mismatch list was built from form a subsequence of the balance-with-hold list:
the reported records keep the relative order of their source records and no
source record is reported twice; and for an `int64` dust factor the loop returns
exactly when every record has non-nil decimals and sums within the decimal
range. -/
theorem mismatches_stable_order (bwh : List BalanceWithMarginHold) (dustFactor : Int) :
    (∀ out, BalanceMismatches.loop dustFactor [] bwh = some out →
      (out.map BalanceMismatch.source).Sublist bwh) ∧
    (IsInt64 dustFactor →
      ((∃ out, BalanceMismatches.loop dustFactor [] bwh = some out) ↔
        ∀ r ∈ bwh, r.WellFormed ∧ r.InRange)) := by
  refine ⟨?_, fun hd => BalanceMismatches.loop_returns_iff dustFactor hd bwh⟩
  intro out hout
  obtain ⟨_, rfl⟩ := BalanceMismatches.loop_some dustFactor bwh [] out hout
  rw [List.nil_append, List.map_map]
  have hid : (BalanceMismatch.source ∘ BalanceWithMarginHold.mismatch) = id := by
    funext r
    exact r.mismatch_source
  rw [hid, List.map_id]
  exact List.filter_sublist _

/-- Witness of C12 on three records of which the first and the last are reported. -/
theorem mismatches_stable_order_witness :
    ∃ out, BalanceMismatches.loop 2 []
        [⟨"S1", "USDT", ⟨some 95⟩, ⟨some 103⟩, ⟨some 5⟩⟩,
         ⟨"S2", "USDT", ⟨some 95⟩, ⟨some 100⟩, ⟨some 5⟩⟩,
         ⟨"S3", "USDT", ⟨some 90⟩, ⟨some 100⟩, ⟨some 5⟩⟩] = some out ∧
      (out.map BalanceMismatch.source).Sublist
        [⟨"S1", "USDT", ⟨some 95⟩, ⟨some 103⟩, ⟨some 5⟩⟩,
         ⟨"S2", "USDT", ⟨some 95⟩, ⟨some 100⟩, ⟨some 5⟩⟩,
         ⟨"S3", "USDT", ⟨some 90⟩, ⟨some 100⟩, ⟨some 5⟩⟩] :=
  match ((mismatches_stable_order _ 2).2 (by decide)).mpr (by decide) with
  | ⟨out, h⟩ => ⟨out, h, (mismatches_stable_order _ 2).1 out h⟩

/-- C17, as stated, fails: the hold view of the overflow example is one record
with non-nil decimals (available `2^315 - 1` units, hold one unit, total `0`),
and `BalanceMismatches` panics on it, because `available + hold` has more than
`maxDecBitLen` bits. -/
theorem nonnil_record_overflow_panics :
    GetAllBalancesWithBalanceHolds overflowKeeper =
      some [⟨"S1", "USDT", ⟨some (decBound - 1)⟩, ZeroDec, SmallestDec⟩] ∧
    BalanceWithMarginHold.WellFormed
      ⟨"S1", "USDT", ⟨some (decBound - 1)⟩, ZeroDec, SmallestDec⟩ ∧
    BalanceMismatches.loop 0 []
      [⟨"S1", "USDT", ⟨some (decBound - 1)⟩, ZeroDec, SmallestDec⟩] = none ∧
    BalanceMismatches overflowKeeper ⟨0⟩ = none := by
  decide

/-- C17, amended: when the hold view consists of records with non-nil decimals
and the dust factor is an `int64`, `BalanceMismatches` returns a response (its
only return statement gives a nil error) exactly when, for every record,
`available + hold` and `(available + hold) - total` stay within the decimal
range; the response then holds the list built by the loop, one record for each
input record whose deviation reaches the threshold, whatever their number. -/
theorem balanceMismatches_returns
    (k : Keeper Hash SpotLimitOrder SpotMarket DerivativeLimitOrder DerivativeMarket)
    (req : QueryBalanceMismatchesRequest) (bwh : List BalanceWithMarginHold)
    (hview : GetAllBalancesWithBalanceHolds k = some bwh)
    (hwf : ∀ r ∈ bwh, r.WellFormed) (hd : IsInt64 req.DustFactor) :
    ((∃ res, BalanceMismatches k req = some res) ↔ ∀ r ∈ bwh, r.InRange) ∧
    (∀ res, BalanceMismatches k req = some res →
      BalanceMismatches.loop req.DustFactor [] bwh = some res.BalanceMismatches ∧
      res.BalanceMismatches.length =
        (bwh.filter
          (fun r => decide (SmallestDec.raw * req.DustFactor ≤ r.deviation))).length) := by
  have hsome : ∀ res, BalanceMismatches k req = some res →
      BalanceMismatches.loop req.DustFactor [] bwh = some res.BalanceMismatches := by
    intro res hres
    unfold BalanceMismatches at hres
    rw [hview] at hres
    simp only at hres
    cases hloop : BalanceMismatches.loop req.DustFactor [] bwh with
    | none => rw [hloop] at hres; cases hres
    | some ms =>
      rw [hloop] at hres
      simp only [Option.some.injEq] at hres
      rw [← hres]
  refine ⟨⟨?_, ?_⟩, ?_⟩
  · rintro ⟨res, hres⟩ r hr
    exact ((BalanceMismatches.loop_some _ _ _ _ (hsome res hres)).1 r hr).2
  · intro hrange
    have hloop := BalanceMismatches.loop_of_inRange req.DustFactor (Dec.fits_of_isInt64 hd)
      bwh [] (fun r hr => ⟨hwf r hr, hrange r hr⟩)
    have hres : BalanceMismatches k req = some ⟨[] ++ (bwh.filter
        (fun r => decide (SmallestDec.raw * req.DustFactor ≤ r.deviation))).map
          BalanceWithMarginHold.mismatch⟩ := by
      rw [BalanceMismatches, hview]
      simp only
      rw [hloop]
    exact ⟨_, hres⟩
  · intro res hres
    have hloop := hsome res hres
    refine ⟨hloop, ?_⟩
    rw [(BalanceMismatches.loop_some _ _ _ _ hloop).2]
    simp

/-- Witness of the amended C17: scenario B returns a response with one mismatch. -/
theorem balanceMismatches_returns_witness :
    ∃ res, BalanceMismatches scenarioB ⟨0⟩ = some res ∧
      BalanceMismatches.loop 0 [] [⟨"S1", "USDT", NewDec 95, NewDec 101, NewDec 5⟩] =
        some res.BalanceMismatches ∧
      res.BalanceMismatches.length =
        (([⟨"S1", "USDT", NewDec 95, NewDec 101, NewDec 5⟩] : List BalanceWithMarginHold).filter
          (fun r => decide (SmallestDec.raw * 0 ≤ r.deviation))).length :=
  match (balanceMismatches_returns scenarioB ⟨0⟩
      [⟨"S1", "USDT", NewDec 95, NewDec 101, NewDec 5⟩]
      (by decide) (by decide) (by decide)).1.mpr (by decide) with
  | ⟨res, h⟩ =>
    ⟨res, h, (balanceMismatches_returns scenarioB ⟨0⟩
      [⟨"S1", "USDT", NewDec 95, NewDec 101, NewDec 5⟩]
      (by decide) (by decide) (by decide)).2 res h⟩

/-- C19: for every dust factor less than or equal to `0`, whenever the loop of
`BalanceMismatches` returns it reports every input record, also those with
`available + hold = total`: the mismatch list has the length of the input and
its source records are the input; and for an `int64` dust factor the loop
returns exactly when every record has non-nil decimals and sums within the
decimal range. -/
theorem nonpositive_dust_factor_reports_all (bwh : List BalanceWithMarginHold)
    (dustFactor : Int) (hd : dustFactor ≤ 0) :
    (∀ out, BalanceMismatches.loop dustFactor [] bwh = some out →
      out.length = bwh.length ∧ out.map BalanceMismatch.source = bwh) ∧
    (IsInt64 dustFactor →
      ((∃ out, BalanceMismatches.loop dustFactor [] bwh = some out) ↔
        ∀ r ∈ bwh, r.WellFormed ∧ r.InRange)) := by
  refine ⟨?_, fun h64 => BalanceMismatches.loop_returns_iff dustFactor h64 bwh⟩
  intro out hout
  obtain ⟨_, rfl⟩ := BalanceMismatches.loop_some dustFactor bwh [] out hout
  have hall : bwh.filter (fun r => decide (SmallestDec.raw * dustFactor ≤ r.deviation)) = bwh := by
    rw [List.filter_eq_self]
    intro r _
    simp only [decide_eq_true_eq, Dec.SmallestDec, Dec.raw, Option.getD_some, one_mul]
    exact le_trans hd (abs_nonneg _)
  refine ⟨?_, ?_⟩
  · rw [hall, List.nil_append, List.length_map]
  · rw [hall, List.nil_append, List.map_map]
    have hid : (BalanceMismatch.source ∘ BalanceWithMarginHold.mismatch) = id := by
      funext r
      exact r.mismatch_source
    rw [hid, List.map_id]

/-- Witness of C19: at dust factor `0` the exactly consistent record is reported. -/
theorem nonpositive_dust_factor_reports_all_witness :
    ∃ out, BalanceMismatches.loop 0 []
        [⟨"S1", "USDT", NewDec 95, NewDec 100, NewDec 5⟩,
         ⟨"S2", "USDT", NewDec 95, NewDec 101, NewDec 5⟩] = some out ∧
      out.length = ([⟨"S1", "USDT", NewDec 95, NewDec 100, NewDec 5⟩,
         ⟨"S2", "USDT", NewDec 95, NewDec 101, NewDec 5⟩] : List BalanceWithMarginHold).length ∧
      out.map BalanceMismatch.source =
        [⟨"S1", "USDT", NewDec 95, NewDec 100, NewDec 5⟩,
         ⟨"S2", "USDT", NewDec 95, NewDec 101, NewDec 5⟩] :=
  match ((nonpositive_dust_factor_reports_all _ 0 (by decide)).2 (by decide)).mpr
      (by decide) with
  | ⟨out, h⟩ => ⟨out, h, (nonpositive_dust_factor_reports_all _ 0 (by decide)).1 out h⟩

/-- C20: for dust factors `d₁ ≤ d₂`, whenever the loop of `BalanceMismatches`
returns with both, the mismatch list produced with `d₂` is a subsequence of the
mismatch list produced with `d₁`; and for `int64` dust factors both loops
return when every record has non-nil decimals and sums within the decimal
range. -/
theorem mismatches_antitone_in_dust_factor (bwh : List BalanceWithMarginHold)
    (d₁ d₂ : Int) (hd : d₁ ≤ d₂) :
    (∀ out₁ out₂, BalanceMismatches.loop d₁ [] bwh = some out₁ →
      BalanceMismatches.loop d₂ [] bwh = some out₂ → out₂.Sublist out₁) ∧
    (IsInt64 d₁ → IsInt64 d₂ → (∀ r ∈ bwh, r.WellFormed ∧ r.InRange) →
      ∃ out₁ out₂, BalanceMismatches.loop d₁ [] bwh = some out₁ ∧
        BalanceMismatches.loop d₂ [] bwh = some out₂) := by
  refine ⟨?_, ?_⟩
  · intro out₁ out₂ h₁ h₂
    obtain ⟨_, rfl⟩ := BalanceMismatches.loop_some d₁ bwh [] out₁ h₁
    obtain ⟨_, rfl⟩ := BalanceMismatches.loop_some d₂ bwh [] out₂ h₂
    rw [List.nil_append, List.nil_append]
    refine List.Sublist.map _ (List.monotone_filter_right bwh ?_)
    intro r hr
    simp only [decide_eq_true_eq, Dec.SmallestDec, Dec.raw, Option.getD_some,
      one_mul] at hr ⊢
    exact le_trans hd hr
  · intro h₁ h₂ hall
    exact ⟨_, _, BalanceMismatches.loop_of_inRange d₁ (Dec.fits_of_isInt64 h₁) bwh [] hall,
      BalanceMismatches.loop_of_inRange d₂ (Dec.fits_of_isInt64 h₂) bwh [] hall⟩

/-- Witness of C20 with the dust factors `1` and `3`. -/
theorem mismatches_antitone_in_dust_factor_witness :
    ∃ out₁ out₂, BalanceMismatches.loop 1 []
        [⟨"S1", "USDT", ⟨some 95⟩, ⟨some 102⟩, ⟨some 5⟩⟩,
         ⟨"S2", "USDT", ⟨some 95⟩, ⟨some 104⟩, ⟨some 5⟩⟩] = some out₁ ∧
      BalanceMismatches.loop 3 []
        [⟨"S1", "USDT", ⟨some 95⟩, ⟨some 102⟩, ⟨some 5⟩⟩,
         ⟨"S2", "USDT", ⟨some 95⟩, ⟨some 104⟩, ⟨some 5⟩⟩] = some out₂ ∧ out₂.Sublist out₁ :=
  match (mismatches_antitone_in_dust_factor _ 1 3 (by decide)).2 (by decide) (by decide)
      (by decide) with
  | ⟨out₁, out₂, h₁, h₂⟩ =>
    ⟨out₁, out₂, h₁, h₂, (mismatches_antitone_in_dust_factor _ 1 3 (by decide)).1 out₁ out₂ h₁ h₂⟩

end FilterProperties

/-! ## Unresolved markets -/

theorem applyContributions_of_mem_none (cs : List (Option HoldContribution)) :
    ∀ bh : HoldMap, none ∈ cs → applyContributions bh cs = none := by
  induction cs with
  | nil => intro bh h; simp at h
  | cons c rest ih =>
    intro bh h
    cases c with
    | none => rfl
    | some c =>
      have hrest : none ∈ rest := by simpa using h
      rw [applyContributions]
      cases safeUpdateBalanceHolds bh c.SubaccountId c.Denom c.Amount with
      | none => rfl
      | some bh' => exact ih bh' hrest

theorem flatMap_filter_nonempty {α β : Type} (f : α → List β) (p : α → Bool)
    (hp : ∀ a, p a = false → f a = []) (l : List α) :
    (l.filter p).flatMap f = l.flatMap f := by
  induction l with
  | nil => rfl
  | cons a rest ih =>
    cases hpa : p a with
    | true => rw [List.filter_cons_of_pos hpa, List.flatMap_cons, List.flatMap_cons, ih]
    | false =>
      rw [List.filter_cons_of_neg (by simp [hpa]), List.flatMap_cons, hp a hpa, ih]
      rfl

section UnresolvedMarkets

variable {Hash SpotLimitOrder SpotMarket DerivativeLimitOrder DerivativeMarket : Type}

/-- C13, as stated, fails: order books that name unknown markets and hold no
order are passed over, and `GetAllBalancesWithBalanceHolds` returns its output. -/
theorem unresolved_empty_books_are_skipped :
    GetAllBalancesWithBalanceHolds unresolvedEmptyBooks =
      some [⟨"S1", "USDT", NewDec 95, NewDec 100, ZeroDec⟩] ∧
    GetAllBalancesWithBalanceHolds unresolvedEmptyBooks ≠ none := by
  decide

/-- C13, amended: `GetAllBalancesWithBalanceHolds` has no error result; it does
not return (it panics, and so does `BalanceMismatches`) when a derivative order
book with at least one order names a market the lookup cannot resolve, and when
a spot order book names such a market and the margin-hold method of one of its
orders panics on the nil market; order books without orders are passed over,
whether or not their market resolves. -/
theorem unresolved_market_panics_on_first_order
    (k : Keeper Hash SpotLimitOrder SpotMarket DerivativeLimitOrder DerivativeMarket)
    (req : QueryBalanceMismatchesRequest) :
    (∀ orderbook ∈ k.GetAllDerivativeAndBinaryOptionsLimitOrderbook,
      k.GetDerivativeOrBinaryOptionsMarket (k.HexToHash orderbook.MarketId) = none →
      orderbook.Orders ≠ [] →
        GetAllBalancesWithBalanceHolds k = none ∧ BalanceMismatches k req = none) ∧
    (∀ orderbook ∈ k.GetAllSpotLimitOrderbook, ∀ order ∈ orderbook.Orders,
      k.GetSpotMarketByID (k.HexToHash orderbook.MarketId) = none →
      k.GetUnfilledMarginHoldAndMarginDenom order none false = none →
        GetAllBalancesWithBalanceHolds k = none ∧ BalanceMismatches k req = none) ∧
    GetAllBalancesWithBalanceHolds
        (k.withOrderbooks (k.GetAllSpotLimitOrderbook.filter (fun b => !b.Orders.isEmpty))
          (k.GetAllDerivativeAndBinaryOptionsLimitOrderbook.filter
            (fun b => !b.Orders.isEmpty))) =
      GetAllBalancesWithBalanceHolds k := by
  have hnone : none ∈ k.holdContributions →
      GetAllBalancesWithBalanceHolds k = none ∧ BalanceMismatches k req = none := by
    intro h
    have hview : GetAllBalancesWithBalanceHolds k = none := by
      rw [GetAllBalancesWithBalanceHolds, balanceHolds_eq,
        applyContributions_of_mem_none _ _ h]
    exact ⟨hview, by rw [BalanceMismatches, hview]⟩
  refine ⟨?_, ?_, ?_⟩
  · intro orderbook hob hm hne
    apply hnone
    obtain ⟨order, rest, horders⟩ := List.exists_cons_of_ne_nil hne
    rw [Keeper.holdContributions, List.mem_append]
    right
    rw [List.mem_flatMap]
    refine ⟨orderbook, hob, ?_⟩
    rw [Keeper.derivativeBookContributions, hm, horders, List.map_cons]
    exact List.mem_cons_self _ _
  · intro orderbook hob order ho hm hpanic
    apply hnone
    rw [Keeper.holdContributions, List.mem_append]
    left
    rw [List.mem_flatMap]
    refine ⟨orderbook, hob, ?_⟩
    rw [Keeper.spotBookContributions, hm, List.mem_map]
    exact ⟨order, ho, by rw [Keeper.spotContribution, hpanic]⟩
  · have hcs : (k.withOrderbooks (k.GetAllSpotLimitOrderbook.filter (fun b => !b.Orders.isEmpty))
          (k.GetAllDerivativeAndBinaryOptionsLimitOrderbook.filter
            (fun b => !b.Orders.isEmpty))).holdContributions = k.holdContributions := by
      unfold Keeper.holdContributions Keeper.withOrderbooks
      simp only
      congr 1
      · refine flatMap_filter_nonempty k.spotBookContributions _ ?_ _
        intro b hb
        have : b.Orders = [] := by simpa [List.isEmpty_iff] using hb
        rw [Keeper.spotBookContributions, this]
        rfl
      · refine flatMap_filter_nonempty k.derivativeBookContributions _ ?_ _
        intro b hb
        have : b.Orders = [] := by simpa [List.isEmpty_iff] using hb
        rw [Keeper.derivativeBookContributions, this]
        rfl
    unfold GetAllBalancesWithBalanceHolds
    rw [balanceHolds_eq, balanceHolds_eq, hcs]
    rfl

/-- Witness of the amended C13: a derivative and a spot book with one order and
an unknown market make the query panic. -/
theorem unresolved_market_panics_on_first_order_witness :
    (GetAllBalancesWithBalanceHolds unresolvedDerivativeBook = none ∧
      BalanceMismatches unresolvedDerivativeBook ⟨0⟩ = none) ∧
    (GetAllBalancesWithBalanceHolds unresolvedSpotBook = none ∧
      BalanceMismatches unresolvedSpotBook ⟨0⟩ = none) :=
  ⟨(unresolved_market_panics_on_first_order unresolvedDerivativeBook ⟨0⟩).1
      ⟨"DX", [⟨"S1", NewDec 5⟩]⟩ (List.mem_singleton.mpr rfl) (by decide) (by decide),
   (unresolved_market_panics_on_first_order unresolvedSpotBook ⟨0⟩).2.1
      ⟨"MX", [⟨"S1", NewDec 5⟩]⟩ (List.mem_singleton.mpr rfl) ⟨"S1", NewDec 5⟩ (by decide)
      (by decide) (by decide)⟩

end UnresolvedMarkets


/-! ## What one order book contributes -/

theorem matchingContributions_map {α : Type} (g : α → HoldContribution) (l : List α)
    (s d : String) :
    matchingContributions (l.map (fun o => some (g o))) s d =
      (l.filter (fun o => decide ((g o).SubaccountId = s ∧ (g o).Denom = d))).map g := by
  induction l with
  | nil => rfl
  | cons a rest ih =>
    rw [List.map_cons, matchingContributions_cons_some, ih]
    by_cases h : (g a).SubaccountId = s ∧ (g a).Denom = d
    · rw [if_pos h, List.filter_cons_of_pos (by simpa using h), List.map_cons]
    · rw [if_neg h, List.filter_cons_of_neg (by simpa using h)]

section BookContributions

variable {Hash SpotLimitOrder SpotMarket DerivativeLimitOrder DerivativeMarket : Type}

theorem derivativeBookContributions_eq
    (k : Keeper Hash SpotLimitOrder SpotMarket DerivativeLimitOrder DerivativeMarket)
    (orderbook : DerivativeOrderBook DerivativeLimitOrder) (market : DerivativeMarket)
    (hm : k.GetDerivativeOrBinaryOptionsMarket (k.HexToHash orderbook.MarketId) = some market)
    (hok : ∀ o ∈ orderbook.Orders, (k.cancelHold market o).IsNil = false) :
    k.derivativeBookContributions orderbook =
      orderbook.Orders.map (fun o => some
        ⟨k.DerivativeSubaccountIDHex o, k.GetQuoteDenom market, k.cancelHold market o⟩) := by
  rw [Keeper.derivativeBookContributions, hm]
  refine List.map_congr_left ?_
  intro o ho
  have h := hok o ho
  unfold Keeper.cancelHold at h ⊢
  unfold Keeper.derivativeContribution
  cases hdelta : k.GetCancelDepositDelta o (k.GetMakerFeeRate market) with
  | none => rw [hdelta] at h; simp [Dec.IsNil] at h
  | some delta => simp only [hdelta]

theorem spotBookContributions_eq
    (k : Keeper Hash SpotLimitOrder SpotMarket DerivativeLimitOrder DerivativeMarket)
    (orderbook : SpotOrderBook SpotLimitOrder)
    (hok : ∀ o ∈ orderbook.Orders,
      (k.spotHold (k.GetSpotMarketByID (k.HexToHash orderbook.MarketId)) o).1.IsNil = false) :
    k.spotBookContributions orderbook =
      orderbook.Orders.map (fun o => some
        ⟨k.SpotSubaccountIDHex o,
          (k.spotHold (k.GetSpotMarketByID (k.HexToHash orderbook.MarketId)) o).2,
          (k.spotHold (k.GetSpotMarketByID (k.HexToHash orderbook.MarketId)) o).1⟩) := by
  rw [Keeper.spotBookContributions]
  refine List.map_congr_left ?_
  intro o ho
  have h := hok o ho
  unfold Keeper.spotHold at h ⊢
  unfold Keeper.spotContribution
  cases hp : k.GetUnfilledMarginHoldAndMarginDenom o
      (k.GetSpotMarketByID (k.HexToHash orderbook.MarketId)) false with
  | none => rw [hp] at h; simp [Dec.IsNil] at h
  | some p => rfl

theorem contributionOk_derivativeContribution
    (k : Keeper Hash SpotLimitOrder SpotMarket DerivativeLimitOrder DerivativeMarket)
    (market : DerivativeMarket) (o : DerivativeLimitOrder)
    (h : contributionOk (k.derivativeContribution (some market) o) = true) :
    (k.cancelHold market o).IsNil = false := by
  unfold Keeper.cancelHold
  unfold Keeper.derivativeContribution at h
  cases hdelta : k.GetCancelDepositDelta o (k.GetMakerFeeRate market) with
  | none => simp [hdelta, contributionOk] at h
  | some delta =>
    simp only [hdelta, contributionOk, Bool.not_eq_true', ] at h
    simpa using h

theorem contributionOk_spotContribution
    (k : Keeper Hash SpotLimitOrder SpotMarket DerivativeLimitOrder DerivativeMarket)
    (market : Option SpotMarket) (o : SpotLimitOrder)
    (h : contributionOk (k.spotContribution market o) = true) :
    (k.spotHold market o).1.IsNil = false := by
  unfold Keeper.spotHold
  unfold Keeper.spotContribution at h
  cases hp : k.GetUnfilledMarginHoldAndMarginDenom o market false with
  | none => simp [hp, contributionOk] at h
  | some p =>
    simp only [hp, contributionOk] at h
    simpa using h

theorem HoldMap.addAll_map_get {α : Type} (g : α → HoldContribution) (l : List α)
    (bh : HoldMap) (s d : String) :
    (bh.addAll (l.map (fun o => some (g o)))).get s d =
      if (l.filter (fun o => decide ((g o).SubaccountId = s ∧ (g o).Denom = d))).isEmpty then
        bh.get s d
      else ⟨some ((bh.get s d).raw +
        ((l.filter (fun o => decide ((g o).SubaccountId = s ∧ (g o).Denom = d))).map
          (fun o => (g o).Amount.raw)).sum)⟩ := by
  rw [HoldMap.addAll_get, holdSum, matchingContributions_map, List.map_map]
  by_cases hf : l.filter (fun o => decide ((g o).SubaccountId = s ∧ (g o).Denom = d)) = []
  · rw [if_pos (by rw [hf]; rfl), if_pos (by rw [hf]; rfl)]
  · rw [if_neg (by simpa using hf), if_neg (by simpa [List.isEmpty_iff] using hf)]
    rfl

/-- A scan of defined, non-nil, non-negative contributions returns when every
entry plus the amounts keyed by it stays below `2^315` units. -/
theorem applyContributions_map_returns {α : Type} (g : α → HoldContribution) (l : List α)
    (bh : HoldMap)
    (hok : ∀ o ∈ l, (g o).Amount.IsNil = false ∧ 0 ≤ (g o).Amount.raw)
    (hbh : bh.NonnegInRange)
    (hfit : ∀ s d, (bh.get s d).raw +
      ((l.filter (fun o => decide ((g o).SubaccountId = s ∧ (g o).Denom = d))).map
        (fun o => (g o).Amount.raw)).sum < decBound) :
    applyContributions bh (l.map (fun o => some (g o))) =
      some (bh.addAll (l.map (fun o => some (g o)))) := by
  refine applyContributions_of_nonneg _ bh ?_ hbh ?_
  · intro c hc
    obtain ⟨o, ho, rfl⟩ := List.mem_map.mp hc
    have h := hok o ho
    simp [contributionOk, amountNonneg, h.1, h.2]
  · intro s d
    rw [holdSum, matchingContributions_map, List.map_map]
    exact hfit s d

theorem List.sum_filter_map_le {α : Type} (l : List α) (p : α → Bool) (f : α → Int)
    (hnn : ∀ o ∈ l, 0 ≤ f o) : ((l.filter p).map f).sum ≤ (l.map f).sum := by
  induction l with
  | nil => simp
  | cons a rest ih =>
    have ha := hnn a (List.mem_cons_self _ _)
    have hrest := ih (fun o ho => hnn o (List.mem_cons_of_mem _ ho))
    cases hp : p a with
    | true =>
      rw [List.filter_cons_of_pos hp, List.map_cons, List.map_cons, List.sum_cons, List.sum_cons]
      omega
    | false =>
      rw [List.filter_cons_of_neg (by simp [hp]), List.map_cons, List.sum_cons]
      omega

/-- From the empty hold map, non-negative amounts that sum to less than `2^315`
units stay within the decimal range under every key. -/
theorem HoldMap.empty_fits_of_total {α : Type} (l : List α) (p : α → Bool) (f : α → Int)
    (hnn : ∀ o ∈ l, 0 ≤ f o) (ht : (l.map f).sum < decBound) (s d : String) :
    (HoldMap.empty.get s d).raw + ((l.filter p).map f).sum < decBound := by
  have h := List.sum_filter_map_le l p f hnn
  rw [HoldMap.get_empty]
  simp only [Dec.raw, Option.getD_none, zero_add]
  omega

/-- C14: when the market of a derivative order book resolves, then whenever
the scan of the book returns it has added to the hold map, for each order, the
`AvailableBalanceDelta` of the order's cancel-deposit delta at the market's
maker fee rate under the key (order subaccount, quote denom of the market): the
entry of a subaccount at the quote denom has grown by the sum over the book's
orders of that subaccount, and no entry of another denom has changed. The scan
returns when the amounts are non-nil and non-negative, the entries of the map
are non-negative and every entry at the quote denom plus the amounts of its
subaccount stays below `2^315` units. -/
theorem derivative_book_adds_cancel_delta_at_quote_denom
    (k : Keeper Hash SpotLimitOrder SpotMarket DerivativeLimitOrder DerivativeMarket)
    (orderbook : DerivativeOrderBook DerivativeLimitOrder) (market : DerivativeMarket)
    (bh : HoldMap)
    (hm : k.GetDerivativeOrBinaryOptionsMarket (k.HexToHash orderbook.MarketId) = some market) :
    (∀ bh', GetAllBalancesWithBalanceHolds.derivativeOrderbooks k bh [orderbook] = some bh' →
      ∀ s d, bh'.get s d =
        if d = k.GetQuoteDenom market ∧ (orderbook.Orders.filter
            (fun o => decide (k.DerivativeSubaccountIDHex o = s))).isEmpty = false then
          ⟨some ((bh.get s d).raw +
            ((orderbook.Orders.filter (fun o => decide (k.DerivativeSubaccountIDHex o = s))).map
              (fun o => (k.cancelHold market o).raw)).sum)⟩
        else bh.get s d) ∧
    ((∀ o ∈ orderbook.Orders,
        (k.cancelHold market o).IsNil = false ∧ 0 ≤ (k.cancelHold market o).raw) →
      bh.NonnegInRange →
      (∀ s, (bh.get s (k.GetQuoteDenom market)).raw +
        ((orderbook.Orders.filter (fun o => decide (k.DerivativeSubaccountIDHex o = s))).map
          (fun o => (k.cancelHold market o).raw)).sum < decBound) →
      ∃ bh', GetAllBalancesWithBalanceHolds.derivativeOrderbooks k bh [orderbook] = some bh') := by
  have hscan : GetAllBalancesWithBalanceHolds.derivativeOrderbooks k bh [orderbook] =
      applyContributions bh (k.derivativeBookContributions orderbook) := by
    rw [derivativeOrderbooks_eq, List.flatMap_cons, List.flatMap_nil, List.append_nil]
  have hfilter : ∀ s d, d = k.GetQuoteDenom market →
      orderbook.Orders.filter (fun o =>
        decide (k.DerivativeSubaccountIDHex o = s ∧ k.GetQuoteDenom market = d)) =
      orderbook.Orders.filter (fun o => decide (k.DerivativeSubaccountIDHex o = s)) := by
    intro s d hd
    refine List.filter_congr ?_
    intro o _
    simp [hd]
  have hfilter' : ∀ s d, ¬ d = k.GetQuoteDenom market →
      orderbook.Orders.filter (fun o =>
        decide (k.DerivativeSubaccountIDHex o = s ∧ k.GetQuoteDenom market = d)) = [] := by
    intro s d hd
    rw [List.filter_eq_nil_iff]
    intro o _
    have hne : ¬ k.GetQuoteDenom market = d := fun h => hd h.symm
    simp [hne]
  refine ⟨?_, ?_⟩
  · intro bh' hrun s d
    rw [hscan] at hrun
    obtain ⟨hall, rfl⟩ := applyContributions_some _ _ _ hrun
    have hok : ∀ o ∈ orderbook.Orders, (k.cancelHold market o).IsNil = false := by
      intro o ho
      refine contributionOk_derivativeContribution k market o (hall _ ?_)
      rw [Keeper.derivativeBookContributions, hm]
      exact List.mem_map_of_mem _ ho
    rw [derivativeBookContributions_eq k orderbook market hm hok,
      HoldMap.addAll_map_get (fun o => (⟨k.DerivativeSubaccountIDHex o, k.GetQuoteDenom market,
        k.cancelHold market o⟩ : HoldContribution))]
    by_cases hd : d = k.GetQuoteDenom market
    · simp only [hfilter s d hd]
      cases he : (orderbook.Orders.filter
          (fun o => decide (k.DerivativeSubaccountIDHex o = s))).isEmpty with
      | true => rw [if_pos rfl, if_neg (fun h => by simp at h)]
      | false => rw [if_neg (by simp), if_pos ⟨hd, rfl⟩]
    · simp only [hfilter' s d hd]
      rw [if_pos (by rfl), if_neg (fun h => hd h.1)]
  · intro hok hbh hfit
    rw [hscan, derivativeBookContributions_eq k orderbook market hm (fun o ho => (hok o ho).1)]
    refine ⟨_, applyContributions_map_returns
      (fun o => (⟨k.DerivativeSubaccountIDHex o, k.GetQuoteDenom market,
        k.cancelHold market o⟩ : HoldContribution)) orderbook.Orders bh hok hbh ?_⟩
    intro s d
    by_cases hd : d = k.GetQuoteDenom market
    · simp only [hfilter s d hd]
      rw [hd]
      exact hfit s
    · simp only [hfilter' s d hd]
      simpa using (hbh s d).2

/-- Witness of C14: the derivative book of the mixed example, scanned from the
empty hold map. -/
theorem derivative_book_adds_cancel_delta_at_quote_denom_witness :
    ∃ bh', GetAllBalancesWithBalanceHolds.derivativeOrderbooks exampleMixed HoldMap.empty
        [⟨"D1", [⟨"S2", NewDec 2⟩, ⟨"S1", NewDec 4⟩]⟩] = some bh' ∧
      ∀ s d, bh'.get s d =
        if d = exampleMixed.GetQuoteDenom "USDT" ∧
            (([⟨"S2", NewDec 2⟩, ⟨"S1", NewDec 4⟩] : List ExampleOrder).filter
              (fun o => decide (exampleMixed.DerivativeSubaccountIDHex o = s))).isEmpty = false then
          ⟨some ((HoldMap.empty.get s d).raw +
            ((([⟨"S2", NewDec 2⟩, ⟨"S1", NewDec 4⟩] : List ExampleOrder).filter
              (fun o => decide (exampleMixed.DerivativeSubaccountIDHex o = s))).map
              (fun o => (exampleMixed.cancelHold "USDT" o).raw)).sum)⟩
        else HoldMap.empty.get s d :=
  match (derivative_book_adds_cancel_delta_at_quote_denom exampleMixed
      ⟨"D1", [⟨"S2", NewDec 2⟩, ⟨"S1", NewDec 4⟩]⟩ "USDT" HoldMap.empty rfl).2 (by decide)
      HoldMap.empty_nonnegInRange
      (fun s => HoldMap.empty_fits_of_total _ _ _ (by decide) (by decide) s _) with
  | ⟨bh', h⟩ =>
    ⟨bh', h, (derivative_book_adds_cancel_delta_at_quote_denom exampleMixed
      ⟨"D1", [⟨"S2", NewDec 2⟩, ⟨"S1", NewDec 4⟩]⟩ "USDT" HoldMap.empty rfl).1 bh' h⟩

/-- C15: whenever the scan of a spot order book returns, it has added to the
hold map, for each order, the amount of the pair
`GetUnfilledMarginHoldAndMarginDenom(market, false)` of the book's market under
the key (order subaccount, denom of the pair): every entry has grown by the sum
over the book's orders with that key, and an entry no order is keyed by keeps
its value. The scan returns when the amounts are non-nil and non-negative, the
entries of the map are non-negative and every entry plus the amounts keyed by
it stays below `2^315` units. -/
theorem spot_book_adds_margin_hold_at_hold_denom
    (k : Keeper Hash SpotLimitOrder SpotMarket DerivativeLimitOrder DerivativeMarket)
    (orderbook : SpotOrderBook SpotLimitOrder) (bh : HoldMap) :
    (∀ bh', GetAllBalancesWithBalanceHolds.spotOrderbooks k bh [orderbook] = some bh' →
      ∀ s d, bh'.get s d =
        if (orderbook.Orders.filter (fun o => decide (k.SpotSubaccountIDHex o = s ∧
            (k.spotHold (k.GetSpotMarketByID (k.HexToHash orderbook.MarketId)) o).2 = d))).isEmpty
        then bh.get s d
        else ⟨some ((bh.get s d).raw +
          ((orderbook.Orders.filter (fun o => decide (k.SpotSubaccountIDHex o = s ∧
            (k.spotHold (k.GetSpotMarketByID (k.HexToHash orderbook.MarketId)) o).2 = d))).map
            (fun o =>
              (k.spotHold (k.GetSpotMarketByID (k.HexToHash orderbook.MarketId)) o).1.raw)).sum)⟩) ∧
    ((∀ o ∈ orderbook.Orders,
        (k.spotHold (k.GetSpotMarketByID (k.HexToHash orderbook.MarketId)) o).1.IsNil = false ∧
        0 ≤ (k.spotHold (k.GetSpotMarketByID (k.HexToHash orderbook.MarketId)) o).1.raw) →
      bh.NonnegInRange →
      (∀ s d, (bh.get s d).raw +
        ((orderbook.Orders.filter (fun o => decide (k.SpotSubaccountIDHex o = s ∧
            (k.spotHold (k.GetSpotMarketByID (k.HexToHash orderbook.MarketId)) o).2 = d))).map
          (fun o =>
            (k.spotHold (k.GetSpotMarketByID (k.HexToHash orderbook.MarketId)) o).1.raw)).sum
          < decBound) →
      ∃ bh', GetAllBalancesWithBalanceHolds.spotOrderbooks k bh [orderbook] = some bh') := by
  have hscan : GetAllBalancesWithBalanceHolds.spotOrderbooks k bh [orderbook] =
      applyContributions bh (k.spotBookContributions orderbook) := by
    rw [spotOrderbooks_eq, List.flatMap_cons, List.flatMap_nil, List.append_nil]
  refine ⟨?_, ?_⟩
  · intro bh' hrun s d
    rw [hscan] at hrun
    obtain ⟨hall, rfl⟩ := applyContributions_some _ _ _ hrun
    have hok : ∀ o ∈ orderbook.Orders,
        (k.spotHold (k.GetSpotMarketByID (k.HexToHash orderbook.MarketId)) o).1.IsNil = false := by
      intro o ho
      refine contributionOk_spotContribution k _ o (hall _ ?_)
      rw [Keeper.spotBookContributions]
      exact List.mem_map_of_mem _ ho
    rw [spotBookContributions_eq k orderbook hok]
    exact HoldMap.addAll_map_get (fun o => (⟨k.SpotSubaccountIDHex o,
      (k.spotHold (k.GetSpotMarketByID (k.HexToHash orderbook.MarketId)) o).2,
      (k.spotHold (k.GetSpotMarketByID (k.HexToHash orderbook.MarketId)) o).1⟩ :
      HoldContribution)) orderbook.Orders bh s d
  · intro hok hbh hfit
    rw [hscan, spotBookContributions_eq k orderbook (fun o ho => (hok o ho).1)]
    exact ⟨_, applyContributions_map_returns (fun o => (⟨k.SpotSubaccountIDHex o,
      (k.spotHold (k.GetSpotMarketByID (k.HexToHash orderbook.MarketId)) o).2,
      (k.spotHold (k.GetSpotMarketByID (k.HexToHash orderbook.MarketId)) o).1⟩ :
      HoldContribution)) orderbook.Orders bh hok hbh hfit⟩

/-- Witness of C15: the spot book of the mixed example, scanned from the empty
hold map. -/
theorem spot_book_adds_margin_hold_at_hold_denom_witness :
    ∃ bh', GetAllBalancesWithBalanceHolds.spotOrderbooks exampleMixed HoldMap.empty
        [⟨"M1", [⟨"S1", NewDec 3⟩]⟩] = some bh' ∧
      ∀ s d, bh'.get s d =
        if (([⟨"S1", NewDec 3⟩] : List ExampleOrder).filter
            (fun o => decide (exampleMixed.SpotSubaccountIDHex o = s ∧
              (exampleMixed.spotHold
                (exampleMixed.GetSpotMarketByID (exampleMixed.HexToHash "M1")) o).2 = d))).isEmpty
        then HoldMap.empty.get s d
        else ⟨some ((HoldMap.empty.get s d).raw +
          ((([⟨"S1", NewDec 3⟩] : List ExampleOrder).filter
            (fun o => decide (exampleMixed.SpotSubaccountIDHex o = s ∧
              (exampleMixed.spotHold
                (exampleMixed.GetSpotMarketByID (exampleMixed.HexToHash "M1")) o).2 = d))).map
            (fun o => (exampleMixed.spotHold
              (exampleMixed.GetSpotMarketByID (exampleMixed.HexToHash "M1")) o).1.raw)).sum)⟩ :=
  match (spot_book_adds_margin_hold_at_hold_denom exampleMixed ⟨"M1", [⟨"S1", NewDec 3⟩]⟩
      HoldMap.empty).2 (by decide) HoldMap.empty_nonnegInRange
      (fun s d => HoldMap.empty_fits_of_total _ _ _ (by decide) (by decide) s d) with
  | ⟨bh', h⟩ =>
    ⟨bh', h, (spot_book_adds_margin_hold_at_hold_denom exampleMixed ⟨"M1", [⟨"S1", NewDec 3⟩]⟩
      HoldMap.empty).1 bh' h⟩

end BookContributions

/-! ## Scenario C -/

theorem applyContributions_pair_seven (s d : String) (a b : Int) (ha : 0 ≤ a) (hb : 0 ≤ b)
    (hab : a + b = 7 * 10 ^ Dec.Precision) :
    ∃ bh, applyContributions HoldMap.empty [some ⟨s, d, ⟨some a⟩⟩, some ⟨s, d, ⟨some b⟩⟩] =
        some bh ∧ bh.get s d = NewDec 7 := by
  have hseven : (7 * 10 ^ Dec.Precision : Int) < decBound := by
    unfold Dec.decBound Dec.integerBits Dec.decimalPrecisionBits Dec.Precision
    norm_num
  have h₁ : Dec.fits ((HoldMap.empty.get s d).raw + a) = true := by
    rw [HoldMap.get_empty]
    simp only [Dec.raw, Option.getD_none, zero_add]
    exact Dec.fits_of_nonneg ha (by omega)
  have h₂ : Dec.fits (((HoldMap.empty.added s d a).get s d).raw + b) = true := by
    rw [HoldMap.added_get, if_pos ⟨rfl, rfl⟩, HoldMap.get_empty]
    simp only [Dec.raw, Option.getD_none, Option.getD_some, zero_add]
    exact Dec.fits_of_nonneg (by omega) (by omega)
  rw [applyContributions_some_cons HoldMap.empty ⟨s, d, ⟨some a⟩⟩ _ rfl h₁]
  show ∃ bh, applyContributions (HoldMap.empty.added s d a) [some ⟨s, d, ⟨some b⟩⟩] = some bh ∧
    bh.get s d = NewDec 7
  rw [applyContributions_some_cons (HoldMap.empty.added s d a) ⟨s, d, ⟨some b⟩⟩ _ rfl h₂]
  refine ⟨_, rfl, ?_⟩
  rw [HoldMap.added_get, if_pos ⟨rfl, rfl⟩, HoldMap.added_get, if_pos ⟨rfl, rfl⟩,
    HoldMap.get_empty]
  simp only [Dec.raw, Option.getD_some, Option.getD_none, zero_add, Dec.NewDec, hab]

section ScenarioC

variable {Hash SpotLimitOrder SpotMarket DerivativeLimitOrder DerivativeMarket : Type}

/-- C16: two derivative orders of one subaccount whose markets have the same
quote denom and whose holds are `3` and `4`, being the only resting orders,
give that (subaccount, denom) the aggregated hold `7`, whether they are in two
books or in one book and in either scan order; a balance with that key gets the
hold `7`. -/
theorem scenarioC_aggregated_hold
    (k : Keeper Hash SpotLimitOrder SpotMarket DerivativeLimitOrder DerivativeMarket)
    (o₁ o₂ : DerivativeLimitOrder) (m₁ m₂ : String) (market₁ market₂ : DerivativeMarket)
    (s d : String)
    (hm₁ : k.GetDerivativeOrBinaryOptionsMarket (k.HexToHash m₁) = some market₁)
    (hm₂ : k.GetDerivativeOrBinaryOptionsMarket (k.HexToHash m₂) = some market₂)
    (hq₁ : k.GetQuoteDenom market₁ = d) (hq₂ : k.GetQuoteDenom market₂ = d)
    (hs₁ : k.DerivativeSubaccountIDHex o₁ = s) (hs₂ : k.DerivativeSubaccountIDHex o₂ = s)
    (hh₁ : k.cancelHold market₁ o₁ = NewDec 3) (hh₂ : k.cancelHold market₂ o₂ = NewDec 4)
    (hspot : k.GetAllSpotLimitOrderbook = [])
    (hbooks :
      k.GetAllDerivativeAndBinaryOptionsLimitOrderbook = [⟨m₁, [o₁]⟩, ⟨m₂, [o₂]⟩] ∨
      k.GetAllDerivativeAndBinaryOptionsLimitOrderbook = [⟨m₂, [o₂]⟩, ⟨m₁, [o₁]⟩] ∨
      (m₁ = m₂ ∧
        (k.GetAllDerivativeAndBinaryOptionsLimitOrderbook = [⟨m₁, [o₁, o₂]⟩] ∨
         k.GetAllDerivativeAndBinaryOptionsLimitOrderbook = [⟨m₁, [o₂, o₁]⟩]))) :
    ∃ bh, GetAllBalancesWithBalanceHolds.balanceHolds k = some bh ∧
      bh.get s d = NewDec 7 ∧
      ∀ b : Balance, b.SubaccountId = s → b.Denom = d →
        (bh.withHold b).BalanceHold = NewDec 7 := by
  have hc₁ : k.derivativeContribution (some market₁) o₁ = some ⟨s, d, NewDec 3⟩ := by
    unfold Keeper.cancelHold at hh₁
    unfold Keeper.derivativeContribution
    cases hdelta : k.GetCancelDepositDelta o₁ (k.GetMakerFeeRate market₁) with
    | none => rw [hdelta] at hh₁; exact absurd hh₁ (by decide)
    | some delta =>
      rw [hdelta] at hh₁
      simp only at hh₁
      simp only [hdelta, hh₁, hs₁, hq₁]
  have hc₂ : k.derivativeContribution (some market₂) o₂ = some ⟨s, d, NewDec 4⟩ := by
    unfold Keeper.cancelHold at hh₂
    unfold Keeper.derivativeContribution
    cases hdelta : k.GetCancelDepositDelta o₂ (k.GetMakerFeeRate market₂) with
    | none => rw [hdelta] at hh₂; exact absurd hh₂ (by decide)
    | some delta =>
      rw [hdelta] at hh₂
      simp only at hh₂
      simp only [hdelta, hh₂, hs₂, hq₂]
  have hcs : k.holdContributions = [some ⟨s, d, NewDec 3⟩, some ⟨s, d, NewDec 4⟩] ∨
      k.holdContributions = [some ⟨s, d, NewDec 4⟩, some ⟨s, d, NewDec 3⟩] := by
    rcases hbooks with h | h | ⟨hmm, h | h⟩
    · left
      simp [Keeper.holdContributions, hspot, h, Keeper.derivativeBookContributions, hm₁, hm₂,
        hc₁, hc₂]
    · right
      simp [Keeper.holdContributions, hspot, h, Keeper.derivativeBookContributions, hm₁, hm₂,
        hc₁, hc₂]
    · left
      subst hmm
      have hmk : market₁ = market₂ := Option.some.inj (hm₁.symm.trans hm₂)
      subst hmk
      simp [Keeper.holdContributions, hspot, h, Keeper.derivativeBookContributions, hm₁,
        hc₁, hc₂]
    · right
      subst hmm
      have hmk : market₁ = market₂ := Option.some.inj (hm₁.symm.trans hm₂)
      subst hmk
      simp [Keeper.holdContributions, hspot, h, Keeper.derivativeBookContributions, hm₁,
        hc₁, hc₂]
  have hrun : ∃ bh, GetAllBalancesWithBalanceHolds.balanceHolds k = some bh ∧
      bh.get s d = NewDec 7 := by
    rw [balanceHolds_eq]
    rcases hcs with h | h
    · rw [h]
      exact applyContributions_pair_seven s d _ _ (by norm_num [Dec.Precision])
        (by norm_num [Dec.Precision]) (by norm_num [Dec.Precision])
    · rw [h]
      exact applyContributions_pair_seven s d _ _ (by norm_num [Dec.Precision])
        (by norm_num [Dec.Precision]) (by norm_num [Dec.Precision])
  obtain ⟨bh, hbh, hget⟩ := hrun
  refine ⟨bh, hbh, hget, ?_⟩
  intro b hbs hbd
  unfold HoldMap.withHold
  simp only [hbs, hbd, hget]
  rfl

/-- Witness of C16 on the example keeper of scenario C (two books). -/
theorem scenarioC_aggregated_hold_witness :
    ∃ bh, GetAllBalancesWithBalanceHolds.balanceHolds scenarioC = some bh ∧
      bh.get "S1" "USDT" = NewDec 7 ∧
      ∀ b : Balance, b.SubaccountId = "S1" → b.Denom = "USDT" →
        (bh.withHold b).BalanceHold = NewDec 7 :=
  scenarioC_aggregated_hold scenarioC ⟨"S1", NewDec 3⟩ ⟨"S1", NewDec 4⟩ "D1" "D1" "USDT" "USDT"
    "S1" "USDT" rfl rfl rfl rfl rfl rfl rfl rfl rfl (Or.inl rfl)

end ScenarioC

/-! ## Holds without a recorded balance -/

section OrphanHolds

variable {Hash SpotLimitOrder SpotMarket DerivativeLimitOrder DerivativeMarket : Type}

/-- C21: whenever the hold view or the mismatch query returns, every record of
its output has the subaccount id and denom of some recorded balance; so a key
without recorded balance appears in neither output, whatever hold the resting
orders accumulate under it and whatever the dust factor. Both queries return
when the contributions are defined, non-nil, non-negative and sum to less than
`2^315` units, the records of the view have non-nil decimals and sums within
the decimal range, and the dust factor is an `int64`. -/
theorem holds_without_balance_invisible
    (k : Keeper Hash SpotLimitOrder SpotMarket DerivativeLimitOrder DerivativeMarket)
    (req : QueryBalanceMismatchesRequest) :
    (∀ out, GetAllBalancesWithBalanceHolds k = some out →
      ∀ r ∈ out, ∃ b ∈ k.GetAllExchangeBalances,
        r.SubaccountId = b.SubaccountId ∧ r.Denom = b.Denom) ∧
    (∀ res, BalanceMismatches k req = some res →
      ∀ m ∈ res.BalanceMismatches, ∃ b ∈ k.GetAllExchangeBalances,
        m.SubaccountId = b.SubaccountId ∧ m.Denom = b.Denom) ∧
    (∀ s d : String,
      (∀ b ∈ k.GetAllExchangeBalances, ¬ (b.SubaccountId = s ∧ b.Denom = d)) →
        (∀ out, GetAllBalancesWithBalanceHolds k = some out →
          ∀ r ∈ out, ¬ (r.SubaccountId = s ∧ r.Denom = d)) ∧
        (∀ res, BalanceMismatches k req = some res →
          ∀ m ∈ res.BalanceMismatches, ¬ (m.SubaccountId = s ∧ m.Denom = d))) ∧
    (k.HoldsInRange → k.ViewInRange → IsInt64 req.DustFactor →
      (∃ out, GetAllBalancesWithBalanceHolds k = some out) ∧
      ∃ res, BalanceMismatches k req = some res) := by
  have hsum : ∀ r ∈ k.sumView, ∃ b ∈ k.GetAllExchangeBalances,
      r.SubaccountId = b.SubaccountId ∧ r.Denom = b.Denom := by
    intro r hr
    obtain ⟨b, hb, rfl⟩ := List.mem_map.mp hr
    exact ⟨b, hb, rfl, rfl⟩
  have hout : ∀ out, GetAllBalancesWithBalanceHolds k = some out →
      ∀ r ∈ out, ∃ b ∈ k.GetAllExchangeBalances,
        r.SubaccountId = b.SubaccountId ∧ r.Denom = b.Denom := by
    intro out h r hr
    rw [view_eq_sumView k out h] at hr
    exact hsum r hr
  have hmis : ∀ res, BalanceMismatches k req = some res →
      ∀ m ∈ res.BalanceMismatches, ∃ b ∈ k.GetAllExchangeBalances,
        m.SubaccountId = b.SubaccountId ∧ m.Denom = b.Denom := by
    intro res h m hm
    have hloop := (balanceMismatches_some k req res h).2
    rw [(BalanceMismatches.loop_some _ _ _ _ hloop).2, List.nil_append] at hm
    obtain ⟨r, hr, rfl⟩ := List.mem_map.mp hm
    exact hsum r (List.mem_filter.mp hr).1
  refine ⟨hout, hmis, ?_, ?_⟩
  · intro s d hno
    constructor
    · rintro out h r hr ⟨hs, hd⟩
      obtain ⟨b, hb, hbs, hbd⟩ := hout out h r hr
      exact hno b hb ⟨hbs ▸ hs, hbd ▸ hd⟩
    · rintro res h m hm ⟨hs, hd⟩
      obtain ⟨b, hb, hbs, hbd⟩ := hmis res h m hm
      exact hno b hb ⟨hbs ▸ hs, hbd ▸ hd⟩
  · intro hscan hview hd
    exact ⟨⟨_, view_of_holdsInRange k hscan⟩, balanceMismatches_of_inRange k req hscan hview hd⟩

/-- Witness of C21: the hold of `5` USDT of `S9`, which has no recorded balance,
is in neither output. -/
theorem holds_without_balance_invisible_witness :
    holdSum exampleOrphanHold.holdContributions "S9" "USDT" ≠ 0 ∧
    ∃ out res, GetAllBalancesWithBalanceHolds exampleOrphanHold = some out ∧
      BalanceMismatches exampleOrphanHold ⟨0⟩ = some res ∧
      (∀ r ∈ out, ¬ (r.SubaccountId = "S9" ∧ r.Denom = "USDT")) ∧
      (∀ m ∈ res.BalanceMismatches, ¬ (m.SubaccountId = "S9" ∧ m.Denom = "USDT")) :=
  ⟨by decide,
   match (holds_without_balance_invisible exampleOrphanHold ⟨0⟩).2.2.2
      (by decide) (by decide) (by decide) with
   | ⟨⟨out, h₁⟩, ⟨res, h₂⟩⟩ =>
     ⟨out, res, h₁, h₂,
      ((holds_without_balance_invisible exampleOrphanHold ⟨0⟩).2.2.1 "S9" "USDT"
        (by decide)).1 out h₁,
      ((holds_without_balance_invisible exampleOrphanHold ⟨0⟩).2.2.1 "S9" "USDT"
        (by decide)).2 res h₂⟩⟩

end OrphanHolds

/-! ## Fee discount tier statistics -/

theorem foldl_update_zero (l : List Nat) :
    l.foldl (fun (m : Nat → Nat) i => Function.update m i 0) (fun _ => 0) = fun _ => 0 := by
  induction l with
  | nil => rfl
  | cons i rest ih =>
    rw [List.foldl_cons]
    have h : Function.update (fun _ : Nat => 0) i 0 = fun _ => 0 :=
      Function.update_eq_self i (fun _ : Nat => 0)
    rw [h, ih]

theorem countAccounts_eq (l : List FeeDiscountAccountTierTTL) :
    ∀ m : Nat → Nat, (∀ t, m t + l.length < uint64Size) →
      ∀ t, FeeDiscountTierStatistics.countAccounts m l t =
        m t + (l.filter (fun a => decide (a.TierTtl.Tier = t))).length := by
  induction l with
  | nil => intro m _ t; simp [FeeDiscountTierStatistics.countAccounts]
  | cons a rest ih =>
    intro m hm t
    have ha : (m a.TierTtl.Tier + 1) % uint64Size = m a.TierTtl.Tier + 1 := by
      have := hm a.TierTtl.Tier
      rw [List.length_cons] at this
      exact Nat.mod_eq_of_lt (by omega)
    rw [FeeDiscountTierStatistics.countAccounts, ha, ih]
    · by_cases hat : a.TierTtl.Tier = t
      · subst hat
        rw [Function.update_same, List.filter_cons_of_pos (by simp), List.length_cons]
        omega
      · have hta : t ≠ a.TierTtl.Tier := fun h => hat h.symm
        rw [Function.update_noteq hta, List.filter_cons_of_neg (by simpa using hat)]
    · intro t'
      have := hm t'
      rw [List.length_cons] at this
      by_cases hat : t' = a.TierTtl.Tier
      · subst hat
        rw [Function.update_same]
        omega
      · rw [Function.update_noteq hat]
        omega

theorem length_filter_cons {α : Type} (p : α → Bool) (a : α) (l : List α) :
    ((a :: l).filter p).length = (if p a = true then 1 else 0) + (l.filter p).length := by
  cases h : p a with
  | true => rw [List.filter_cons_of_pos h, List.length_cons]; simp; omega
  | false => rw [List.filter_cons_of_neg (by simp [h])]; simp

theorem filter_tier_lt_succ (l : List FeeDiscountAccountTierTTL) (n : Nat) :
    (l.filter (fun a => decide (a.TierTtl.Tier < n + 1))).length =
      (l.filter (fun a => decide (a.TierTtl.Tier < n))).length +
        (l.filter (fun a => decide (a.TierTtl.Tier = n))).length := by
  induction l with
  | nil => rfl
  | cons a rest ih =>
    rw [length_filter_cons, length_filter_cons, length_filter_cons, ih]
    simp only [decide_eq_true_eq]
    split_ifs <;> omega

theorem sum_tier_counts (l : List FeeDiscountAccountTierTTL) (n : Nat) :
    ((List.range n).map
      (fun i => (l.filter (fun a => decide (a.TierTtl.Tier = i))).length)).sum =
      (l.filter (fun a => decide (a.TierTtl.Tier < n))).length := by
  induction n with
  | zero => simp
  | succ n ih =>
    rw [List.range_succ, List.map_append, List.sum_append, ih, filter_tier_lt_succ]
    simp

/-- Without a fee discount schedule the query panics on the nil pointer. -/
theorem FeeDiscountTierStatistics_nil_schedule {TierInfo : Type}
    (k : FeeDiscountKeeper TierInfo) (h : k.GetFeeDiscountSchedule = none) :
    FeeDiscountTierStatistics k = none := by
  rw [FeeDiscountTierStatistics, h]

/-- C22: with a fee discount schedule of `tierCount` tiers (and fewer than
`2^64` accounts, so that no `uint64` counter wraps), `FeeDiscountTierStatistics`
returns exactly `tierCount` entries; entry `i` has `Tier = i` and `Count` the
number of account tier infos whose tier is `i`; an account whose tier is at
least `tierCount` is counted in no entry, and the counts sum to the number of
accounts with tier below `tierCount`. -/
theorem tier_statistics_counts {TierInfo : Type} (k : FeeDiscountKeeper TierInfo)
    (schedule : FeeDiscountSchedule TierInfo)
    (hs : k.GetFeeDiscountSchedule = some schedule)
    (hlen : k.GetAllFeeDiscountAccountTierInfo.length < uint64Size) :
    ∃ res, FeeDiscountTierStatistics k = some res ∧
      res.Statistics.length = schedule.TierInfos.length ∧
      res.Statistics = (List.range schedule.TierInfos.length).map (fun i =>
        ⟨i, (k.GetAllFeeDiscountAccountTierInfo.filter
          (fun a => decide (a.TierTtl.Tier = i))).length⟩) ∧
      (∀ a ∈ k.GetAllFeeDiscountAccountTierInfo, schedule.TierInfos.length ≤ a.TierTtl.Tier →
        ∀ st ∈ res.Statistics, st.Tier ≠ a.TierTtl.Tier) ∧
      (res.Statistics.map (fun st => st.Count)).sum =
        (k.GetAllFeeDiscountAccountTierInfo.filter
          (fun a => decide (a.TierTtl.Tier < schedule.TierInfos.length))).length := by
  have hres : FeeDiscountTierStatistics k =
      some ⟨(List.range schedule.TierInfos.length).map (fun i =>
        ⟨i, (k.GetAllFeeDiscountAccountTierInfo.filter
          (fun a => decide (a.TierTtl.Tier = i))).length⟩)⟩ := by
    rw [FeeDiscountTierStatistics, hs]
    simp only [foldl_update_zero]
    congr 2
    refine List.map_congr_left ?_
    intro i _
    rw [countAccounts_eq _ _ (fun t => by simpa using hlen)]
    simp
  refine ⟨_, hres, ?_, rfl, ?_, ?_⟩
  · simp
  · intro a _ hge st hst
    simp only [List.mem_map, List.mem_range] at hst
    obtain ⟨i, hi, rfl⟩ := hst
    simp only
    omega
  · rw [List.map_map]
    exact sum_tier_counts _ _

/-- Witness of C22: three tiers and accounts with tiers `0`, `2`, `2`, `5`. -/
theorem tier_statistics_counts_witness :
    ∃ res, FeeDiscountTierStatistics exampleFeeDiscount = some res ∧
      res.Statistics.length = 3 ∧
      res.Statistics = (List.range 3).map (fun i =>
        ⟨i, (exampleFeeDiscount.GetAllFeeDiscountAccountTierInfo.filter
          (fun a => decide (a.TierTtl.Tier = i))).length⟩) ∧
      (∀ a ∈ exampleFeeDiscount.GetAllFeeDiscountAccountTierInfo, 3 ≤ a.TierTtl.Tier →
        ∀ st ∈ res.Statistics, st.Tier ≠ a.TierTtl.Tier) ∧
      (res.Statistics.map (fun st => st.Count)).sum =
        (exampleFeeDiscount.GetAllFeeDiscountAccountTierInfo.filter
          (fun a => decide (a.TierTtl.Tier < 3))).length :=
  tier_statistics_counts exampleFeeDiscount ⟨[(), (), ()]⟩ rfl (by decide)

/-! ## Aggregate market volumes -/

theorem mem_firstOccurrences {α : Type} [DecidableEq α] (l : List α) (h : α) :
    h ∈ firstOccurrences l ↔ h ∈ l := by
  induction l with
  | nil => simp [firstOccurrences]
  | cons a rest ih =>
    rw [firstOccurrences, List.mem_cons, List.mem_cons, List.mem_filter, ih]
    by_cases hha : h = a
    · simp [hha]
    · simp [hha]

theorem nodup_firstOccurrences {α : Type} [DecidableEq α] (l : List α) :
    (firstOccurrences l).Nodup := by
  induction l with
  | nil => exact List.nodup_nil
  | cons a rest ih =>
    rw [firstOccurrences, List.nodup_cons]
    refine ⟨?_, ih.filter _⟩
    intro hmem
    have := (List.mem_filter.mp hmem).2
    simp at this

theorem firstOccurrences_sublist {α : Type} [DecidableEq α] (l : List α) :
    (firstOccurrences l).Sublist l := by
  induction l with
  | nil => exact List.Sublist.slnil
  | cons a rest ih =>
    rw [firstOccurrences]
    exact List.Sublist.cons₂ a ((List.filter_sublist _).trans ih)

theorem accounts_ok {Hash V AccAddress Error : Type}
    (k : VolumeKeeper Hash V AccAddress Error) (marketIDs : List Hash)
    (marketIDMap : Hash → Bool) (accounts : List String) :
    ∀ accountVolumes : List (AggregateAccountVolumeRecord V),
      (∀ a ∈ accounts, k.IsHexHash a = true ∨ ∃ addr, k.AccAddressFromBech32 a = .ok addr) →
      ∃ out, AggregateVolumes.accounts k marketIDs marketIDMap accountVolumes accounts =
        .ok out := by
  induction accounts with
  | nil => intro acc _; exact ⟨acc, rfl⟩
  | cons a rest ih =>
    intro acc h
    have hrest : ∀ a ∈ rest,
        k.IsHexHash a = true ∨ ∃ addr, k.AccAddressFromBech32 a = .ok addr :=
      fun x hx => h x (List.mem_cons_of_mem _ hx)
    have hone : ∃ record, AggregateVolumes.account k marketIDs marketIDMap a = .ok record := by
      unfold AggregateVolumes.account
      rcases h a (List.mem_cons_self _ _) with hhex | ⟨addr, haddr⟩
      · cases k.AccAddressFromBech32 a with
        | error err => simp [hhex]
        | ok addr => simp [hhex]
      · rw [haddr]
        cases k.IsHexHash a with
        | true => simp
        | false => simp
    obtain ⟨record, hrecord⟩ := hone
    rw [AggregateVolumes.accounts, hrecord]
    exact ih _ hrest

section AggregateVolumesLemmas

variable {Hash V AccAddress Error : Type} [DecidableEq Hash]

theorem markets_marketVolumes (k : VolumeKeeper Hash V AccAddress Error)
    (marketIds : List String) :
    ∀ (marketVolumes : List (MarketVolume V)) (marketIDs : List Hash)
      (marketIDMap : Hash → Bool),
      (AggregateVolumes.markets k (marketVolumes, marketIDs, marketIDMap) marketIds).1 =
        marketVolumes ++
          ((firstOccurrences (marketIds.map k.HexToHash)).filter
            (fun h => !marketIDMap h)).map
              (fun h => { MarketId := k.Hex h, Volume := k.GetMarketAggregateVolume h }) := by
  induction marketIds with
  | nil => intro mv ids seen; simp [AggregateVolumes.markets, firstOccurrences]
  | cons marketId rest ih =>
    intro mv ids seen
    rw [AggregateVolumes.markets, List.map_cons, firstOccurrences]
    cases hseen : seen (k.HexToHash marketId) with
    | true =>
      simp only [if_true]
      rw [ih, List.filter_cons_of_neg (by simp [hseen]), List.filter_filter]
      congr 2
      refine List.filter_congr ?_
      intro h _
      by_cases hh : h = k.HexToHash marketId
      · simp [hh, hseen]
      · simp [hh]
    | false =>
      simp only [Bool.false_eq_true, if_false]
      rw [ih, List.filter_cons_of_pos (by simp [hseen]), List.filter_filter, List.map_cons,
        List.append_assoc, List.singleton_append]
      congr 3
      refine List.filter_congr ?_
      intro h _
      by_cases hh : h = k.HexToHash marketId
      · simp [hh]
      · simp [hh]

/-- C23: when every requested account is a hex hash or a valid bech32 address
(otherwise the query returns the address error and no list), `AggregateVolumes`
returns a response whose `AggregateMarketVolumes` has one entry for each
distinct market hash of the request, in the order of first occurrence, carrying
the hash's `Hex()` and the market's aggregate volume, zero or not; and every
response the query returns has this list. -/
theorem aggregate_market_volumes_first_occurrences
    (k : VolumeKeeper Hash V AccAddress Error) (req : QueryAggregateVolumesRequest)
    (hacc : ∀ a ∈ req.Accounts,
      k.IsHexHash a = true ∨ ∃ addr, k.AccAddressFromBech32 a = .ok addr) :
    (∃ res, AggregateVolumes k req = .ok res ∧
      res.AggregateMarketVolumes =
        (firstOccurrences (req.MarketIds.map k.HexToHash)).map
          (fun h => { MarketId := k.Hex h, Volume := k.GetMarketAggregateVolume h })) ∧
    (firstOccurrences (req.MarketIds.map k.HexToHash)).Nodup ∧
    (∀ h, h ∈ firstOccurrences (req.MarketIds.map k.HexToHash) ↔
      h ∈ req.MarketIds.map k.HexToHash) ∧
    (firstOccurrences (req.MarketIds.map k.HexToHash)).Sublist (req.MarketIds.map k.HexToHash) ∧
    (∀ (k' : VolumeKeeper Hash V AccAddress Error) (req' : QueryAggregateVolumesRequest)
      (res' : QueryAggregateVolumesResponse V), AggregateVolumes k' req' = .ok res' →
        res'.AggregateMarketVolumes =
          (firstOccurrences (req'.MarketIds.map k'.HexToHash)).map
            (fun h => { MarketId := k'.Hex h, Volume := k'.GetMarketAggregateVolume h })) := by
  have hlist : ∀ (k' : VolumeKeeper Hash V AccAddress Error) (ids : List String),
      (AggregateVolumes.markets k' ([], [], fun _ => false) ids).1 =
        (firstOccurrences (ids.map k'.HexToHash)).map
          (fun h => { MarketId := k'.Hex h, Volume := k'.GetMarketAggregateVolume h }) := by
    intro k' ids
    rw [markets_marketVolumes, List.nil_append]
    congr 1
    rw [List.filter_eq_self]
    intro h _
    rfl
  refine ⟨?_, nodup_firstOccurrences _, mem_firstOccurrences _, firstOccurrences_sublist _, ?_⟩
  · unfold AggregateVolumes
    obtain ⟨out, hout⟩ := accounts_ok k
      (AggregateVolumes.markets k ([], [], fun _ => false) req.MarketIds).2.1
      (AggregateVolumes.markets k ([], [], fun _ => false) req.MarketIds).2.2
      req.Accounts [] hacc
    refine ⟨⟨out, (AggregateVolumes.markets k ([], [], fun _ => false) req.MarketIds).1⟩, ?_,
      hlist k req.MarketIds⟩
    simp only [hout]
  · intro k' req' res' hres
    unfold AggregateVolumes at hres
    rw [← hlist k' req'.MarketIds]
    cases hacc' : AggregateVolumes.accounts k'
        (AggregateVolumes.markets k' ([], [], fun _ => false) req'.MarketIds).2.1
        (AggregateVolumes.markets k' ([], [], fun _ => false) req'.MarketIds).2.2
        [] req'.Accounts with
    | error err => simp only [hacc'] at hres; cases hres
    | ok out =>
      simp only [hacc'] at hres
      cases hres
      rfl

/-- Witness of C23: the request `0xb, 0xA, 0xb, 0xa` has the two distinct
hashes `0xb` (volume `0`) and `0xa` (volume `7`). -/
theorem aggregate_market_volumes_first_occurrences_witness :
    ∃ res, AggregateVolumes exampleVolumes ⟨["0xs1", "inj1"], ["0xb", "0xA", "0xb", "0xa"]⟩ =
        .ok res ∧
      res.AggregateMarketVolumes =
        (firstOccurrences (["0xb", "0xA", "0xb", "0xa"].map exampleVolumes.HexToHash)).map
          (fun h => { MarketId := exampleVolumes.Hex h,
                      Volume := exampleVolumes.GetMarketAggregateVolume h }) :=
  (aggregate_market_volumes_first_occurrences exampleVolumes
    ⟨["0xs1", "inj1"], ["0xb", "0xA", "0xb", "0xa"]⟩
    (by
      intro a ha
      simp only [List.mem_cons, List.mem_singleton, List.not_mem_nil, or_false] at ha
      rcases ha with rfl | rfl
      · exact Or.inl (by decide)
      · exact Or.inr ⟨"inj1", rfl⟩)).1

end AggregateVolumesLemmas

/-! ## Reference price check of the cancel-up-to-amount queries -/

theorem referencePriceMissing_iff (p : Option Dec) :
    referencePriceMissing p = true ↔ (p = none ∨ ∃ d, p = some d ∧ d.IsNil = true) := by
  cases p with
  | none => simp [referencePriceMissing]
  | some d => simp [referencePriceMissing]

section CancelUpToAmountLemmas

variable {Hash S SpotMarket SpotOrder DerivativeMarket DerivativeOrder : Type} [DecidableEq S]

theorem spotCancel_of_market
    (k : CancelKeeper Hash S SpotMarket SpotOrder DerivativeMarket DerivativeOrder)
    (req : QueryTraderSpotOrdersToCancelUpToAmountRequest S) (market : SpotMarket)
    (hm : k.GetSpotMarket (k.HexToHash req.MarketId) true = some market) :
    TraderSpotOrdersToCancelUpToAmountRequest k req =
      if req.Strategy ≠ k.UnspecifiedOrder ∧ referencePriceMissing req.ReferencePrice = true then
        some (.error .ErrInvalidPrice)
      else
        (k.GetSpotOrdersToCancelUpToAmount market
          (k.GetAllTraderSpotLimitOrders (k.HexToHash req.MarketId)
            (k.HexToHash req.SubaccountId))
          req.Strategy req.ReferencePrice req.BaseAmount req.QuoteAmount).map
          (fun p => if !p.2 then .error .ErrTransientOrdersUpToCancelNotSupported
            else .ok { Orders := p.1 }) := by
  unfold TraderSpotOrdersToCancelUpToAmountRequest
  simp only [hm]
  by_cases hc : req.Strategy ≠ k.UnspecifiedOrder ∧
      referencePriceMissing req.ReferencePrice = true
  · rw [if_pos hc, if_pos hc]
  · rw [if_neg hc, if_neg hc]
    cases k.GetSpotOrdersToCancelUpToAmount market
        (k.GetAllTraderSpotLimitOrders (k.HexToHash req.MarketId)
          (k.HexToHash req.SubaccountId))
        req.Strategy req.ReferencePrice req.BaseAmount req.QuoteAmount with
    | none => rfl
    | some p =>
      obtain ⟨orders, full⟩ := p
      cases full <;> rfl

theorem derivativeCancel_of_market
    (k : CancelKeeper Hash S SpotMarket SpotOrder DerivativeMarket DerivativeOrder)
    (req : QueryTraderDerivativeOrdersToCancelUpToAmountRequest S) (market : DerivativeMarket)
    (hm : k.GetDerivativeMarket (k.HexToHash req.MarketId) true = some market) :
    TraderDerivativeOrdersToCancelUpToAmountRequest k req =
      if req.Strategy ≠ k.UnspecifiedOrder ∧ referencePriceMissing req.ReferencePrice = true then
        some (.error .ErrInvalidPrice)
      else
        (k.GetDerivativeOrdersToCancelUpToAmount market
          (k.GetAllTraderDerivativeLimitOrders (k.HexToHash req.MarketId)
            (k.HexToHash req.SubaccountId))
          req.Strategy req.ReferencePrice req.QuoteAmount).map
          (fun p => if !p.2 then .error .ErrTransientOrdersUpToCancelNotSupported
            else .ok { Orders := p.1 }) := by
  unfold TraderDerivativeOrdersToCancelUpToAmountRequest
  simp only [hm]
  by_cases hc : req.Strategy ≠ k.UnspecifiedOrder ∧
      referencePriceMissing req.ReferencePrice = true
  · rw [if_pos hc, if_pos hc]
  · rw [if_neg hc, if_neg hc]
    cases k.GetDerivativeOrdersToCancelUpToAmount market
        (k.GetAllTraderDerivativeLimitOrders (k.HexToHash req.MarketId)
          (k.HexToHash req.SubaccountId))
        req.Strategy req.ReferencePrice req.QuoteAmount with
    | none => rfl
    | some p =>
      obtain ⟨orders, full⟩ := p
      cases full <;> rfl

theorem map_outcome_ne_invalidPrice {Order Response : Type} (mk : List Order → Response)
    (r : Option (List Order × Bool)) :
    r.map (fun p => if !p.2 then
        (.error .ErrTransientOrdersUpToCancelNotSupported : Except ExchangeError Response)
      else .ok (mk p.1)) ≠ some (.error .ErrInvalidPrice) := by
  cases r with
  | none => simp
  | some p =>
    obtain ⟨orders, full⟩ := p
    cases full <;> simp

/-- C24: each of the two cancel-up-to-amount queries returns `ErrInvalidPrice`
if and only if the market exists, the strategy is not `UnspecifiedOrder` and
the reference price is a nil pointer or a nil decimal; a missing market gives
the market-not-found error whatever the other fields are; and with the
strategy `UnspecifiedOrder` on an existing market the reference price is not
examined: the result is that of the selection function. -/
theorem cancel_up_to_amount_invalid_price
    (k : CancelKeeper Hash S SpotMarket SpotOrder DerivativeMarket DerivativeOrder)
    (sreq : QueryTraderSpotOrdersToCancelUpToAmountRequest S)
    (dreq : QueryTraderDerivativeOrdersToCancelUpToAmountRequest S) :
    (TraderSpotOrdersToCancelUpToAmountRequest k sreq = some (.error .ErrInvalidPrice) ↔
      (k.GetSpotMarket (k.HexToHash sreq.MarketId) true).isSome = true ∧
        sreq.Strategy ≠ k.UnspecifiedOrder ∧
        (sreq.ReferencePrice = none ∨ ∃ d, sreq.ReferencePrice = some d ∧ d.IsNil = true)) ∧
    (k.GetSpotMarket (k.HexToHash sreq.MarketId) true = none →
      TraderSpotOrdersToCancelUpToAmountRequest k sreq =
        some (.error .ErrSpotMarketNotFound)) ∧
    (∀ market, k.GetSpotMarket (k.HexToHash sreq.MarketId) true = some market →
      sreq.Strategy = k.UnspecifiedOrder →
      TraderSpotOrdersToCancelUpToAmountRequest k sreq =
        (k.GetSpotOrdersToCancelUpToAmount market
          (k.GetAllTraderSpotLimitOrders (k.HexToHash sreq.MarketId)
            (k.HexToHash sreq.SubaccountId))
          sreq.Strategy sreq.ReferencePrice sreq.BaseAmount sreq.QuoteAmount).map
          (fun p => if !p.2 then .error .ErrTransientOrdersUpToCancelNotSupported
            else .ok { Orders := p.1 })) ∧
    (TraderDerivativeOrdersToCancelUpToAmountRequest k dreq = some (.error .ErrInvalidPrice) ↔
      (k.GetDerivativeMarket (k.HexToHash dreq.MarketId) true).isSome = true ∧
        dreq.Strategy ≠ k.UnspecifiedOrder ∧
        (dreq.ReferencePrice = none ∨ ∃ d, dreq.ReferencePrice = some d ∧ d.IsNil = true)) ∧
    (k.GetDerivativeMarket (k.HexToHash dreq.MarketId) true = none →
      TraderDerivativeOrdersToCancelUpToAmountRequest k dreq =
        some (.error .ErrDerivativeMarketNotFound)) ∧
    (∀ market, k.GetDerivativeMarket (k.HexToHash dreq.MarketId) true = some market →
      dreq.Strategy = k.UnspecifiedOrder →
      TraderDerivativeOrdersToCancelUpToAmountRequest k dreq =
        (k.GetDerivativeOrdersToCancelUpToAmount market
          (k.GetAllTraderDerivativeLimitOrders (k.HexToHash dreq.MarketId)
            (k.HexToHash dreq.SubaccountId))
          dreq.Strategy dreq.ReferencePrice dreq.QuoteAmount).map
          (fun p => if !p.2 then .error .ErrTransientOrdersUpToCancelNotSupported
            else .ok { Orders := p.1 })) := by
  have hsnone : k.GetSpotMarket (k.HexToHash sreq.MarketId) true = none →
      TraderSpotOrdersToCancelUpToAmountRequest k sreq =
        some (.error .ErrSpotMarketNotFound) := by
    intro hm
    unfold TraderSpotOrdersToCancelUpToAmountRequest
    simp only [hm]
  have hdnone : k.GetDerivativeMarket (k.HexToHash dreq.MarketId) true = none →
      TraderDerivativeOrdersToCancelUpToAmountRequest k dreq =
        some (.error .ErrDerivativeMarketNotFound) := by
    intro hm
    unfold TraderDerivativeOrdersToCancelUpToAmountRequest
    simp only [hm]
  refine ⟨?_, hsnone, ?_, ?_, hdnone, ?_⟩
  · rw [← referencePriceMissing_iff]
    cases hm : k.GetSpotMarket (k.HexToHash sreq.MarketId) true with
    | none =>
      rw [hsnone hm]
      simp
    | some market =>
      rw [spotCancel_of_market k sreq market hm]
      simp only [Option.isSome_some, true_and]
      by_cases hc : sreq.Strategy ≠ k.UnspecifiedOrder ∧
          referencePriceMissing sreq.ReferencePrice = true
      · rw [if_pos hc]
        exact ⟨fun _ => hc, fun _ => rfl⟩
      · rw [if_neg hc]
        exact ⟨fun h => absurd h (map_outcome_ne_invalidPrice _ _), fun h => absurd h hc⟩
  · intro market hm hst
    rw [spotCancel_of_market k sreq market hm, if_neg (fun h => h.1 hst)]
  · rw [← referencePriceMissing_iff]
    cases hm : k.GetDerivativeMarket (k.HexToHash dreq.MarketId) true with
    | none =>
      rw [hdnone hm]
      simp
    | some market =>
      rw [derivativeCancel_of_market k dreq market hm]
      simp only [Option.isSome_some, true_and]
      by_cases hc : dreq.Strategy ≠ k.UnspecifiedOrder ∧
          referencePriceMissing dreq.ReferencePrice = true
      · rw [if_pos hc]
        exact ⟨fun _ => hc, fun _ => rfl⟩
      · rw [if_neg hc]
        exact ⟨fun h => absurd h (map_outcome_ne_invalidPrice _ _), fun h => absurd h hc⟩
  · intro market hm hst
    rw [derivativeCancel_of_market k dreq market hm, if_neg (fun h => h.1 hst)]

/-- Witness of C24: a missing market, and an absent reference price with the
unspecified strategy on an existing market. -/
theorem cancel_up_to_amount_invalid_price_witness :
    TraderSpotOrdersToCancelUpToAmountRequest exampleCancel
        ⟨"MX", "S1", ZeroDec, ZeroDec, 1, none⟩ = some (.error .ErrSpotMarketNotFound) ∧
    TraderSpotOrdersToCancelUpToAmountRequest exampleCancel
        ⟨"M1", "S1", ZeroDec, ZeroDec, 0, none⟩ =
      (exampleCancel.GetSpotOrdersToCancelUpToAmount ()
        (exampleCancel.GetAllTraderSpotLimitOrders "M1" "S1") 0 none ZeroDec ZeroDec).map
        (fun p => if !p.2 then .error .ErrTransientOrdersUpToCancelNotSupported
          else .ok { Orders := p.1 }) ∧
    TraderDerivativeOrdersToCancelUpToAmountRequest exampleCancel
        ⟨"DX", "S1", ZeroDec, 1, none⟩ = some (.error .ErrDerivativeMarketNotFound) ∧
    TraderDerivativeOrdersToCancelUpToAmountRequest exampleCancel
        ⟨"D1", "S1", ZeroDec, 0, none⟩ =
      (exampleCancel.GetDerivativeOrdersToCancelUpToAmount ()
        (exampleCancel.GetAllTraderDerivativeLimitOrders "D1" "S1") 0 none ZeroDec).map
        (fun p => if !p.2 then .error .ErrTransientOrdersUpToCancelNotSupported
          else .ok { Orders := p.1 }) :=
  ⟨(cancel_up_to_amount_invalid_price exampleCancel ⟨"MX", "S1", ZeroDec, ZeroDec, 1, none⟩
      ⟨"DX", "S1", ZeroDec, 1, none⟩).2.1 rfl,
   (cancel_up_to_amount_invalid_price exampleCancel ⟨"M1", "S1", ZeroDec, ZeroDec, 0, none⟩
      ⟨"D1", "S1", ZeroDec, 0, none⟩).2.2.1 () rfl rfl,
   (cancel_up_to_amount_invalid_price exampleCancel ⟨"MX", "S1", ZeroDec, ZeroDec, 1, none⟩
      ⟨"DX", "S1", ZeroDec, 1, none⟩).2.2.2.2.1 rfl,
   (cancel_up_to_amount_invalid_price exampleCancel ⟨"M1", "S1", ZeroDec, ZeroDec, 0, none⟩
      ⟨"D1", "S1", ZeroDec, 0, none⟩).2.2.2.2.2 () rfl rfl⟩

end CancelUpToAmountLemmas

end Exchange
